import Mathlib

/-! Mython: the lexer of `src/Mython/lexer.cpp`

A shallow embedding of `parse::Lexer`.  Text is a list of characters, a
`std::string_view` is the list of characters it still spans, and the member
functions that mutate `*this` and the view return the new view and the new
lexer.  A call whose C++ precondition is violated (a `string_view` subscript
at or past `size()`, `front()` of an empty view, `remove_prefix` past the end)
yields `Outcome.undefined`; `throw parse::LexerError(msg)` yields
`Outcome.lexerError msg`.  The `while` loop of `AddTokensFromString` is run
with a budget of passes and yields `Outcome.outOfFuel` when the budget is
spent before the loop condition turns false.
-/

namespace parse

/-- Variants of `parse::Token` (`token_type::Number` .. `token_type::Eof`). -/
inductive Token where
  | Number (value : Int)
  | Id (value : List Char)
  | String (value : List Char)
  | Char (value : Char)
  | Class | Return | If | Else | Def | Newline | Print | Indent | Dedent
  | And | Or | Not | Eq | NotEq | LessOrEq | GreaterOrEq | None | True | False
  | Eof
  deriving DecidableEq

/-- Result of running a piece of the lexer. -/
inductive Outcome (α : Type) where
  | ok (a : α)
  | lexerError (what : String)
  | undefined
  | outOfFuel
  deriving DecidableEq

namespace Outcome

/-- Sequencing: the first outcome that is not `ok` ends the run. -/
def bind {α β : Type} : Outcome α → (α → Outcome β) → Outcome β
  | ok a, f => f a
  | lexerError w, _ => lexerError w
  | undefined, _ => undefined
  | outOfFuel, _ => outOfFuel

instance : Monad Outcome where
  pure := Outcome.ok
  bind := Outcome.bind

end Outcome

/-- Value of `std::string_view::npos` (`size_t(-1)`, 64-bit `size_t`). -/
def npos : Nat := 18446744073709551615

/-- Largest `int` (32-bit `int`), stored by `operator>>` on overflow. -/
def INT_MAX : Nat := 2147483647

/-- Model of `isdigit` in the "C" locale. -/
def isdigit (c : Char) : Bool := decide (48 ≤ c.toNat ∧ c.toNat ≤ 57)

/-- Model of `isprint` in the "C" locale: the codes 0x20 .. 0x7E. -/
def isprint (c : Char) : Bool := decide (32 ≤ c.toNat ∧ c.toNat ≤ 126)

/-- Model of `isalnum` in the "C" locale. -/
def isalnum (c : Char) : Bool :=
  isdigit c || decide (65 ≤ c.toNat ∧ c.toNat ≤ 90) || decide (97 ≤ c.toNat ∧ c.toNat ≤ 122)

/-- The call `line.find_first_not_of(c)`: index of the first character that
differs from `c`, or `npos`. -/
def find_first_not_of (line : List Char) (c : Char) : Nat :=
  let k := (line.takeWhile (fun x => x == c)).length
  if k = line.length then npos else k

/-- The subscript `line[pos]`; the precondition is `pos < size()`. -/
def subscript (line : List Char) (pos : Nat) : Outcome Char :=
  match line.get? pos with
  | some c => Outcome.ok c
  | none => Outcome.undefined

/-- The call `line.front()`; the precondition is a non-empty view. -/
def front (line : List Char) : Outcome Char := subscript line 0

/-- The call `line.remove_prefix(n)`; the precondition is `n <= size()`. -/
def removePrefix (n : Nat) (line : List Char) : Outcome (List Char) :=
  if n ≤ line.length then Outcome.ok (line.drop n) else Outcome.undefined

/-- The data members of `parse::Lexer`. -/
structure Lexer where
  token_flow_ : List Token
  indentation_level_ : Nat
  current_token : Nat
  deriving DecidableEq

namespace Lexer

/-- The call `token_flow_.push_back(t)`. -/
def push_back (self : Lexer) (t : Token) : Lexer :=
  { self with token_flow_ := self.token_flow_ ++ [t] }

/-- Embedding of `Lexer::IgnoreLine`. -/
def IgnoreLine (line : List Char) : Bool :=
  if line.length = 0 then true
  else
    let pos := find_first_not_of line ' '
    if pos = npos then true
    else if line.get? pos = some '#' then true
    else false

/-- Embedding of `Lexer::AddIndent`.  The level and the difference of levels
are unbounded integers here (no line is long enough to overflow `int`). -/
def AddIndent (line : List Char) (self : Lexer) : Outcome (List Char × Lexer) :=
  let lvl_indent := find_first_not_of line ' '
  if lvl_indent % 2 ≠ 0 then
    Outcome.lexerError "incorrect number of margins"
  else
    let delta_indentation : Int := ((lvl_indent / 2 : Nat) : Int) - (self.indentation_level_ : Int)
    let tok := if delta_indentation > 0 then Token.Indent else Token.Dedent
    let self1 : Lexer :=
      { self with token_flow_ := self.token_flow_ ++ List.replicate delta_indentation.natAbs tok }
    let self2 : Lexer := { self1 with indentation_level_ := lvl_indent / 2 }
    do
      let line1 ← removePrefix lvl_indent line
      pure (line1, self2)

/-- Embedding of `Lexer::ReadNumber` on the text handed over by `AddNumber`,
which begins with a digit: `in >> result` reads the maximal run of decimal
digits and stores its value, or `INT_MAX` when the value does not fit `int`.
(On text without a leading digit the extraction fails and stores 0; signs and
leading white space, which `AddNumber` never passes, are not modelled.) -/
def ReadNumber (text : List Char) : Int :=
  let v := (text.takeWhile isdigit).foldl (fun acc d => 10 * acc + (d.toNat - 48)) 0
  if v ≤ INT_MAX then (v : Int) else (INT_MAX : Int)

/-- Length of `std::to_string(number)`. -/
def to_string_size (number : Int) : Nat := (toString number).length

/-- Embedding of `Lexer::AddNumber`. -/
def AddNumber (line : List Char) (self : Lexer) : Outcome (List Char × Lexer) :=
  let number := ReadNumber line
  let self1 := self.push_back (Token.Number number)
  do
    let line1 ← removePrefix (to_string_size number) line
    pure (line1, self1)

/-- Embedding of `Lexer::AddComparisonOperator`. -/
def AddComparisonOperator (line : List Char) (self : Lexer) : Outcome (List Char × Lexer) := do
  let c ← front line
  if c = '=' then
    let c1 ← subscript line 1
    if c1 = '=' then
      let line1 ← removePrefix 2 line
      pure (line1, self.push_back Token.Eq)
    else
      let line1 ← removePrefix 1 line
      pure (line1, self.push_back (Token.Char '='))
  else if c = '!' then
    let c1 ← subscript line 1
    if c1 = '=' then
      let line1 ← removePrefix 2 line
      pure (line1, self.push_back Token.NotEq)
    else
      pure (line, self)
  else if c = '<' then
    let c1 ← subscript line 1
    if c1 = '=' then
      let line1 ← removePrefix 2 line
      pure (line1, self.push_back Token.LessOrEq)
    else
      let line1 ← removePrefix 1 line
      pure (line1, self.push_back (Token.Char '<'))
  else if c = '>' then
    let c1 ← subscript line 1
    if c1 = '=' then
      let line1 ← removePrefix 2 line
      pure (line1, self.push_back Token.GreaterOrEq)
    else
      let line1 ← removePrefix 1 line
      pure (line1, self.push_back (Token.Char '>'))
  else
    pure (line, self)

/-- The `switch (escaped_char)` of `Lexer::AddString`: the string `s` after
the escape `\e`; an `e` outside the six cases leaves `s` as it is. -/
def pushEscaped (s : List Char) (e : Char) : List Char :=
  if e = 'n' then s ++ ['\n']
  else if e = 't' then s ++ ['\t']
  else if e = 'r' then s ++ ['\r']
  else if e = '"' then s ++ ['"']
  else if e = '\\' then s ++ ['\\']
  else if e = '\'' then s ++ ['\'']
  else s

/-- The `while (true)` loop of `Lexer::AddString`.  `rest` is the part of the
view from index `pos_end_string` on, so `line[pos_end_string]` is the head of
`rest` and is out of range when `rest` is empty.  The result is the final
`pos_end_string` and `s`. -/
def AddString.loop (type_quotation_marks : Char) :
    List Char → Nat → List Char → Outcome (Nat × List Char)
  | [], _, _ => Outcome.undefined
  | ch :: rest, pos_end_string, s =>
    if ch = type_quotation_marks then
      Outcome.ok (pos_end_string + 1, s)
    else if ch = '\\' then
      match rest with
      | [] => Outcome.undefined
      | escaped_char :: rest1 =>
        AddString.loop type_quotation_marks rest1 (pos_end_string + 1 + 1) (pushEscaped s escaped_char)
    else
      AddString.loop type_quotation_marks rest (pos_end_string + 1) (s ++ [ch])

/-- Embedding of `Lexer::AddString`. -/
def AddString (line : List Char) (self : Lexer) : Outcome (List Char × Lexer) := do
  let type_quotation_marks ← front line
  let line1 ← removePrefix 1 line
  let (pos_end_string, s) ← AddString.loop type_quotation_marks line1 0 []
  let self1 := self.push_back (Token.String s)
  let line2 ← removePrefix pos_end_string line1
  pure (line2, self1)

/-- The test `isalnum(c) || c == '_'` of `Lexer::AddId`. -/
def isIdChar (c : Char) : Bool := isalnum c || c == '_'

/-- The chain of comparisons of `Lexer::AddId`: the token pushed for `s`. -/
def idToken (s : List Char) : Token :=
  if s = "class".toList then Token.Class
  else if s = "return".toList then Token.Return
  else if s = "if".toList then Token.If
  else if s = "else".toList then Token.Else
  else if s = "def".toList then Token.Def
  else if s = "print".toList then Token.Print
  else if s = "or".toList then Token.Or
  else if s = "None".toList then Token.None
  else if s = "and".toList then Token.And
  else if s = "not".toList then Token.Not
  else if s = "True".toList then Token.True
  else if s = "False".toList then Token.False
  else Token.Id s

/-- Embedding of `Lexer::AddId`: `pos_end_id` is the index at which the
`while (true)` loop breaks, the end of the view or the first character that
is neither alphanumeric nor an underscore. -/
def AddId (line : List Char) (self : Lexer) : Outcome (List Char × Lexer) :=
  let pos_end_id := (line.takeWhile isIdChar).length
  let s := line.take pos_end_id
  let self1 := self.push_back (idToken s)
  do
    let line1 ← removePrefix pos_end_id line
    pure (line1, self1)

/-- Embedding of `Lexer::AddSymvol`. -/
def AddSymvol (line : List Char) (self : Lexer) : Outcome (List Char × Lexer) := do
  let c ← front line
  if c = '=' ∨ c = '!' ∨ c = '<' ∨ c = '>' then
    AddComparisonOperator line self
  else if c = '*' ∨ c = '/' ∨ c = '+' ∨ c = '-' ∨ c = '(' ∨ c = ')' ∨ c = ',' ∨ c = '.'
      ∨ c = ':' ∨ c = ';' ∨ c = '\t' ∨ c = '\n' then
    let line1 ← removePrefix 1 line
    pure (line1, self.push_back (Token.Char c))
  else if c = '\'' ∨ c = '"' then
    AddString line self
  else
    AddId line self

/-- One pass through the body of the `while` loop of
`Lexer::AddTokensFromString`; when none of the three tests holds the pass
changes nothing. -/
def loopBody (line : List Char) (self : Lexer) : Outcome (List Char × Lexer) := do
  let c ← front line
  if c = ' ' then
    let line1 ← removePrefix (find_first_not_of line ' ') line
    pure (line1, self)
  else if isdigit c then
    AddNumber line self
  else if isprint c then
    AddSymvol line self
  else
    pure (line, self)

/-- The loop `while (!IgnoreLine(line)) { ... }` of
`Lexer::AddTokensFromString`, with a budget of `fuel` passes: the loop test
comes first, and a pass that is due when the budget is spent gives
`outOfFuel`. -/
def scanLoop : Nat → List Char → Lexer → Outcome (List Char × Lexer)
  | 0, line, self =>
    if IgnoreLine line then Outcome.ok (line, self) else Outcome.outOfFuel
  | fuel + 1, line, self =>
    if IgnoreLine line then Outcome.ok (line, self)
    else
      match loopBody line self with
      | Outcome.ok (line1, self1) => scanLoop fuel line1 self1
      | Outcome.lexerError w => Outcome.lexerError w
      | Outcome.undefined => Outcome.undefined
      | Outcome.outOfFuel => Outcome.outOfFuel

/-- Embedding of `Lexer::AddTokensFromString`. -/
def AddTokensFromString (fuel : Nat) (line : List Char) (self : Lexer) :
    Outcome (List Char × Lexer) := do
  let (line1, self1) ← AddIndent line self
  let (line2, self2) ← scanLoop fuel line1 self1
  pure (line2, self2.push_back Token.Newline)

/-- The lines that successive calls of `std::getline(input, line)` deliver:
`cur` is the text read into `line` so far.  At the end of the stream a call
that has read nothing fails, which ends the loop of the constructor. -/
def getlines (cur : List Char) : List Char → List (List Char)
  | [] => if cur = [] then [] else [cur]
  | c :: cs => if c = '\n' then cur :: getlines [] cs else getlines (cur ++ [c]) cs

/-- The first loop of the constructor `Lexer::Lexer` over the lines read. -/
def readLines (fuel : Nat) : List (List Char) → Lexer → Outcome Lexer
  | [], self => Outcome.ok self
  | line :: lines, self =>
    if IgnoreLine line then readLines fuel lines self
    else
      match AddTokensFromString fuel line self with
      | Outcome.ok (_, self1) => readLines fuel lines self1
      | Outcome.lexerError w => Outcome.lexerError w
      | Outcome.undefined => Outcome.undefined
      | Outcome.outOfFuel => Outcome.outOfFuel

/-- The second loop of the constructor and its last two statements: a
`Dedent` per open level, then `Eof`, then `current_token = 0`. -/
def finish (self : Lexer) : Lexer :=
  { token_flow_ := self.token_flow_ ++ List.replicate self.indentation_level_ Token.Dedent ++ [Token.Eof],
    indentation_level_ := 0,
    current_token := 0 }

/-- The state of a `Lexer` object when the body of its constructor begins:
an empty `token_flow_` and level 0. -/
def initial : Lexer := { token_flow_ := [], indentation_level_ := 0, current_token := 0 }

/-- Embedding of the constructor `Lexer::Lexer(std::istream& input)` (named
`construct`, the name `Lexer` being the type); `fuel` is the budget of the
scanning loop of each line. -/
def construct (fuel : Nat) (input : List Char) : Outcome Lexer :=
  match readLines fuel (getlines [] input) initial with
  | Outcome.ok self => Outcome.ok (finish self)
  | Outcome.lexerError w => Outcome.lexerError w
  | Outcome.undefined => Outcome.undefined
  | Outcome.outOfFuel => Outcome.outOfFuel

/-- The token sequence of a constructed lexer, when construction succeeds. -/
def tokens (fuel : Nat) (input : List Char) : Outcome (List Token) :=
  match construct fuel input with
  | Outcome.ok self => Outcome.ok self.token_flow_
  | Outcome.lexerError w => Outcome.lexerError w
  | Outcome.undefined => Outcome.undefined
  | Outcome.outOfFuel => Outcome.outOfFuel

end Lexer

end parse


/-! ## Vocabulary of the specification -/

namespace parse

/-- Number of leading spaces of a line. -/
def leadingSpaces (line : List Char) : Nat := (line.takeWhile (fun x => x == ' ')).length

/-- Tokens that stand for text of a line: every token except `Indent`,
`Dedent`, `Newline` and `Eof`. -/
def Token.isContent : Token → Bool
  | Token.Indent => false
  | Token.Dedent => false
  | Token.Newline => false
  | Token.Eof => false
  | _ => true

/-- Count of `Indent` tokens minus count of `Dedent` tokens. -/
def balance (toks : List Token) : Int :=
  (toks.count Token.Indent : Int) - (toks.count Token.Dedent : Int)

/-- The lexer `self` with the tokens `added` appended to its token flow. -/
def Lexer.extend (self : Lexer) (added : List Token) : Lexer :=
  { self with token_flow_ := self.token_flow_ ++ added }

/-- A line with text: it has a character other than a space, and the first
such character is not `#`.  The other lines are the empty lines, the lines of
spaces only and the comment lines. -/
def beginsText (line : List Char) : Bool :=
  match (line.dropWhile (fun x => x == ' ')).head? with
  | some c => c != '#'
  | none => false

/-- The indentation level in force after the lines `lines`: half the number
of leading spaces of the last line with text among them, and 0 when there is
none. -/
def prevLevel (lines : List (List Char)) : Nat :=
  match (lines.filter beginsText).getLast? with
  | some l => leadingSpaces l / 2
  | none => 0

/-- The `Indent` or `Dedent` tokens that lead from level `p` to level `k`. -/
def indentTokens (p k : Nat) : List Token :=
  List.replicate (k - p) Token.Indent ++ List.replicate (p - k) Token.Dedent

/-- What a successful scanning step does: it pushes at most one token, a
content token, and drops a prefix of the view. -/
def Lexer.StepShape (line : List Char) (self : Lexer) (r : Outcome (List Char × Lexer)) : Prop :=
  ∀ line1 self1, r = Outcome.ok (line1, self1) →
    ∃ added k, self1 = self.extend added ∧ added.length ≤ 1 ∧
      (∀ t ∈ added, t.isContent = true) ∧ line1 = line.drop k

/-- The outcome `r` is not a thrown `LexerError`. -/
def NoThrow {α : Type} (r : Outcome α) : Prop := ∀ w, r ≠ Outcome.lexerError w

/-- What a successful scanning step other than the skipping of spaces does:
it pushes exactly one token, a content token, or it changes nothing. -/
def Lexer.PushShape (line : List Char) (self : Lexer) (r : Outcome (List Char × Lexer)) : Prop :=
  ∀ line1 self1, r = Outcome.ok (line1, self1) →
    (∃ t, t.isContent = true ∧ self1 = self.extend [t]) ∨ (line1 = line ∧ self1 = self)

/-- A line that is empty or whose first character other than a space is
`#`. -/
def blankOrComment (line : List Char) : Bool :=
  line.isEmpty || (line.dropWhile (fun x => x == ' ')).head? == some '#'

end parse

/-! ## The runtime of `src/Mython/runtime.cpp` and the evaluator of `src/Mython/statement.cpp`

Values are handles (`ObjectHolder`): the empty handle or one of the five
kinds of object.  A `ClassInstance` is mutable and is named by the identifier
of the storage that holds it (the `instance_` member of a `NewInstance`
node); the field maps of all instances and the text written to the output
stream make up the `World`.  The virtual call `statement->Execute(closure,
context)` is the parameter `exec` of every function that makes it; `Execute`
closes the recursion with a budget on the depth of nesting.  Throwing is the
outcome `Res.threw`, undefined behaviour (a null pointer dereferenced, signed
overflow) is `Res.undefined`.
-/

namespace runtime

/-- The comparators of the runtime that a `Comparison` node holds. -/
inductive Comparator where
  | Equal | NotEqual | Less | Greater | LessOrEqual | GreaterOrEqual
  deriving DecidableEq

mutual
/-- The nodes of the syntax tree (`ast::Statement`, that is
`runtime::Executable`).  A `NewInstance` node holds its `ClassInstance`,
named by `instance_`.  The nodes `NumericConst`, `StringConst`, `BoolConst` and
`NoneConst` are those of `statement.h`, which is not among the sources. -/
inductive Statement where
  | NumericConst (value : Int)
  | StringConst (value : String)
  | BoolConst (value : Bool)
  | NoneConst
  | Assignment (name_ : String) (rv_ : Statement)
  | VariableValue (dotted_ids_ : List String)
  | Print (args_ : List Statement)
  | MethodCall (object_ : Option Statement) (method_ : String) (args_ : List Statement)
  | Stringify (argument_ : Statement)
  | Add (lhs_ rhs_ : Statement)
  | Sub (lhs_ rhs_ : Statement)
  | Mult (lhs_ rhs_ : Statement)
  | Div (lhs_ rhs_ : Statement)
  | Compound (manuals_ : List Statement)
  | Return (statement_ : Statement)
  | ClassDefinition (cls_ : Value)
  | FieldAssignment (object_ : List String) (name_ : String) (rv_ : Statement)
  | IfElse (condition_ if_body_ : Statement) (else_body_ : Option Statement)
  | Or (lhs_ rhs_ : Statement)
  | And (lhs_ rhs_ : Statement)
  | Not (argument_ : Statement)
  | Comparison (cmp_ : Comparator) (lhs_ rhs_ : Statement)
  | NewInstance (instance_ : Nat) (class_ : Class) (args_ : Option (List Statement))
  | MethodBody (body_ : Statement)
/-- A handle (`ObjectHolder`): empty, or holding a `Number`, a `Bool`, a
`String`, a `Class`, or the `ClassInstance` stored at `instance_`, whose
class is `cls_`. -/
inductive Value where
  | None
  | number (value : Int)
  | bool (value : Bool)
  | string (value : String)
  | cls (c : Class)
  | inst (instance_ : Nat) (cls_ : Class)
/-- The data of `runtime::Class`. -/
inductive Class where
  | mk (name_ : String) (store_methods_ : List Method) (parent_ : Option Class)
/-- The data of `runtime::Method`. -/
inductive Method where
  | mk (name : String) (formal_params : List String) (body : Statement)
end

namespace Method

/-- The member `name`. -/
def name : Method → String
  | Method.mk n _ _ => n

/-- The member `formal_params`. -/
def formal_params : Method → List String
  | Method.mk _ p _ => p

/-- The member `body`. -/
def body : Method → Statement
  | Method.mk _ _ b => b

end Method

namespace Class

/-- The member `name_`. -/
def GetName : Class → String
  | Class.mk n _ _ => n

/-- The member `store_methods_`. -/
def store_methods_ : Class → List Method
  | Class.mk _ ms _ => ms

/-- The member `parent_`. -/
def parent_ : Class → Option Class
  | Class.mk _ _ p => p

/-- The lookup `methods_.find(name)`: the constructor of `Class` stores
`methods_[method.name] = &method` for the methods in their order, so the entry
of a name is the last method of that name. -/
def findOwn (store_methods_ : List Method) (name : String) : Option Method :=
  store_methods_.reverse.find? (fun m => m.name == name)

/-- Embedding of `Class::GetMethod`; `it` is `none` when
`it == methods_.end()`. -/
def GetMethod : Class → String → Option Method
  | Class.mk _ store_methods_ parent_, name =>
    let it := findOwn store_methods_ name
    if it.isNone then
      match parent_ with
      | none => none
      | some p => GetMethod p name
    else it

end Class

namespace Value

/-- The conversion `operator bool` of a handle. -/
def toBool : Value → Bool
  | Value.None => false
  | _ => true

/-- The call `TryAs<Number>()`, with the value read by `GetValue()`. -/
def TryAsNumber : Value → Option Int
  | Value.number v => some v
  | _ => none

/-- The call `TryAs<Bool>()`, with the value read by `GetValue()`. -/
def TryAsBool : Value → Option Bool
  | Value.bool b => some b
  | _ => none

/-- The call `TryAs<String>()`, with the value read by `GetValue()`. -/
def TryAsString : Value → Option String
  | Value.string s => some s
  | _ => none

/-- The call `TryAs<Class>()`. -/
def TryAsClass : Value → Option Class
  | Value.cls c => some c
  | _ => none

/-- The call `TryAs<ClassInstance>()`: the storage and the class of the
instance. -/
def TryAsClassInstance : Value → Option (Nat × Class)
  | Value.inst i c => some (i, c)
  | _ => none

end Value

/-- The type `Closure`, a map from names to handles, as the list of its
entries. -/
abbrev Closure := List (String × Value)

namespace Closure

/-- The call `closure.count(key)`. -/
def count (closure : Closure) (key : String) : Nat :=
  match List.lookup key closure with
  | some _ => 1
  | none => 0

/-- The call `closure.at(key)`, `none` when it throws `std::out_of_range`. -/
def at_ (closure : Closure) (key : String) : Option Value := List.lookup key closure

/-- The statement `closure[key] = value`. -/
def assign (closure : Closure) (key : String) (value : Value) : Closure :=
  match List.lookup key closure with
  | some _ => closure.map (fun p => if p.1 = key then (key, value) else p)
  | none => closure ++ [(key, value)]

/-- The call `closure.emplace(key, value)`, which leaves an entry that is
there as it is. -/
def emplace (closure : Closure) (key : String) (value : Value) : Closure :=
  match List.lookup key closure with
  | some _ => closure
  | none => closure ++ [(key, value)]

end Closure

/-- What `Execute` reads and writes besides the closure: the text written to
`context.GetOutputStream()` and the field map `object_fields` of every
`ClassInstance` that has one entry at least. -/
structure World where
  output : String
  fields : List (Nat × Closure)

namespace World

/-- The map `Fields()` of the instance stored at `instance_`. -/
def Fields (w : World) (instance_ : Nat) : Closure :=
  match List.lookup instance_ w.fields with
  | some c => c
  | none => []

/-- The world after `Fields()` of the instance stored at `instance_` became
`c`. -/
def setFields (w : World) (instance_ : Nat) (c : Closure) : World :=
  { w with fields :=
      match List.lookup instance_ w.fields with
      | some _ => w.fields.map (fun p => if p.1 = instance_ then (instance_, c) else p)
      | none => w.fields ++ [(instance_, c)] }

end World

/-- What a `throw` carries: a `std::runtime_error` with its message, or the
`ObjectHolder` thrown by `Return`. -/
inductive Thrown where
  | runtime_error (what : String)
  | holder (obj : Value)

/-- Result of a run from a state of type `σ`. -/
inductive Res (σ α : Type) where
  | ok (a : α) (s : σ)
  | threw (e : Thrown) (s : σ)
  | undefined
  | outOfFuel

/-- A computation on a state of type `σ`. -/
def M (σ α : Type) : Type := σ → Res σ α

namespace M

/-- Sequencing: the first outcome that is not `ok` ends the run. -/
def bind {σ α β : Type} (m : M σ α) (f : α → M σ β) : M σ β := fun s =>
  match m s with
  | Res.ok a s1 => f a s1
  | Res.threw e s1 => Res.threw e s1
  | Res.undefined => Res.undefined
  | Res.outOfFuel => Res.outOfFuel

instance {σ : Type} : Monad (M σ) where
  pure := fun a s => Res.ok a s
  bind := M.bind

/-- The statement `throw std::runtime_error(what)`. -/
def throw_runtime_error {σ α : Type} (what : String) : M σ α :=
  fun s => Res.threw (Thrown.runtime_error what) s

/-- Undefined behaviour. -/
def undefinedBehaviour {σ α : Type} : M σ α := fun _ => Res.undefined

/-- A computation on the world, run from a closure and the world. -/
def inContext {α : Type} (m : M World α) : M (Closure × World) α := fun s =>
  match m s.2 with
  | Res.ok a w => Res.ok a (s.1, w)
  | Res.threw e w => Res.threw e (s.1, w)
  | Res.undefined => Res.undefined
  | Res.outOfFuel => Res.outOfFuel

/-- A computation run with the local closure `args`, which is dropped at the
end. -/
def withClosure {α : Type} (args : Closure) (m : M (Closure × World) α) : M World α := fun w =>
  match m (args, w) with
  | Res.ok a s => Res.ok a s.2
  | Res.threw e s => Res.threw e s.2
  | Res.undefined => Res.undefined
  | Res.outOfFuel => Res.outOfFuel

/-- The closure of the run. -/
def getClosure : M (Closure × World) Closure := fun s => Res.ok s.1 s

/-- A change of the closure of the run. -/
def modifyClosure (f : Closure → Closure) : M (Closure × World) Unit :=
  fun s => Res.ok () (f s.1, s.2)

/-- The world of the run. -/
def getWorld : M World World := fun w => Res.ok w w

/-- A change of the world. -/
def modifyWorld (f : World → World) : M World Unit := fun w => Res.ok () (f w)

/-- The statement `os << text` on the output stream of the context. -/
def write (text : String) : M World Unit :=
  modifyWorld (fun w => { w with output := w.output ++ text })

end M

open M

/-- The type of the virtual call `statement->Execute(closure, context)`. -/
abbrev Exec := Statement → M (Closure × World) Value

/-- Embedding of `IsTrue`. -/
def IsTrue {σ : Type} (object : Value) : M σ Bool :=
  if !object.toBool then pure false
  else
    match object.TryAsNumber with
    | some v => pure (decide (v ≠ 0))
    | none =>
      match object.TryAsBool with
      | some b => pure b
      | none =>
        match object.TryAsString with
        | some s => pure (decide (s ≠ ""))
        | none =>
          if object.TryAsClass.isSome || object.TryAsClassInstance.isSome then pure false
          else throw_runtime_error "Error converting to the bool type"

namespace ClassInstance

/-- Embedding of `ClassInstance::HasMethod`, for an instance of class `cls_`. -/
def HasMethod (cls_ : Class) (name_method : String) (argument_count : Nat) : Bool :=
  match cls_.GetMethod name_method with
  | some method => method.formal_params.length == argument_count
  | none => false

/-- The closure `args` that `ClassInstance::Call` builds: `self`, then one
`emplace` for each actual argument. -/
def bindArgs (self : Value) (formal_params : List String) (actual_args : List Value) : Closure :=
  (List.zip formal_params actual_args).foldl (fun args p => args.emplace p.1 p.2)
    (Closure.emplace [] "self" self)

/-- Embedding of `ClassInstance::Call`, for the instance stored at `self.1`
whose class is `self.2`. -/
def Call (exec : Exec) (self : Nat × Class) (name_method : String) (actual_args : List Value) :
    M World Value :=
  if !HasMethod self.2 name_method actual_args.length then
    throw_runtime_error "Not implemented"
  else
    match self.2.GetMethod name_method with
    | none => undefinedBehaviour
    | some method =>
      withClosure (bindArgs (Value.inst self.1 self.2) method.formal_params actual_args)
        (exec method.body)

/-- The text of `os << this` for the instance stored at `instance_`; the
text is defined by the implementation, here the decimal of `instance_`. -/
def pointerText (instance_ : Nat) : String := toString instance_

/-- Embedding of `ClassInstance::Print`; the result is the text written to
`os`. -/
def Print (exec : Exec) (self : Nat × Class) : M World String :=
  match self.2.GetMethod "__str__" with
  | none => pure (pointerText self.1)
  | some _ => do
    let r ← Call exec self "__str__" []
    match r.TryAsString with
    | some s => pure s
    | none => undefinedBehaviour

end ClassInstance

/-- Modelled from the spec: `Print` of a `Number` and of a `String`, which
`runtime.h` defines and which is not among the sources: `os << value_`, the
number in decimal and the string as its content.  The result is the text
written to `os`. -/
def ValueObjectPrint {σ : Type} (text : String) : M σ String := pure text

/-- The virtual call `object->Print(os, context)` on a handle, the result
being the text written to `os`: `Bool::Print`, `Class::Print` and
`ClassInstance::Print` of `runtime.cpp`, and `operator->` on an empty handle.
-/
def ObjectPrint (exec : Exec) : Value → M World String
  | Value.None => undefinedBehaviour
  | Value.number v => ValueObjectPrint (toString v)
  | Value.bool b => pure (if b then "True" else "False")
  | Value.string s => ValueObjectPrint s
  | Value.cls c => pure ("Class " ++ c.GetName)
  | Value.inst i c => ClassInstance.Print exec (i, c)

/-- The comparison `lhs < rhs` of two `std::string`: by the first character
that differs, and by length when one is the beginning of the other. -/
def string_less : List Char → List Char → Bool
  | [], [] => false
  | [], _ :: _ => true
  | _ :: _, [] => false
  | a :: as, b :: bs =>
    if a.toNat < b.toNat then true
    else if b.toNat < a.toNat then false
    else string_less as bs

/-- Embedding of `Equal`. -/
def Equal (exec : Exec) (lhs rhs : Value) : M World Bool :=
  if !lhs.toBool && !rhs.toBool then pure true
  else
    match lhs.TryAsNumber, rhs.TryAsNumber with
    | some a, some b => pure (decide (a = b))
    | _, _ =>
      match lhs.TryAsString, rhs.TryAsString with
      | some a, some b => pure (decide (a = b))
      | _, _ =>
        match lhs.TryAsBool, rhs.TryAsBool with
        | some a, some b => pure (decide (a = b))
        | _, _ =>
          match lhs.TryAsClassInstance with
          | some self =>
            if ClassInstance.HasMethod self.2 "__eq__" 1 then do
              let r ← ClassInstance.Call exec self "__eq__" [rhs]
              IsTrue r
            else throw_runtime_error "Cannot compare objects for equality"
          | none => throw_runtime_error "Cannot compare objects for equality"

/-- Embedding of `Less`. -/
def Less (exec : Exec) (lhs rhs : Value) : M World Bool :=
  match lhs.TryAsNumber, rhs.TryAsNumber with
  | some a, some b => pure (decide (a < b))
  | _, _ =>
    match lhs.TryAsString, rhs.TryAsString with
    | some a, some b => pure (string_less a.toList b.toList)
    | _, _ =>
      match lhs.TryAsBool, rhs.TryAsBool with
      | some a, some b => pure (!a && b)
      | _, _ =>
        match lhs.TryAsClassInstance with
        | some self =>
          if ClassInstance.HasMethod self.2 "__lt__" 1 then do
            let r ← ClassInstance.Call exec self "__lt__" [rhs]
            IsTrue r
          else throw_runtime_error "Cannot compare objects for less"
        | none => throw_runtime_error "Cannot compare objects for less"

/-- Embedding of `NotEqual`. -/
def NotEqual (exec : Exec) (lhs rhs : Value) : M World Bool := do
  let e ← Equal exec lhs rhs
  pure (!e)

/-- Embedding of `Greater`: `!Less(lhs, rhs, context) && NotEqual(lhs, rhs,
context)`, the right operand being evaluated only when the left is true. -/
def Greater (exec : Exec) (lhs rhs : Value) : M World Bool := do
  let l ← Less exec lhs rhs
  if !l then NotEqual exec lhs rhs else pure false

/-- Embedding of `LessOrEqual`. -/
def LessOrEqual (exec : Exec) (lhs rhs : Value) : M World Bool := do
  let g ← Greater exec lhs rhs
  pure (!g)

/-- Embedding of `GreaterOrEqual`. -/
def GreaterOrEqual (exec : Exec) (lhs rhs : Value) : M World Bool := do
  let l ← Less exec lhs rhs
  pure (!l)

/-- The comparator held by a `Comparison` node, as a function. -/
def Comparator.apply (cmp : Comparator) (exec : Exec) (lhs rhs : Value) : M World Bool :=
  match cmp with
  | Comparator.Equal => runtime.Equal exec lhs rhs
  | Comparator.NotEqual => runtime.NotEqual exec lhs rhs
  | Comparator.Less => runtime.Less exec lhs rhs
  | Comparator.Greater => runtime.Greater exec lhs rhs
  | Comparator.LessOrEqual => runtime.LessOrEqual exec lhs rhs
  | Comparator.GreaterOrEqual => runtime.GreaterOrEqual exec lhs rhs

/-- The values of the type held by a `Number` (taken to be `int`, 32 bits
wide, as the `Number` token of the lexer; `runtime.h` is not among the
sources). -/
def representable (v : Int) : Prop := -2147483648 ≤ v ∧ v ≤ 2147483647

instance (v : Int) : Decidable (representable v) := by
  unfold representable
  infer_instance

/-- The handle `ObjectHolder::Own(runtime::Number(v))` for the result `v` of
an arithmetic operation on `int`; a result that is not representable is
undefined behaviour. -/
def ownNumber {σ : Type} (v : Int) : M σ Value :=
  if representable v then pure (Value.number v) else undefinedBehaviour

end runtime

namespace ast

open runtime runtime.M

/-- The state of `Execute`: the closure and the world. -/
abbrev St := Closure × World

/-- The loops that execute the statements of `args_` in order and collect
the handles (`actual_args.push_back(args_[i]->Execute(closure, context))`). -/
def ExecuteAll (exec : Exec) : List Statement → M St (List Value)
  | [] => pure []
  | s :: rest => do
    let v ← exec s
    let vs ← ExecuteAll exec rest
    pure (v :: vs)

/-- The test `lhs_->Execute(..).TryAs<T>() != nullptr &&
rhs_->Execute(..).TryAs<T>() != nullptr`, `is` being the test of one handle:
`rhs_` is executed only when the test of `lhs_` holds. -/
def bothAre (exec : Exec) (is : Value → Bool) (lhs_ rhs_ : Statement) : M St Bool := do
  let l ← exec lhs_
  if is l then
    let r ← exec rhs_
    pure (is r)
  else pure false

namespace Assignment

/-- Embedding of `Assignment::Execute`: the right side is executed first,
then `closure[name_]` is assigned. -/
def Execute (exec : Exec) (name_ : String) (rv_ : Statement) : M St Value := do
  let v ← exec rv_
  modifyClosure (fun closure => closure.assign name_ v)
  pure v

end Assignment

namespace VariableValue

/-- The `for` loop of `VariableValue::Execute` over the identifiers after the
first: `result.TryAs<ClassInstance>()` is dereferenced without a test, and
`at` throws when the field is missing, which the `catch (...)` turns into
`runtime_error("Not found")`. -/
def fields : List String → Value → M St Value
  | [], result => pure result
  | id :: rest, result =>
    match result.TryAsClassInstance with
    | none => undefinedBehaviour
    | some self => do
      let w ← inContext getWorld
      match (w.Fields self.1).at_ id with
      | none => throw_runtime_error "Not found"
      | some v => fields rest v

/-- Embedding of `VariableValue::Execute`. -/
def Execute (dotted_ids_ : List String) : M St Value :=
  match dotted_ids_ with
  | [] => undefinedBehaviour
  | id0 :: rest => do
    let closure ← getClosure
    match closure.at_ id0 with
    | none => throw_runtime_error "Not found"
    | some result => fields rest result

end VariableValue

namespace Print

/-- One pass of the `for` loop of `Print::Execute`, for the argument `arg`;
`last` tells whether `i == args_.size() - 1`. -/
def argument (exec : Exec) (arg : Statement) (last : Bool) : M St Unit := do
  let obj ← exec arg
  if obj.TryAsString.isSome then
    let obj2 ← exec arg
    match obj2.TryAsString with
    | none => undefinedBehaviour
    | some key2 =>
      let closure ← getClosure
      if closure.count key2 != 0 then
        let obj3 ← exec arg
        match obj3.TryAsString with
        | none => undefinedBehaviour
        | some key3 =>
          let closure3 ← getClosure
          match closure3.at_ key3 with
          | none => undefinedBehaviour
          | some held =>
            let text ← inContext (ObjectPrint exec held)
            inContext (write text)
            if last then pure () else inContext (write " ")
      else
        let obj3 ← exec arg
        match obj3.TryAsString with
        | none => undefinedBehaviour
        | some s =>
          inContext (write s)
          if last then pure () else inContext (write " ")
  else if obj.toBool then
    let text ← inContext (ObjectPrint exec obj)
    inContext (write text)
    if last then pure () else inContext (write " ")
  else
    inContext (write "None")
    if last then pure () else inContext (write " ")

/-- The `for` loop of `Print::Execute`. -/
def loop (exec : Exec) : List Statement → M St Unit
  | [] => pure ()
  | arg :: rest => do
    argument exec arg rest.isEmpty
    loop exec rest

/-- Embedding of `Print::Execute`. -/
def Execute (exec : Exec) (args_ : List Statement) : M St Value := do
  loop exec args_
  inContext (write "\n")
  pure Value.None

end Print

namespace MethodCall

/-- Embedding of `MethodCall::Execute`: the arguments are executed first,
then `object_`. -/
def Execute (exec : Exec) (object_ : Option Statement) (method_ : String)
    (args_ : List Statement) : M St Value :=
  match object_ with
  | none => pure Value.None
  | some object => do
    let actual_args ← ExecuteAll exec args_
    let o ← exec object
    match o.TryAsClassInstance with
    | none => undefinedBehaviour
    | some self => inContext (ClassInstance.Call exec self method_ actual_args)

end MethodCall

namespace Stringify

/-- The end of `Stringify::Execute`, from the test for a `Number` on. -/
def number (exec : Exec) (argument_ : Statement) : M St Value := do
  let a ← exec argument_
  if a.TryAsNumber.isSome then
    let a1 ← exec argument_
    match a1.TryAsNumber with
    | none => undefinedBehaviour
    | some v => pure (Value.string (toString v))
  else throw_runtime_error "There is no string representation"

/-- Embedding of `Stringify::Execute`. -/
def Execute (exec : Exec) (argument_ : Statement) : M St Value := do
  let a1 ← exec argument_
  if !a1.toBool then pure (Value.string "None")
  else
    let a2 ← exec argument_
    match a2.TryAsClassInstance with
    | some class_ptr =>
      if ClassInstance.HasMethod class_ptr.2 "__str__" 0 then
        let r ← inContext (ClassInstance.Call exec class_ptr "__str__" [])
        let ss ← inContext (ObjectPrint exec r)
        pure (Value.string ss)
      else pure (Value.string (ClassInstance.pointerText class_ptr.1))
    | none =>
      let a3 ← exec argument_
      if a3.TryAsString.isSome then
        let a4 ← exec argument_
        match a4.TryAsString with
        | none => undefinedBehaviour
        | some s => pure (Value.string s)
      else
        let a5 ← exec argument_
        if a5.TryAsBool.isSome then
          let a6 ← exec argument_
          match a6.TryAsBool with
          | none => undefinedBehaviour
          | some true => pure (Value.string "True")
          | some false =>
            let a7 ← exec argument_
            match a7.TryAsBool with
            | none => undefinedBehaviour
            | some false => pure (Value.string "False")
            | some true => number exec argument_
        else number exec argument_

end Stringify

namespace Add

/-- The second and third `if` of `Add::Execute` and its `throw`.  The two
operands of `+` are executed in the order left, right. -/
def stringsOrNumbers (exec : Exec) (lhs_ rhs_ : Statement) : M St Value := do
  let strings ← bothAre exec (fun v => v.TryAsString.isSome) lhs_ rhs_
  if strings then
    let l ← exec lhs_
    let r ← exec rhs_
    match l.TryAsString, r.TryAsString with
    | some a, some b => pure (Value.string (a ++ b))
    | _, _ => undefinedBehaviour
  else
    let numbers ← bothAre exec (fun v => v.TryAsNumber.isSome) lhs_ rhs_
    if numbers then
      let l ← exec lhs_
      let r ← exec rhs_
      match l.TryAsNumber, r.TryAsNumber with
      | some a, some b => ownNumber (a + b)
      | _, _ => undefinedBehaviour
    else throw_runtime_error "The Add operation cannot be performed "

/-- Embedding of `Add::Execute`. -/
def Execute (exec : Exec) (lhs_ rhs_ : Statement) : M St Value := do
  let l1 ← exec lhs_
  if l1.TryAsClassInstance.isSome then
    let l2 ← exec lhs_
    match l2.TryAsClassInstance with
    | none => undefinedBehaviour
    | some self2 =>
      if ClassInstance.HasMethod self2.2 "__add__" 1 then
        let l3 ← exec lhs_
        match l3.TryAsClassInstance with
        | none => undefinedBehaviour
        | some self3 =>
          let r ← exec rhs_
          inContext (ClassInstance.Call exec self3 "__add__" [r])
      else stringsOrNumbers exec lhs_ rhs_
  else stringsOrNumbers exec lhs_ rhs_

end Add

namespace Sub

/-- Embedding of `Sub::Execute`.  The two operands of `-` are executed in the
order left, right. -/
def Execute (exec : Exec) (lhs_ rhs_ : Statement) : M St Value := do
  let numbers ← bothAre exec (fun v => v.TryAsNumber.isSome) lhs_ rhs_
  if numbers then
    let l ← exec lhs_
    let r ← exec rhs_
    match l.TryAsNumber, r.TryAsNumber with
    | some a, some b => ownNumber (a - b)
    | _, _ => undefinedBehaviour
  else throw_runtime_error "Arguments is not a number"

end Sub

namespace Mult

/-- Embedding of `Mult::Execute`.  The two operands of `*` are executed in
the order left, right. -/
def Execute (exec : Exec) (lhs_ rhs_ : Statement) : M St Value := do
  let numbers ← bothAre exec (fun v => v.TryAsNumber.isSome) lhs_ rhs_
  if numbers then
    let l ← exec lhs_
    let r ← exec rhs_
    match l.TryAsNumber, r.TryAsNumber with
    | some a, some b => ownNumber (a * b)
    | _, _ => undefinedBehaviour
  else throw_runtime_error "Arguments is not a number"

end Mult

namespace Div

/-- Embedding of `Div::Execute`.  The two operands of `/` are executed in the
order left, right; `/` on `int` rounds toward zero, and a zero divisor at
that point is undefined behaviour. -/
def Execute (exec : Exec) (lhs_ rhs_ : Statement) : M St Value := do
  let numbers ← bothAre exec (fun v => v.TryAsNumber.isSome) lhs_ rhs_
  if numbers then
    let r0 ← exec rhs_
    match r0.TryAsNumber with
    | none => undefinedBehaviour
    | some z =>
      if z = 0 then throw_runtime_error "You can't divide by zero"
      else
        let l ← exec lhs_
        let r ← exec rhs_
        match l.TryAsNumber, r.TryAsNumber with
        | some a, some b => if b = 0 then undefinedBehaviour else ownNumber (Int.tdiv a b)
        | _, _ => undefinedBehaviour
  else throw_runtime_error "Arguments is not a number"

end Div

namespace Compound

/-- The `for` loop of `Compound::Execute`. -/
def loop (exec : Exec) : List Statement → M St Unit
  | [] => pure ()
  | s :: rest => do
    let _ ← exec s
    loop exec rest

/-- Embedding of `Compound::Execute`. -/
def Execute (exec : Exec) (manuals_ : List Statement) : M St Value := do
  loop exec manuals_
  pure Value.None

end Compound

namespace Return

/-- Embedding of `Return::Execute`: `throw holder`. -/
def Execute (exec : Exec) (statement_ : Statement) : M St Value := do
  let holder ← exec statement_
  fun s => Res.threw (Thrown.holder holder) s

end Return

namespace ClassDefinition

/-- Embedding of `ClassDefinition::Execute`; `cls_.TryAs<runtime::Class>()`
is dereferenced without a test. -/
def Execute (cls_ : Value) : M St Value :=
  match cls_.TryAsClass with
  | none => undefinedBehaviour
  | some c => do
    modifyClosure (fun closure => closure.assign c.GetName cls_)
    pure cls_

end ClassDefinition

namespace FieldAssignment

/-- Embedding of `FieldAssignment::Execute`: the right side is executed
first, then `object_`, whose `TryAs<ClassInstance>()` is dereferenced without
a test. -/
def Execute (exec : Exec) (object_ : List String) (name_ : String) (rv_ : Statement) :
    M St Value := do
  let v ← exec rv_
  let o ← VariableValue.Execute object_
  match o.TryAsClassInstance with
  | none => undefinedBehaviour
  | some self =>
    inContext (modifyWorld (fun w => w.setFields self.1 ((w.Fields self.1).assign name_ v)))
    pure v

end FieldAssignment

namespace IfElse

/-- Embedding of `IfElse::Execute`. -/
def Execute (exec : Exec) (condition_ if_body_ : Statement) (else_body_ : Option Statement) :
    M St Value := do
  let c ← exec condition_
  let t ← IsTrue c
  if t then exec if_body_
  else
    match else_body_ with
    | some e => exec e
    | none => pure Value.None

end IfElse

namespace Or

/-- Embedding of `Or::Execute`. -/
def Execute (exec : Exec) (lhs_ rhs_ : Statement) : M St Value := do
  let l ← exec lhs_
  let tl ← IsTrue l
  if tl then pure (Value.bool true)
  else
    let r ← exec rhs_
    let tr ← IsTrue r
    if tr then pure (Value.bool true)
    else pure (Value.bool false)

end Or

namespace And

/-- Embedding of `And::Execute`. -/
def Execute (exec : Exec) (lhs_ rhs_ : Statement) : M St Value := do
  let l ← exec lhs_
  let tl ← IsTrue l
  if !tl then pure (Value.bool false)
  else
    let r ← exec rhs_
    let tr ← IsTrue r
    if !tr then pure (Value.bool false)
    else pure (Value.bool true)

end And

namespace Not

/-- Embedding of `Not::Execute`. -/
def Execute (exec : Exec) (argument_ : Statement) : M St Value := do
  let a ← exec argument_
  let t ← IsTrue a
  pure (Value.bool (!t))

end Not

namespace Comparison

/-- Embedding of `Comparison::Execute`.  The two arguments of `cmp_` are
executed in the order left, right. -/
def Execute (exec : Exec) (cmp_ : Comparator) (lhs_ rhs_ : Statement) : M St Value := do
  let l ← exec lhs_
  let r ← exec rhs_
  let b ← inContext (cmp_.apply exec l r)
  pure (Value.bool b)

end Comparison

namespace NewInstance

/-- Embedding of `NewInstance::Execute`, for the node whose member
`instance_` is the instance of `class_` stored at `instance_`. -/
def Execute (exec : Exec) (instance_ : Nat) (class_ : runtime.Class)
    (args_ : Option (List Statement)) :
    M St Value :=
  match args_ with
  | some args =>
    if ClassInstance.HasMethod class_ "__init__" args.length then do
      let actuel_args ← ExecuteAll exec args
      let _ ← inContext (ClassInstance.Call exec (instance_, class_) "__init__" actuel_args)
      pure (Value.inst instance_ class_)
    else pure (Value.inst instance_ class_)
  | none => pure (Value.inst instance_ class_)

end NewInstance

namespace MethodBody

/-- Embedding of `MethodBody::Execute`: the `catch` takes a thrown
`ObjectHolder` and nothing else. -/
def Execute (exec : Exec) (body_ : Statement) : M St Value := fun s =>
  match exec body_ s with
  | Res.ok _ s1 => Res.ok Value.None s1
  | Res.threw (Thrown.holder obj) s1 => Res.ok obj s1
  | Res.threw (Thrown.runtime_error what) s1 => Res.threw (Thrown.runtime_error what) s1
  | Res.undefined => Res.undefined
  | Res.outOfFuel => Res.outOfFuel

end MethodBody

/-- Modelled from the spec: `Execute` of the nodes `NumericConst`,
`StringConst`, `BoolConst` and `NoneConst`, which `statement.h` defines and
which is not among the sources: the handle of the constant of the node. -/
def ValueStatementExecute (value : Value) : M St Value := pure value

/-- The virtual call `statement->Execute(closure, context)`: the `Execute` of
the class of the node, `exec` being the virtual call on the nodes below. -/
def dispatch (exec : Exec) : Statement → M St Value
  | Statement.NumericConst v => ValueStatementExecute (Value.number v)
  | Statement.StringConst v => ValueStatementExecute (Value.string v)
  | Statement.BoolConst v => ValueStatementExecute (Value.bool v)
  | Statement.NoneConst => ValueStatementExecute Value.None
  | Statement.Assignment name_ rv_ => Assignment.Execute exec name_ rv_
  | Statement.VariableValue dotted_ids_ => VariableValue.Execute dotted_ids_
  | Statement.Print args_ => Print.Execute exec args_
  | Statement.MethodCall object_ method_ args_ => MethodCall.Execute exec object_ method_ args_
  | Statement.Stringify argument_ => Stringify.Execute exec argument_
  | Statement.Add lhs_ rhs_ => Add.Execute exec lhs_ rhs_
  | Statement.Sub lhs_ rhs_ => Sub.Execute exec lhs_ rhs_
  | Statement.Mult lhs_ rhs_ => Mult.Execute exec lhs_ rhs_
  | Statement.Div lhs_ rhs_ => Div.Execute exec lhs_ rhs_
  | Statement.Compound manuals_ => Compound.Execute exec manuals_
  | Statement.Return statement_ => Return.Execute exec statement_
  | Statement.ClassDefinition cls_ => ClassDefinition.Execute cls_
  | Statement.FieldAssignment object_ name_ rv_ => FieldAssignment.Execute exec object_ name_ rv_
  | Statement.IfElse condition_ if_body_ else_body_ =>
    IfElse.Execute exec condition_ if_body_ else_body_
  | Statement.Or lhs_ rhs_ => Or.Execute exec lhs_ rhs_
  | Statement.And lhs_ rhs_ => And.Execute exec lhs_ rhs_
  | Statement.Not argument_ => Not.Execute exec argument_
  | Statement.Comparison cmp_ lhs_ rhs_ => Comparison.Execute exec cmp_ lhs_ rhs_
  | Statement.NewInstance instance_ class_ args_ => NewInstance.Execute exec instance_ class_ args_
  | Statement.MethodBody body_ => MethodBody.Execute exec body_

/-- The evaluator: `Execute fuel statement` is the call
`statement->Execute(closure, context)` with a budget `fuel` on the depth of
nested calls of `Execute`. -/
def Execute : Nat → Exec
  | 0 => fun _ _ => Res.outOfFuel
  | fuel + 1 => dispatch (Execute fuel)

/-- The closure and the world at the start of a program. -/
def St.initial : St := ([], { output := "", fields := [] })

end ast

/-! ## Vocabulary of the specification of the runtime -/

namespace runtime

/-- The truth table of the specification: the empty handle is false, a
`Number` is true when it is not 0, a `Bool` is its value, a `String` is true
when it is not empty, every `Class` and every `ClassInstance` is false. -/
def truthTable : Value → Bool
  | Value.None => false
  | Value.number v => decide (v ≠ 0)
  | Value.bool b => b
  | Value.string s => decide (s ≠ "")
  | Value.cls _ => false
  | Value.inst _ _ => false

end runtime

namespace runtime

/-- A handle that is empty or holds a `Number`, a `Bool` or a `String`. -/
def Value.isPlain : Value → Bool
  | Value.None => true
  | Value.number _ => true
  | Value.bool _ => true
  | Value.string _ => true
  | Value.cls _ => false
  | Value.inst _ _ => false

/-- The first four cases of `Equal` in the specification: both handles are
empty, both are Numbers, both are Strings, or both are Bools. -/
def samePlainKind (lhs rhs : Value) : Bool :=
  (!lhs.toBool && !rhs.toBool) || (lhs.TryAsNumber.isSome && rhs.TryAsNumber.isSome)
    || (lhs.TryAsString.isSome && rhs.TryAsString.isSome)
    || (lhs.TryAsBool.isSome && rhs.TryAsBool.isSome)

/-- The fifth case of `Equal` in the specification: `lhs` is a
`ClassInstance` that has the method `__eq__` with one parameter. -/
def hasEqMethod (lhs : Value) : Bool :=
  match lhs.TryAsClassInstance with
  | some self => ClassInstance.HasMethod self.2 "__eq__" 1
  | none => false

/-- The classes from a class up its parent chain: the class, its parent, its
grandparent, and so on. -/
def Class.chain : Class → List Class
  | Class.mk name_ store_methods_ parent_ =>
    Class.mk name_ store_methods_ parent_ ::
      match parent_ with
      | none => []
      | some p => Class.chain p

/-- The class defines a method called `name`. -/
def Class.defines (c : Class) (name : String) : Prop :=
  ∃ m ∈ c.store_methods_, m.name = name

/-- A class without methods and without parent, for the examples. -/
def sampleClassA : Class := Class.mk "A" [] Option.none

/-- A class whose `__eq__` returns `True`, for the examples. -/
def sampleClassEq : Class :=
  Class.mk "E" [Method.mk "__eq__" ["other"]
    (Statement.MethodBody (Statement.Return (Statement.BoolConst true)))] Option.none

/-- A class whose `__eq__` divides by zero, for the examples. -/
def sampleClassEqDiv : Class :=
  Class.mk "D" [Method.mk "__eq__" ["other"]
    (Statement.MethodBody (Statement.Return
      (Statement.Div (Statement.NumericConst 1) (Statement.NumericConst 0))))] Option.none

/-- A world without output and without fields, for the examples. -/
def World.empty : World := { output := "", fields := [] }

end runtime

namespace runtime

/-- A class with a method `f` without parameters, for the examples. -/
def sampleClassBase : Class :=
  Class.mk "Base" [Method.mk "f" [] (Statement.MethodBody (Statement.Return
    (Statement.NumericConst 1)))] Option.none

/-- A class that inherits from `sampleClassBase` and defines `f` with one
parameter, for the examples. -/
def sampleClassDerived : Class :=
  Class.mk "Derived" [Method.mk "f" ["x"] (Statement.MethodBody (Statement.Return
    (Statement.VariableValue ["x"])))] (some sampleClassBase)

end runtime

namespace runtime

/-- A class whose method `f` has a formal parameter called `self`, for the
examples. -/
def sampleClassSelfParam : Class :=
  Class.mk "K" [Method.mk "f" ["self"] (Statement.MethodBody (Statement.Return
    (Statement.VariableValue ["self"])))] Option.none

/-- A class whose method `f` has two formal parameters, both called `a`, and
returns `a`, for the examples. -/
def sampleClassRepeated : Class :=
  Class.mk "R" [Method.mk "f" ["a", "a"] (Statement.MethodBody (Statement.Return
    (Statement.VariableValue ["a"])))] Option.none

/-- A computation that returns the empty handle and changes nothing, for the
examples. -/
def execNothing : Exec := fun _ s => Res.ok Value.None s

end runtime

namespace ast

open runtime

/-- The statement `stmt` evaluates to `v` on the states of `P`: from every
state of `P` its execution returns `v` and ends in a state of `P`.  (For a
statement without side effects `P` may be a single state.) -/
def EvaluatesTo (exec : Exec) (stmt : Statement) (v : Value) (P : St → Prop) : Prop :=
  ∀ t, P t → ∃ t1, P t1 ∧ exec stmt t = Res.ok v t1

end ast

namespace ast

open runtime

end ast

namespace ast

open runtime

/-- A method body with a `Return` inside an `IfElse` inside a `Compound`,
between assignments, for the examples. -/
def sampleBody : Statement :=
  Statement.Compound
    [Statement.Assignment "x" (Statement.NumericConst 1),
     Statement.IfElse (Statement.BoolConst true)
       (Statement.Compound
         [Statement.Return (Statement.NumericConst 7),
          Statement.Assignment "y" (Statement.NumericConst 2)])
       Option.none,
     Statement.Assignment "z" (Statement.NumericConst 3)]

end ast

namespace ast

open runtime

/-- With the budget `n`, the execution of a statement from the state `s`
reaches a `Return` of the handle `v`, in the state `t`, through `Compound` and
`IfElse` nodes only: the statements of a `Compound` before the one that
returns end without throwing, and the condition of an `IfElse` selects the
branch that returns. -/
inductive ReturnsFrom : Nat → Statement → St → Value → St → Prop where
  | ret (n : Nat) (statement_ : Statement) (s t : St) (v : Value) :
      Execute n statement_ s = Res.ok v t →
      ReturnsFrom (n + 1) (Statement.Return statement_) s v t
  | compound (n : Nat) (pre : List Statement) (stmt : Statement) (post : List Statement)
      (s t u : St) (v : Value) :
      Compound.loop (Execute n) pre s = Res.ok () t → ReturnsFrom n stmt t v u →
      ReturnsFrom (n + 1) (Statement.Compound (pre ++ stmt :: post)) s v u
  | ifBody (n : Nat) (condition_ if_body_ : Statement) (else_body_ : Option Statement)
      (s t u : St) (c v : Value) :
      Execute n condition_ s = Res.ok c t → truthTable c = true →
      ReturnsFrom n if_body_ t v u →
      ReturnsFrom (n + 1) (Statement.IfElse condition_ if_body_ else_body_) s v u
  | elseBody (n : Nat) (condition_ if_body_ else_body : Statement)
      (s t u : St) (c v : Value) :
      Execute n condition_ s = Res.ok c t → truthTable c = false →
      ReturnsFrom n else_body t v u →
      ReturnsFrom (n + 1) (Statement.IfElse condition_ if_body_ (some else_body)) s v u

end ast

namespace parse

/-- The printable characters that begin no token: not a space, not `#`, not a
digit, a letter or an underscore, and none of the characters for which
`AddSymvol` has a `case`.  In 7-bit ASCII these are the characters of
`$%&?@[\]^{|}~` and the backquote. -/
def isStray (c : Char) : Bool :=
  isprint c && !isdigit c && !Lexer.isIdChar c
    && !(" #=!<>*/+-(),.:;'\"".toList.contains c)

/-- The control characters of 7-bit ASCII: the codes below 0x20, and 0x7F. -/
def isControl (c : Char) : Bool := decide (c.toNat < 32 ∨ c.toNat = 127)

end parse

namespace ast

open runtime

/-- The decimal rendering of an `int`: the digits of the absolute value,
after a `-` when the number is negative. -/
def decimal (n : Int) : String :=
  if n < 0 then "-" ++ Nat.repr n.natAbs else Nat.repr n.natAbs

/-- The rendering of a handle that is empty or holds a `Number`, a `Bool` or
a `String`, in the words of the specification: `None`, the decimal rendering,
`True` or `False`, the content of the string. -/
def rendering : Value → String
  | Value.None => "None"
  | Value.number n => decimal n
  | Value.bool b => if b then "True" else "False"
  | Value.string t => t
  | Value.cls _ => ""
  | Value.inst _ _ => ""

end ast

namespace ast

open runtime

/-- The texts of a list joined by single spaces: nothing before the first and
nothing after the last. -/
def spaced : List String → String
  | [] => ""
  | [a] => a
  | a :: b :: rest => a ++ " " ++ spaced (b :: rest)

/-- The state `s` after `out` replaced the text of the output stream. -/
def St.withOutput (s : St) (out : String) : St := (s.1, { s.2 with output := out })

/-- The statement `stmt` has no side effect from `s` on: whatever text the
output stream holds, its execution returns `v` and leaves the state as it
is. -/
def SideEffectFree (exec : Exec) (stmt : Statement) (v : Value) (s : St) : Prop :=
  ∀ out : String, exec stmt (s.withOutput out) = Res.ok v (s.withOutput out)

end ast

namespace ast

open runtime

/-- The statement `x = x + 1` as an operand, for the examples. -/
def sampleIncrement : Statement :=
  Statement.Assignment "x" (Statement.Add (Statement.VariableValue ["x"])
    (Statement.NumericConst 1))

/-- The statement `x = x + "a"` as an operand, for the examples. -/
def sampleAppend : Statement :=
  Statement.Assignment "x" (Statement.Add (Statement.VariableValue ["x"])
    (Statement.StringConst "a"))

/-- A class whose method `f` prints `x` and returns the Number 1, for the
examples. -/
def sampleClassNoisy : runtime.Class :=
  Class.mk "N" [Method.mk "f" [] (Statement.MethodBody (Statement.Compound
    [Statement.Print [Statement.StringConst "x"],
     Statement.Return (Statement.NumericConst 1)]))] Option.none

end ast

namespace ast

open runtime

/-- A class whose `__init__` sets the field `n` of `self` to 0, for the
examples. -/
def sampleClassInit : runtime.Class :=
  Class.mk "I" [Method.mk "__init__" [] (Statement.MethodBody
    (Statement.FieldAssignment ["self"] "n" (Statement.NumericConst 0)))] Option.none

/-- A class whose `__init__` copies the field `n` of `self` to its field `m`,
for the examples. -/
def sampleClassCopy : runtime.Class :=
  Class.mk "J" [Method.mk "__init__" [] (Statement.MethodBody
    (Statement.FieldAssignment ["self"] "m" (Statement.VariableValue ["self", "n"])))]
    Option.none

/-- The statements `p = A()`, `p.f = 5`, `q = A()` where both `A()` are the
same node, as when a method that creates an instance is called twice, for the
examples. -/
def sampleTwice (class_ : runtime.Class) (args_ : Option (List Statement)) (name_ : String) :
    Statement :=
  Statement.Compound
    [Statement.Assignment "p" (Statement.NewInstance 1 class_ args_),
     Statement.FieldAssignment ["p"] name_ (Statement.NumericConst 5),
     Statement.Assignment "q" (Statement.NewInstance 1 class_ args_)]

end ast

/-! ## Lemmas on outcomes and views -/

namespace parse

namespace Outcome

@[simp] theorem pure_eq {α : Type} (a : α) : (pure a : Outcome α) = ok a := rfl

@[simp] theorem ok_bind {α β : Type} (a : α) (f : α → Outcome β) : (ok a >>= f) = f a := rfl

@[simp] theorem lexerError_bind {α β : Type} (w : String) (f : α → Outcome β) :
    ((lexerError w : Outcome α) >>= f) = lexerError w := rfl

@[simp] theorem undefined_bind {α β : Type} (f : α → Outcome β) :
    ((undefined : Outcome α) >>= f) = undefined := rfl

@[simp] theorem outOfFuel_bind {α β : Type} (f : α → Outcome β) :
    ((outOfFuel : Outcome α) >>= f) = outOfFuel := rfl

theorem bind_eq_ok {α β : Type} {x : Outcome α} {f : α → Outcome β} {b : β}
    (h : (x >>= f) = ok b) : ∃ a, x = ok a ∧ f a = ok b := by
  cases x with
  | ok a => exact ⟨a, rfl, h⟩
  | lexerError w => cases h
  | undefined => cases h
  | outOfFuel => cases h

end Outcome

open Outcome

@[simp] theorem front_nil : front [] = Outcome.undefined := rfl

@[simp] theorem front_cons (c : Char) (l : List Char) : front (c :: l) = Outcome.ok c := rfl

@[simp] theorem subscript_one_single (c : Char) : subscript [c] 1 = Outcome.undefined := rfl

@[simp] theorem subscript_one_cons (c d : Char) (l : List Char) :
    subscript (c :: d :: l) 1 = Outcome.ok d := rfl

theorem removePrefix_of_le {n : Nat} {line : List Char} (h : n ≤ line.length) :
    removePrefix n line = Outcome.ok (line.drop n) := by
  simp [removePrefix, h]

theorem removePrefix_eq_ok {n : Nat} {line line1 : List Char}
    (h : removePrefix n line = Outcome.ok line1) : n ≤ line.length ∧ line1 = line.drop n := by
  unfold removePrefix at h
  split at h
  · rename_i hle
    injection h with h
    exact ⟨hle, h.symm⟩
  · cases h

end parse

/-! ## What one scanning step pushes -/

namespace parse

open Outcome

namespace Lexer

@[simp] theorem extend_nil (self : Lexer) : self.extend [] = self := by
  cases self; simp [extend]

@[simp] theorem extend_extend (self : Lexer) (a b : List Token) :
    (self.extend a).extend b = self.extend (a ++ b) := by
  simp [extend]

theorem push_back_eq_extend (self : Lexer) (t : Token) : self.push_back t = self.extend [t] := rfl

@[simp] theorem extend_token_flow (self : Lexer) (a : List Token) :
    (self.extend a).token_flow_ = self.token_flow_ ++ a := rfl

@[simp] theorem extend_level (self : Lexer) (a : List Token) :
    (self.extend a).indentation_level_ = self.indentation_level_ := rfl

theorem ite_isContent (c : Prop) [Decidable c] (a b : Token) (ha : a.isContent = true)
    (hb : b.isContent = true) : (if c then a else b).isContent = true := by
  split <;> assumption

theorem idToken_isContent (s : List Char) : (idToken s).isContent = true := by
  unfold idToken
  repeat (first | exact rfl | apply ite_isContent)

theorem stepShape_ok {line : List Char} {self : Lexer} (added : List Token) (k : Nat)
    (hlen : added.length ≤ 1) (hc : ∀ t ∈ added, t.isContent = true) :
    StepShape line self (Outcome.ok (line.drop k, self.extend added)) := by
  intro line1 self1 h
  injection h with h
  injection h with h1 h2
  exact ⟨added, k, h2.symm, hlen, hc, h1.symm⟩

theorem stepShape_of_not_ok {line : List Char} {self : Lexer} {r : Outcome (List Char × Lexer)}
    (h : ∀ x, r ≠ Outcome.ok x) : StepShape line self r := by
  intro line1 self1 hr
  exact absurd hr (h _)

theorem stepShape_removePrefix (line : List Char) (self : Lexer) (n : Nat) (added : List Token)
    (hlen : added.length ≤ 1) (hc : ∀ t ∈ added, t.isContent = true) :
    StepShape line self (removePrefix n line >>= fun line1 => pure (line1, self.extend added)) := by
  unfold removePrefix
  split
  · exact stepShape_ok added n hlen hc
  · exact stepShape_of_not_ok (by intro x h; cases h)

theorem AddNumber_shape (line : List Char) (self : Lexer) :
    StepShape line self (AddNumber line self) := by
  unfold AddNumber
  exact stepShape_removePrefix line self _ [Token.Number (ReadNumber line)] (by simp)
    (by intro t ht; simp at ht; subst ht; rfl)

theorem AddId_shape (line : List Char) (self : Lexer) :
    StepShape line self (AddId line self) := by
  unfold AddId
  exact stepShape_removePrefix line self _ [idToken _] (by simp)
    (by intro t ht; simp at ht; subst ht; exact idToken_isContent _)

theorem stepShape_same (line : List Char) (self : Lexer) :
    StepShape line self (Outcome.ok (line, self)) := by
  have h := @stepShape_ok line self [] 0 (by simp) (by simp)
  simpa using h

theorem AddComparisonOperator_shape (line : List Char) (self : Lexer) :
    StepShape line self (AddComparisonOperator line self) := by
  cases line with
  | nil => exact stepShape_of_not_ok (by intro x h; cases h)
  | cons c l =>
    cases l with
    | nil =>
      unfold AddComparisonOperator
      simp only [front_cons, ok_bind, subscript_one_single, undefined_bind]
      split_ifs <;>
        first
          | exact stepShape_same _ _
          | exact stepShape_of_not_ok (by intro x h; cases h)
    | cons d l =>
      unfold AddComparisonOperator
      simp only [front_cons, ok_bind, subscript_one_cons]
      split_ifs <;>
        first
          | exact stepShape_removePrefix _ _ _ [_] (by simp) (by simp [Token.isContent])
          | exact stepShape_same _ _

theorem AddString_shape (line : List Char) (self : Lexer) :
    StepShape line self (AddString line self) := by
  intro line1 self1 h
  unfold AddString at h
  obtain ⟨q, _, h⟩ := bind_eq_ok h
  obtain ⟨l1, hl1, h⟩ := bind_eq_ok h
  obtain ⟨⟨pos, s⟩, _, h⟩ := bind_eq_ok h
  obtain ⟨l2, hl2, h⟩ := bind_eq_ok h
  simp only [pure_eq, Outcome.ok.injEq, Prod.mk.injEq] at h
  obtain ⟨rfl, rfl⟩ := h
  obtain ⟨_, rfl⟩ := removePrefix_eq_ok hl1
  obtain ⟨_, rfl⟩ := removePrefix_eq_ok hl2
  refine ⟨[Token.String s], pos + 1, rfl, by simp, by simp [Token.isContent], ?_⟩
  simp [List.drop_drop]

theorem AddSymvol_shape (line : List Char) (self : Lexer) :
    StepShape line self (AddSymvol line self) := by
  cases line with
  | nil => exact stepShape_of_not_ok (by intro x h; cases h)
  | cons c l =>
    unfold AddSymvol
    simp only [front_cons, ok_bind]
    split_ifs
    · exact AddComparisonOperator_shape _ _
    · exact stepShape_removePrefix _ _ _ [_] (by simp) (by simp [Token.isContent])
    · exact AddString_shape _ _
    · exact AddId_shape _ _

theorem loopBody_shape (line : List Char) (self : Lexer) :
    StepShape line self (loopBody line self) := by
  cases line with
  | nil => exact stepShape_of_not_ok (by intro x h; cases h)
  | cons c l =>
    unfold loopBody
    simp only [front_cons, ok_bind]
    split_ifs
    · have h := stepShape_removePrefix (c :: l) self (find_first_not_of (c :: l) ' ') []
        (by simp) (by simp)
      simpa using h
    · exact AddNumber_shape _ _
    · exact AddSymvol_shape _ _
    · exact stepShape_same _ _

/-- A successful run of the scanning loop pushes content tokens only, leaves
the level alone and ends on an ignorable rest of the line. -/
theorem scanLoop_shape (fuel : Nat) : ∀ (line : List Char) (self : Lexer) (line1 : List Char)
    (self1 : Lexer), scanLoop fuel line self = Outcome.ok (line1, self1) →
    ∃ added, self1 = self.extend added ∧ (∀ t ∈ added, t.isContent = true) ∧
      IgnoreLine line1 = true := by
  induction fuel with
  | zero =>
    intro line self line1 self1 h
    unfold scanLoop at h
    split at h
    · rename_i hi
      injection h with h
      injection h with h1 h2
      subst h1; subst h2
      exact ⟨[], by simp, by simp, hi⟩
    · cases h
  | succ fuel ih =>
    intro line self line1 self1 h
    unfold scanLoop at h
    split at h
    · rename_i hi
      injection h with h
      injection h with h1 h2
      subst h1; subst h2
      exact ⟨[], by simp, by simp, hi⟩
    · split at h
      · rename_i l2 s2 hb
        obtain ⟨a1, k, hs2, _, hc1, _⟩ := loopBody_shape line self l2 s2 hb
        obtain ⟨a2, hs1, hc2, hi⟩ := ih l2 s2 line1 self1 h
        refine ⟨a1 ++ a2, ?_, ?_, hi⟩
        · rw [hs1, hs2, extend_extend]
        · intro t ht
          rcases List.mem_append.mp ht with h1 | h1
          · exact hc1 t h1
          · exact hc2 t h1
      · cases h
      · cases h
      · cases h

end Lexer

end parse

/-! ## Indentation -/

namespace parse

open Outcome

namespace Lexer

theorem leadingSpaces_le (line : List Char) : leadingSpaces line ≤ line.length :=
  (List.takeWhile_sublist _).length_le

theorem leadingSpaces_lt_of_not_ignore {line : List Char} (h : IgnoreLine line = false) :
    leadingSpaces line < line.length := by
  have hle := leadingSpaces_le line
  rcases Nat.lt_or_eq_of_le hle with hlt | heq
  · exact hlt
  · exfalso
    unfold IgnoreLine at h
    have hk : (List.takeWhile (fun x => x == ' ') line).length = line.length := heq
    simp [find_first_not_of, hk] at h

theorem find_first_not_of_space {line : List Char} (h : leadingSpaces line < line.length) :
    find_first_not_of line ' ' = leadingSpaces line := by
  unfold find_first_not_of
  have hk : (List.takeWhile (fun x => x == ' ') line).length ≠ line.length := Nat.ne_of_lt h
  simp only [hk, if_false]
  rfl

theorem replicate_natAbs (p k : Nat) :
    List.replicate (((k : Int) - (p : Int)).natAbs)
        (if ((k : Int) - (p : Int)) > 0 then Token.Indent else Token.Dedent)
      = indentTokens p k := by
  unfold indentTokens
  by_cases h : p < k
  · have h1 : ((k : Int) - (p : Int)) > 0 := by omega
    have h2 : ((k : Int) - (p : Int)).natAbs = k - p := by omega
    have h3 : p - k = 0 := by omega
    simp [h1, h2, h3]
  · have h1 : ¬ ((k : Int) - (p : Int)) > 0 := by omega
    have h2 : ((k : Int) - (p : Int)).natAbs = p - k := by omega
    have h3 : k - p = 0 := by omega
    simp [h1, h2, h3]

/-- `AddIndent` on a line that is not ignorable. -/
theorem AddIndent_eq {line : List Char} (self : Lexer) (h : IgnoreLine line = false) :
    AddIndent line self =
      if leadingSpaces line % 2 ≠ 0 then Outcome.lexerError "incorrect number of margins"
      else Outcome.ok (line.drop (leadingSpaces line),
        { token_flow_ := self.token_flow_
            ++ indentTokens self.indentation_level_ (leadingSpaces line / 2),
          indentation_level_ := leadingSpaces line / 2,
          current_token := self.current_token }) := by
  have hlt := leadingSpaces_lt_of_not_ignore h
  unfold AddIndent
  simp only [find_first_not_of_space hlt]
  split
  · rfl
  · rw [removePrefix_of_le (Nat.le_of_lt hlt)]
    simp only [ok_bind, pure_eq, replicate_natAbs]

end Lexer

end parse

/-! ## The scanning steps throw no `LexerError` -/

namespace parse

open Outcome

theorem noThrow_ok {α : Type} (a : α) : NoThrow (Outcome.ok a) := by
  intro w h; cases h

theorem noThrow_pure {α : Type} (a : α) : NoThrow (pure a : Outcome α) := noThrow_ok a

theorem noThrow_undefined {α : Type} : NoThrow (Outcome.undefined : Outcome α) := by
  intro w h; cases h

theorem noThrow_outOfFuel {α : Type} : NoThrow (Outcome.outOfFuel : Outcome α) := by
  intro w h; cases h

theorem noThrow_bind {α β : Type} {x : Outcome α} {f : α → Outcome β} (hx : NoThrow x)
    (hf : ∀ a, NoThrow (f a)) : NoThrow (x >>= f) := by
  cases x with
  | ok a => exact hf a
  | lexerError w => exact absurd rfl (hx w)
  | undefined => exact noThrow_undefined
  | outOfFuel => exact noThrow_outOfFuel

theorem noThrow_subscript (line : List Char) (n : Nat) : NoThrow (subscript line n) := by
  unfold subscript
  split
  · exact noThrow_ok _
  · exact noThrow_undefined

theorem noThrow_front (line : List Char) : NoThrow (front line) := noThrow_subscript line 0

theorem noThrow_removePrefix (n : Nat) (line : List Char) : NoThrow (removePrefix n line) := by
  unfold removePrefix
  split
  · exact noThrow_ok _
  · exact noThrow_undefined

namespace Lexer

theorem noThrow_AddNumber (line : List Char) (self : Lexer) : NoThrow (AddNumber line self) := by
  unfold AddNumber
  exact noThrow_bind (noThrow_removePrefix _ _) (fun _ => noThrow_pure _)

theorem noThrow_AddId (line : List Char) (self : Lexer) : NoThrow (AddId line self) := by
  unfold AddId
  exact noThrow_bind (noThrow_removePrefix _ _) (fun _ => noThrow_pure _)

theorem noThrow_removeThenPush (n : Nat) (line : List Char) (self : Lexer) :
    NoThrow (removePrefix n line >>= fun line1 => (pure (line1, self) : Outcome (List Char × Lexer))) :=
  noThrow_bind (noThrow_removePrefix _ _) (fun _ => noThrow_pure _)

theorem noThrow_AddComparisonOperator (line : List Char) (self : Lexer) :
    NoThrow (AddComparisonOperator line self) := by
  unfold AddComparisonOperator
  refine noThrow_bind (noThrow_front _) (fun c => ?_)
  split_ifs <;>
    first
      | exact noThrow_pure _
      | (refine noThrow_bind (noThrow_subscript _ _) (fun c1 => ?_)
         split_ifs <;>
           first
             | exact noThrow_pure _
             | exact noThrow_removeThenPush _ _ _)

theorem noThrow_AddString_loop (q : Char) : ∀ (n : Nat) (rest : List Char) (pos : Nat)
    (s : List Char), rest.length ≤ n → NoThrow (AddString.loop q rest pos s) := by
  intro n
  induction n with
  | zero =>
    intro rest pos s h
    have : rest = [] := List.length_eq_zero.mp (Nat.le_zero.mp h)
    subst this
    unfold AddString.loop
    exact noThrow_undefined
  | succ n ih =>
    intro rest pos s h
    cases rest with
    | nil =>
      unfold AddString.loop
      exact noThrow_undefined
    | cons ch rest =>
      have h1 : rest.length ≤ n := by simpa using h
      unfold AddString.loop
      split_ifs
      · exact noThrow_ok _
      · cases rest with
        | nil => exact noThrow_undefined
        | cons e rest1 =>
          have h2 : rest1.length ≤ n := by
            have : rest1.length + 1 ≤ n := by simpa using h1
            omega
          exact ih rest1 _ _ h2
      · exact ih rest _ _ h1

theorem noThrow_AddString (line : List Char) (self : Lexer) : NoThrow (AddString line self) := by
  unfold AddString
  refine noThrow_bind (noThrow_front _) (fun q => ?_)
  refine noThrow_bind (noThrow_removePrefix _ _) (fun line1 => ?_)
  refine noThrow_bind (noThrow_AddString_loop q _ _ _ _ (Nat.le_refl _)) (fun x => ?_)
  exact noThrow_removeThenPush _ _ _

theorem noThrow_AddSymvol (line : List Char) (self : Lexer) : NoThrow (AddSymvol line self) := by
  unfold AddSymvol
  refine noThrow_bind (noThrow_front _) (fun c => ?_)
  split_ifs
  · exact noThrow_AddComparisonOperator _ _
  · exact noThrow_removeThenPush _ _ _
  · exact noThrow_AddString _ _
  · exact noThrow_AddId _ _

theorem noThrow_loopBody (line : List Char) (self : Lexer) : NoThrow (loopBody line self) := by
  unfold loopBody
  refine noThrow_bind (noThrow_front _) (fun c => ?_)
  split_ifs
  · exact noThrow_removeThenPush _ _ _
  · exact noThrow_AddNumber _ _
  · exact noThrow_AddSymvol _ _
  · exact noThrow_pure _

theorem noThrow_scanLoop (fuel : Nat) : ∀ (line : List Char) (self : Lexer),
    NoThrow (scanLoop fuel line self) := by
  induction fuel with
  | zero =>
    intro line self
    unfold scanLoop
    split
    · exact noThrow_ok _
    · exact noThrow_outOfFuel
  | succ fuel ih =>
    intro line self
    unfold scanLoop
    split
    · exact noThrow_ok _
    · split
      · exact ih _ _
      · rename_i w hb
        exact absurd hb (noThrow_loopBody line self w)
      · exact noThrow_undefined
      · exact noThrow_outOfFuel

end Lexer

end parse

/-! ## One line, and the loop over the lines -/

namespace parse

open Outcome

theorem balance_nil : balance [] = 0 := by simp [balance]

theorem balance_append (a b : List Token) : balance (a ++ b) = balance a + balance b := by
  simp only [balance, List.count_append, Nat.cast_add]
  ring

theorem balance_of_content {l : List Token} (h : ∀ t ∈ l, t.isContent = true) : balance l = 0 := by
  have h1 : l.count Token.Indent = 0 := by
    apply List.count_eq_zero.mpr
    intro hm
    exact absurd (h _ hm) (by decide)
  have h2 : l.count Token.Dedent = 0 := by
    apply List.count_eq_zero.mpr
    intro hm
    exact absurd (h _ hm) (by decide)
  simp [balance, h1, h2]

theorem balance_indentTokens (p k : Nat) : balance (indentTokens p k) = (k : Int) - (p : Int) := by
  simp only [indentTokens, balance, List.count_append, List.count_replicate]
  simp
  omega

theorem balance_newline : balance [Token.Newline] = 0 := by decide

theorem eof_not_mem_indentTokens (p k : Nat) : Token.Eof ∉ indentTokens p k := by
  unfold indentTokens
  intro h
  rcases List.mem_append.mp h with h | h
  · exact absurd (List.eq_of_mem_replicate h) (by decide)
  · exact absurd (List.eq_of_mem_replicate h) (by decide)

theorem eof_not_mem_content {l : List Token} (h : ∀ t ∈ l, t.isContent = true) :
    Token.Eof ∉ l := by
  intro hm
  exact absurd (h _ hm) (by decide)

namespace Lexer

/-- A successful `AddTokensFromString` on a line that is not ignorable: the
number of leading spaces is even, and the tokens pushed are the indentation
tokens, content tokens and one `Newline`. -/
theorem AddTokensFromString_ok {fuel : Nat} {line line2 : List Char} {self self2 : Lexer}
    (hi : IgnoreLine line = false)
    (h : AddTokensFromString fuel line self = Outcome.ok (line2, self2)) :
    leadingSpaces line % 2 = 0 ∧ ∃ content, (∀ t ∈ content, t.isContent = true) ∧
      scanLoop fuel (line.drop (leadingSpaces line))
          { token_flow_ := self.token_flow_
              ++ indentTokens self.indentation_level_ (leadingSpaces line / 2),
            indentation_level_ := leadingSpaces line / 2,
            current_token := self.current_token }
        = Outcome.ok (line2,
          { token_flow_ := self.token_flow_
              ++ indentTokens self.indentation_level_ (leadingSpaces line / 2) ++ content,
            indentation_level_ := leadingSpaces line / 2,
            current_token := self.current_token }) ∧
      self2 =
        { token_flow_ := self.token_flow_
            ++ indentTokens self.indentation_level_ (leadingSpaces line / 2)
            ++ content ++ [Token.Newline],
          indentation_level_ := leadingSpaces line / 2,
          current_token := self.current_token } := by
  unfold AddTokensFromString at h
  rw [AddIndent_eq self hi] at h
  split at h
  · cases h
  · rename_i hpar
    simp only [ok_bind] at h
    obtain ⟨⟨l2, s2⟩, hscan, h⟩ := bind_eq_ok h
    simp only [pure_eq, Outcome.ok.injEq, Prod.mk.injEq] at h
    obtain ⟨rfl, rfl⟩ := h
    obtain ⟨content, hs2, hc, _⟩ := scanLoop_shape fuel _ _ _ _ hscan
    subst hs2
    refine ⟨by omega, content, hc, hscan, rfl⟩

/-- On a line that is not ignorable and has an even number of leading spaces
`AddTokensFromString` throws nothing. -/
theorem AddTokensFromString_even (fuel : Nat) {line : List Char} (self : Lexer)
    (hi : IgnoreLine line = false) (hev : leadingSpaces line % 2 = 0) :
    NoThrow (AddTokensFromString fuel line self) := by
  unfold AddTokensFromString
  rw [AddIndent_eq self hi]
  simp only [hev, ne_eq, not_true_eq_false, if_false, ok_bind]
  exact noThrow_bind (noThrow_scanLoop _ _ _) (fun _ => noThrow_pure _)

theorem readLines_nil (fuel : Nat) (self : Lexer) : readLines fuel [] self = Outcome.ok self := rfl

theorem readLines_cons_ignore (fuel : Nat) {line : List Char} (lines : List (List Char))
    (self : Lexer) (hi : IgnoreLine line = true) :
    readLines fuel (line :: lines) self = readLines fuel lines self := by
  simp [readLines, hi]

theorem readLines_cons (fuel : Nat) {line : List Char} (lines : List (List Char))
    (self : Lexer) (hi : IgnoreLine line = false) :
    readLines fuel (line :: lines) self =
      (AddTokensFromString fuel line self >>= fun x => readLines fuel lines x.2) := by
  simp only [readLines, hi]
  cases AddTokensFromString fuel line self <;> rfl

theorem readLines_append (fuel : Nat) (pre post : List (List Char)) : ∀ self : Lexer,
    readLines fuel (pre ++ post) self = (readLines fuel pre self >>= readLines fuel post) := by
  induction pre with
  | nil => intro self; rfl
  | cons line pre ih =>
    intro self
    by_cases hi : IgnoreLine line = true
    · rw [List.cons_append, readLines_cons_ignore fuel _ self hi,
        readLines_cons_ignore fuel _ self hi, ih]
    · have hi : IgnoreLine line = false := by simpa using hi
      rw [List.cons_append, readLines_cons fuel _ self hi, readLines_cons fuel _ self hi]
      cases AddTokensFromString fuel line self with
      | ok x => simp only [ok_bind]; exact ih x.2
      | lexerError w => rfl
      | undefined => rfl
      | outOfFuel => rfl

end Lexer

end parse

namespace parse

open Outcome

namespace Lexer

/-- A successful run over lines appends tokens that hold no `Eof` and whose
balance of `Indent` and `Dedent` is the change of the level. -/
theorem readLines_ok (fuel : Nat) : ∀ (lines : List (List Char)) (self final : Lexer),
    readLines fuel lines self = Outcome.ok final →
    ∃ added, final.token_flow_ = self.token_flow_ ++ added ∧ Token.Eof ∉ added ∧
      balance added = (final.indentation_level_ : Int) - (self.indentation_level_ : Int) ∧
      final.current_token = self.current_token := by
  intro lines
  induction lines with
  | nil =>
    intro self final h
    rw [readLines_nil] at h
    injection h with h
    subst h
    exact ⟨[], by simp, by simp, by simp [balance_nil], rfl⟩
  | cons line lines ih =>
    intro self final h
    by_cases hi : IgnoreLine line = true
    · rw [readLines_cons_ignore fuel _ self hi] at h
      exact ih self final h
    · have hi : IgnoreLine line = false := by simpa using hi
      rw [readLines_cons fuel _ self hi] at h
      obtain ⟨⟨l2, s2⟩, h1, h2⟩ := bind_eq_ok h
      obtain ⟨_, content, hc, _, hs2⟩ := AddTokensFromString_ok hi h1
      obtain ⟨added, ha, he, hb, hcur⟩ := ih s2 final h2
      subst hs2
      refine ⟨indentTokens self.indentation_level_ (leadingSpaces line / 2) ++ content
        ++ [Token.Newline] ++ added, ?_, ?_, ?_, ?_⟩
      · rw [ha]; simp [List.append_assoc]
      · intro hm
        simp only [List.mem_append, List.mem_singleton] at hm
        rcases hm with ((hm | hm) | hm) | hm
        · exact eof_not_mem_indentTokens _ _ hm
        · exact eof_not_mem_content hc hm
        · cases hm
        · exact he hm
      · rw [balance_append, balance_append, balance_append, balance_indentTokens,
          balance_of_content hc, balance_newline, hb]
        simp
      · exact hcur

theorem construct_eq_ok {fuel : Nat} {input : List Char} {self : Lexer}
    (h : construct fuel input = Outcome.ok self) :
    ∃ last, readLines fuel (getlines [] input) initial = Outcome.ok last ∧ self = finish last := by
  unfold construct at h
  split at h
  · rename_i last hl
    injection h with h
    exact ⟨last, hl, h.symm⟩
  · cases h
  · cases h
  · cases h

end Lexer

end parse

/-! ## The first token of a line -/

namespace parse

open Outcome

namespace Lexer

theorem pushShape_of_not_ok {line : List Char} {self : Lexer} {r : Outcome (List Char × Lexer)}
    (h : ∀ x, r ≠ Outcome.ok x) : PushShape line self r := by
  intro line1 self1 hr
  exact absurd hr (h _)

theorem pushShape_same (line : List Char) (self : Lexer) :
    PushShape line self (Outcome.ok (line, self)) := by
  intro line1 self1 h
  injection h with h
  injection h with h1 h2
  exact Or.inr ⟨h1.symm, h2.symm⟩

theorem pushShape_removePrefix (line : List Char) (self : Lexer) (n : Nat) (t : Token)
    (hc : t.isContent = true) :
    PushShape line self (removePrefix n line >>= fun line1 => pure (line1, self.push_back t)) := by
  intro line1 self1 h
  obtain ⟨l1, _, h⟩ := bind_eq_ok h
  simp only [pure_eq, Outcome.ok.injEq, Prod.mk.injEq] at h
  exact Or.inl ⟨t, hc, h.2.symm⟩

theorem AddNumber_pushShape (line : List Char) (self : Lexer) :
    PushShape line self (AddNumber line self) := by
  unfold AddNumber
  exact pushShape_removePrefix line self _ _ rfl

theorem AddId_pushShape (line : List Char) (self : Lexer) :
    PushShape line self (AddId line self) := by
  unfold AddId
  exact pushShape_removePrefix line self _ _ (idToken_isContent _)

theorem AddComparisonOperator_pushShape (line : List Char) (self : Lexer) :
    PushShape line self (AddComparisonOperator line self) := by
  cases line with
  | nil => exact pushShape_of_not_ok (by intro x h; cases h)
  | cons c l =>
    cases l with
    | nil =>
      unfold AddComparisonOperator
      simp only [front_cons, ok_bind, subscript_one_single, undefined_bind]
      split_ifs <;>
        first
          | exact pushShape_same _ _
          | exact pushShape_of_not_ok (by intro x h; cases h)
    | cons d l =>
      unfold AddComparisonOperator
      simp only [front_cons, ok_bind, subscript_one_cons]
      split_ifs <;>
        first
          | exact pushShape_removePrefix _ _ _ _ rfl
          | exact pushShape_same _ _

theorem AddString_pushShape (line : List Char) (self : Lexer) :
    PushShape line self (AddString line self) := by
  intro line1 self1 h
  unfold AddString at h
  obtain ⟨q, _, h⟩ := bind_eq_ok h
  obtain ⟨l1, _, h⟩ := bind_eq_ok h
  obtain ⟨⟨pos, s⟩, _, h⟩ := bind_eq_ok h
  obtain ⟨l2, _, h⟩ := bind_eq_ok h
  simp only [pure_eq, Outcome.ok.injEq, Prod.mk.injEq] at h
  exact Or.inl ⟨Token.String s, rfl, h.2.symm⟩

theorem AddSymvol_pushShape (line : List Char) (self : Lexer) :
    PushShape line self (AddSymvol line self) := by
  cases line with
  | nil => exact pushShape_of_not_ok (by intro x h; cases h)
  | cons c l =>
    unfold AddSymvol
    simp only [front_cons, ok_bind]
    split_ifs
    · exact AddComparisonOperator_pushShape _ _
    · exact pushShape_removePrefix _ _ _ _ rfl
    · exact AddString_pushShape _ _
    · exact AddId_pushShape _ _

theorem loopBody_pushShape (c : Char) (l : List Char) (self : Lexer) (hc : c ≠ ' ') :
    PushShape (c :: l) self (loopBody (c :: l) self) := by
  unfold loopBody
  simp only [front_cons, ok_bind, hc, if_false]
  split_ifs
  · exact AddNumber_pushShape _ _
  · exact AddSymvol_pushShape _ _
  · exact pushShape_same _ _

/-- A pass that changes nothing on a line that is not ignorable is repeated
for ever: no budget of passes is enough. -/
theorem scanLoop_stuck {line : List Char} {self : Lexer} (hi : IgnoreLine line = false)
    (hb : loopBody line self = Outcome.ok (line, self)) :
    ∀ fuel, scanLoop fuel line self = Outcome.outOfFuel := by
  intro fuel
  induction fuel with
  | zero => simp [scanLoop, hi]
  | succ fuel ih => simp [scanLoop, hi, hb, ih]

theorem drop_leadingSpaces : ∀ {line : List Char}, leadingSpaces line < line.length →
    ∃ c l, line.drop (leadingSpaces line) = c :: l ∧ c ≠ ' ' ∧
      line.get? (leadingSpaces line) = some c := by
  intro line
  induction line with
  | nil => intro h; simp [leadingSpaces] at h
  | cons x xs ih =>
    intro h
    by_cases hx : x = ' '
    · subst hx
      have hk : leadingSpaces (' ' :: xs) = leadingSpaces xs + 1 := by simp [leadingSpaces]
      rw [hk] at h ⊢
      have h1 : leadingSpaces xs < xs.length := by simpa using h
      obtain ⟨c, l, h2, h3, h4⟩ := ih h1
      exact ⟨c, l, by simpa using h2, h3, by simpa using h4⟩
    · have hk : leadingSpaces (x :: xs) = 0 := by simp [leadingSpaces, hx]
      rw [hk]
      exact ⟨x, xs, rfl, hx, rfl⟩

theorem IgnoreLine_cons_eq_false {c : Char} (l : List Char) (h1 : c ≠ ' ') (h2 : c ≠ '#') :
    IgnoreLine (c :: l) = false := by
  have hk : List.takeWhile (fun x => x == ' ') (c :: l) = [] := by simp [h1]
  simp [IgnoreLine, find_first_not_of, hk, npos, h2]

/-- After the leading spaces of a line that is not ignorable comes a
character that is neither a space nor `#`. -/
theorem drop_leadingSpaces_of_not_ignore {line : List Char} (hi : IgnoreLine line = false) :
    ∃ c l, line.drop (leadingSpaces line) = c :: l ∧ c ≠ ' ' ∧ c ≠ '#' := by
  have hlt := leadingSpaces_lt_of_not_ignore hi
  obtain ⟨c, l, h1, h2, h3⟩ := drop_leadingSpaces hlt
  refine ⟨c, l, h1, h2, ?_⟩
  intro hc
  subst hc
  unfold IgnoreLine at hi
  rw [find_first_not_of_space hlt] at hi
  simp only [h3, if_true, ite_self] at hi
  cases hi

/-- A successful run of the scanning loop that starts on a character other
than a space and `#` pushes at least one token. -/
theorem scanLoop_pushes {fuel : Nat} {c : Char} {l line1 : List Char} {self : Lexer}
    {added : List Token} (h1 : c ≠ ' ') (h2 : c ≠ '#')
    (h : scanLoop fuel (c :: l) self = Outcome.ok (line1, self.extend added)) : added ≠ [] := by
  have hi := IgnoreLine_cons_eq_false l h1 h2
  cases fuel with
  | zero => simp [scanLoop, hi] at h
  | succ fuel =>
    unfold scanLoop at h
    simp only [hi, Bool.false_eq_true, if_false] at h
    split at h
    · rename_i l2 s2 hb
      rcases loopBody_pushShape c l self h1 l2 s2 hb with ⟨t, _, hs2⟩ | ⟨hl2, hs2⟩
      · subst hs2
        obtain ⟨a2, ha2, _, _⟩ := scanLoop_shape fuel _ _ _ _ h
        intro hadd
        subst hadd
        have := congrArg Lexer.token_flow_ ha2
        simp at this
      · subst hl2; subst hs2
        rw [scanLoop_stuck hi hb fuel] at h
        cases h
    · cases h
    · cases h
    · cases h

/-- The level after a successful run over lines: that of the last line that
is not ignorable, and the old level when every line is ignorable. -/
theorem readLines_level (fuel : Nat) : ∀ (lines : List (List Char)) (self final : Lexer),
    readLines fuel lines self = Outcome.ok final →
    final.indentation_level_ =
      match (lines.filter (fun l => !IgnoreLine l)).getLast? with
      | some l => leadingSpaces l / 2
      | none => self.indentation_level_ := by
  intro lines
  induction lines with
  | nil =>
    intro self final h
    rw [readLines_nil] at h
    injection h with h
    subst h
    rfl
  | cons line lines ih =>
    intro self final h
    by_cases hi : IgnoreLine line = true
    · rw [readLines_cons_ignore fuel _ self hi] at h
      have := ih self final h
      simpa [List.filter_cons, hi] using this
    · have hi : IgnoreLine line = false := by simpa using hi
      rw [readLines_cons fuel _ self hi] at h
      obtain ⟨⟨l2, s2⟩, h1, h2⟩ := bind_eq_ok h
      obtain ⟨_, content, _, _, hs2⟩ := AddTokensFromString_ok hi h1
      have := ih s2 final h2
      rw [this]
      simp only [List.filter_cons, hi, Bool.not_false, if_true]
      cases hf : List.filter (fun l => !IgnoreLine l) lines with
      | nil => simp [hs2]
      | cons x xs =>
        rw [List.getLast?_cons_cons, List.getLast?_eq_getLast _ (List.cons_ne_nil x xs)]

theorem indentTokens_of_lt {p k : Nat} (h : p < k) :
    indentTokens p k = List.replicate (k - p) Token.Indent := by
  have : p - k = 0 := by omega
  simp [indentTokens, this]

theorem indentTokens_of_gt {p k : Nat} (h : k < p) :
    indentTokens p k = List.replicate (p - k) Token.Dedent := by
  have : k - p = 0 := by omega
  simp [indentTokens, this]

theorem indentTokens_self (p : Nat) : indentTokens p p = [] := by
  simp [indentTokens]

end Lexer

end parse

/-! ## Ignorable lines and thrown errors -/

namespace parse

open Outcome

namespace Lexer

theorem head?_dropWhile_space : ∀ line : List Char,
    (line.dropWhile (fun x => x == ' ')).head? = line.get? (leadingSpaces line) := by
  intro line
  induction line with
  | nil => rfl
  | cons x xs ih =>
    by_cases hx : x = ' '
    · subst hx
      have hk : leadingSpaces (' ' :: xs) = leadingSpaces xs + 1 := by simp [leadingSpaces]
      rw [hk]
      simpa using ih
    · have hk : leadingSpaces (x :: xs) = 0 := by simp [leadingSpaces, hx]
      rw [hk]
      simp [hx]

/-- An empty line and a line whose first character other than a space is `#`
are ignorable for `IgnoreLine`. -/
theorem IgnoreLine_of_blankOrComment {line : List Char} (h : blankOrComment line = true) :
    IgnoreLine line = true := by
  unfold blankOrComment at h
  rcases Bool.or_eq_true_iff.mp h with h | h
  · have : line = [] := by simpa using h
    subst this
    rfl
  · have h1 : line.get? (leadingSpaces line) = some '#' := by
      rw [← head?_dropWhile_space]
      simpa using h
    have hlt : leadingSpaces line < line.length := by
      by_contra hge
      have : line.get? (leadingSpaces line) = none := by
        apply List.get?_eq_none.mpr
        omega
      rw [this] at h1
      cases h1
    unfold IgnoreLine
    rw [find_first_not_of_space hlt]
    simp only [h1, if_true, ite_self]

/-- An ignorable line among the lines changes nothing in the run. -/
theorem readLines_insert_ignorable (fuel : Nat) (pre post : List (List Char)) (l : List Char)
    (self : Lexer) (hl : IgnoreLine l = true) :
    readLines fuel (pre ++ l :: post) self = readLines fuel (pre ++ post) self := by
  rw [readLines_append, readLines_append]
  congr 1
  funext s0
  exact readLines_cons_ignore fuel post s0 hl

theorem noThrow_readLines (fuel : Nat) : ∀ (lines : List (List Char)) (self : Lexer),
    (∀ L ∈ lines, IgnoreLine L = false → leadingSpaces L % 2 = 0) →
    NoThrow (readLines fuel lines self) := by
  intro lines
  induction lines with
  | nil => intro self _; exact noThrow_ok _
  | cons line lines ih =>
    intro self hall
    have hrest : ∀ L ∈ lines, IgnoreLine L = false → leadingSpaces L % 2 = 0 :=
      fun L hL => hall L (List.mem_cons_of_mem _ hL)
    by_cases hi : IgnoreLine line = true
    · rw [readLines_cons_ignore fuel _ self hi]
      exact ih self hrest
    · have hi : IgnoreLine line = false := by simpa using hi
      rw [readLines_cons fuel _ self hi]
      exact noThrow_bind (AddTokensFromString_even fuel self hi (hall line (List.mem_cons_self _ _) hi))
        (fun x => ih x.2 hrest)

theorem construct_eq_bind (fuel : Nat) (input : List Char) :
    construct fuel input
      = (readLines fuel (getlines [] input) initial >>= fun last => pure (finish last)) := by
  unfold construct
  cases readLines fuel (getlines [] input) initial <;> rfl

end Lexer

end parse

/-! ## The budget of passes -/

namespace parse

open Outcome

namespace Lexer

theorem scanLoop_of_ignore (fuel : Nat) {line : List Char} (self : Lexer)
    (hi : IgnoreLine line = true) : scanLoop fuel line self = Outcome.ok (line, self) := by
  cases fuel <;> simp [scanLoop, hi]

theorem scanLoop_step (fuel : Nat) {line line1 : List Char} {self self1 : Lexer}
    (hi : IgnoreLine line = false) (hb : loopBody line self = Outcome.ok (line1, self1)) :
    scanLoop (fuel + 1) line self = scanLoop fuel line1 self1 := by
  simp [scanLoop, hi, hb]

theorem scanLoop_step_undefined (fuel : Nat) {line : List Char} {self : Lexer}
    (hi : IgnoreLine line = false) (hb : loopBody line self = Outcome.undefined) :
    scanLoop (fuel + 1) line self = Outcome.undefined := by
  simp [scanLoop, hi, hb]

/-- A result reached within a budget of passes is reached within every
larger budget. -/
theorem scanLoop_mono (fuel : Nat) : ∀ (line : List Char) (self : Lexer)
    (r : Outcome (List Char × Lexer)), scanLoop fuel line self = r → r ≠ Outcome.outOfFuel →
    ∀ k, scanLoop (fuel + k) line self = r := by
  induction fuel with
  | zero =>
    intro line self r h hr k
    by_cases hi : IgnoreLine line = true
    · rw [scanLoop_of_ignore _ self hi] at h ⊢
      exact h
    · exfalso
      apply hr
      rw [← h]
      simp [scanLoop, hi]
  | succ fuel ih =>
    intro line self r h hr k
    by_cases hi : IgnoreLine line = true
    · rw [scanLoop_of_ignore _ self hi] at h ⊢
      exact h
    · have hi : IgnoreLine line = false := by simpa using hi
      have hk : fuel + 1 + k = (fuel + k) + 1 := by omega
      rw [hk]
      unfold scanLoop at h ⊢
      simp only [hi, Bool.false_eq_true, if_false] at h ⊢
      cases hb : loopBody line self with
      | ok x =>
        obtain ⟨l1, s1⟩ := x
        rw [hb] at h
        exact ih l1 s1 r h hr k
      | lexerError w => rw [hb] at h; exact h
      | undefined => rw [hb] at h; exact h
      | outOfFuel => rw [hb] at h; exact h

theorem AddTokensFromString_mono (fuel : Nat) (line : List Char) (self : Lexer)
    (r : Outcome (List Char × Lexer)) (h : AddTokensFromString fuel line self = r)
    (hr : r ≠ Outcome.outOfFuel) (k : Nat) : AddTokensFromString (fuel + k) line self = r := by
  unfold AddTokensFromString at h ⊢
  cases ha : AddIndent line self with
  | ok x =>
    rw [ha] at h
    simp only [ok_bind] at h ⊢
    cases hs : scanLoop fuel x.1 x.2 with
    | ok y => rw [scanLoop_mono fuel _ _ _ hs (by intro hc; cases hc) k, ← h, hs]
    | lexerError w => rw [scanLoop_mono fuel _ _ _ hs (by intro hc; cases hc) k, ← h, hs]
    | undefined => rw [scanLoop_mono fuel _ _ _ hs (by intro hc; cases hc) k, ← h, hs]
    | outOfFuel =>
      exfalso
      apply hr
      rw [← h, hs]
      rfl
  | lexerError w => rw [ha] at h; exact h
  | undefined => rw [ha] at h; exact h
  | outOfFuel => rw [ha] at h; exact h

theorem readLines_mono (fuel : Nat) : ∀ (lines : List (List Char)) (self : Lexer)
    (r : Outcome Lexer), readLines fuel lines self = r → r ≠ Outcome.outOfFuel →
    ∀ k, readLines (fuel + k) lines self = r := by
  intro lines
  induction lines with
  | nil => intro self r h _ k; exact h
  | cons line lines ih =>
    intro self r h hr k
    by_cases hi : IgnoreLine line = true
    · rw [readLines_cons_ignore _ _ self hi] at h ⊢
      exact ih self r h hr k
    · have hi : IgnoreLine line = false := by simpa using hi
      rw [readLines_cons _ _ self hi] at h ⊢
      cases ha : AddTokensFromString fuel line self with
      | ok x =>
        rw [AddTokensFromString_mono fuel line self _ ha (by intro hc; cases hc) k]
        rw [ha] at h
        exact ih x.2 r h hr k
      | lexerError w =>
        rw [AddTokensFromString_mono fuel line self _ ha (by intro hc; cases hc) k, ← h, ha]
        rfl
      | undefined =>
        rw [AddTokensFromString_mono fuel line self _ ha (by intro hc; cases hc) k, ← h, ha]
        rfl
      | outOfFuel =>
        exfalso
        apply hr
        rw [← h, ha]
        rfl

/-- The constructor: a result reached with a budget of passes for each line
is reached with every larger budget. -/
theorem construct_mono {fuel : Nat} {input : List Char} {r : Outcome Lexer}
    (h : construct fuel input = r) (hr : r ≠ Outcome.outOfFuel) (k : Nat) :
    construct (fuel + k) input = r := by
  rw [construct_eq_bind] at h ⊢
  cases ha : readLines fuel (getlines [] input) initial with
  | ok x => rw [readLines_mono fuel _ _ _ ha (by intro hc; cases hc) k, ← h, ha]
  | lexerError w => rw [readLines_mono fuel _ _ _ ha (by intro hc; cases hc) k, ← h, ha]
  | undefined => rw [readLines_mono fuel _ _ _ ha (by intro hc; cases hc) k, ← h, ha]
  | outOfFuel =>
    exfalso
    apply hr
    rw [← h, ha]
    rfl

theorem tokens_mono {fuel : Nat} {input : List Char} {r : Outcome (List Token)}
    (h : tokens fuel input = r) (hr : r ≠ Outcome.outOfFuel) (k : Nat) :
    tokens (fuel + k) input = r := by
  unfold tokens at h ⊢
  cases ha : construct fuel input with
  | ok x => rw [construct_mono ha (by intro hc; cases hc) k, ← h, ha]
  | lexerError w => rw [construct_mono ha (by intro hc; cases hc) k, ← h, ha]
  | undefined => rw [construct_mono ha (by intro hc; cases hc) k, ← h, ha]
  | outOfFuel =>
    exfalso
    apply hr
    rw [← h, ha]

end Lexer

end parse

/-! ## Words -/

namespace parse

open Outcome

namespace Lexer

end Lexer

end parse

/-! ## String literals -/

namespace parse

open Outcome

namespace Lexer

end Lexer

end parse

/-! ## Inputs of one line -/

namespace parse

open Outcome

namespace Lexer

theorem construct_one_line (fuel : Nat) {input line : List Char}
    (h : getlines [] input = [line]) (hi : IgnoreLine line = false) :
    construct fuel input
      = (AddTokensFromString fuel line initial >>= fun x => pure (finish x.2)) := by
  rw [construct_eq_bind, h, readLines_cons _ _ _ hi]
  cases AddTokensFromString fuel line initial <;> rfl

/-- A tab at the head of the view stops the scanning loop for ever: none of
the three tests of the loop body holds, so the pass changes nothing. -/
theorem scanLoop_tab (fuel : Nat) (rest : List Char) (self : Lexer) :
    scanLoop fuel ('\t' :: rest) self = Outcome.outOfFuel :=
  @scanLoop_stuck ('\t' :: rest) self (IgnoreLine_cons_eq_false rest (by decide) (by decide))
    rfl fuel

end Lexer

end parse

/-! ## Lines with text -/

namespace parse

open Outcome

namespace Lexer

/-- On a line shorter than `npos`, `IgnoreLine` holds exactly of the lines
without text. -/
theorem IgnoreLine_eq_not_beginsText {line : List Char} (hlen : line.length < npos) :
    IgnoreLine line = !beginsText line := by
  have hle := leadingSpaces_le line
  unfold beginsText
  rw [head?_dropWhile_space]
  rcases Nat.lt_or_eq_of_le hle with hlt | heq
  · have hpos : leadingSpaces line ≠ npos := by omega
    have hne : line.length ≠ 0 := by omega
    obtain ⟨c, hc⟩ : ∃ c, line.get? (leadingSpaces line) = some c :=
      ⟨line.get ⟨_, hlt⟩, List.get?_eq_get hlt⟩
    unfold IgnoreLine
    rw [find_first_not_of_space hlt]
    simp only [hne, hpos, if_false, hc]
    by_cases h : c = '#'
    · subst h
      rfl
    · simp [h]
  · have hnone : line.get? (leadingSpaces line) = none := by
      apply List.get?_eq_none.mpr
      omega
    rw [hnone]
    have hk : (List.takeWhile (fun x => x == ' ') line).length = line.length := heq
    simp [IgnoreLine, find_first_not_of, hk]

/-- A line that `std::getline` delivers is no longer than the text read so
far and the rest of the input together. -/
theorem getlines_length : ∀ (input cur l : List Char), l ∈ getlines cur input →
    l.length ≤ cur.length + input.length
  | [], cur, l, h => by
    by_cases hc : cur = []
    · simp [getlines, hc] at h
    · have : l = cur := by simpa [getlines, hc] using h
      subst this
      simp
  | c :: cs, cur, l, h => by
    by_cases hc : c = '\n'
    · have h1 : l = cur ∨ l ∈ getlines [] cs := by simpa [getlines, hc] using h
      rcases h1 with h1 | h1
      · subst h1
        simp
      · have := getlines_length cs [] l h1
        simp only [List.length_nil, List.length_cons] at this ⊢
        omega
    · have h1 : l ∈ getlines (cur ++ [c]) cs := by simpa [getlines, hc] using h
      have := getlines_length cs (cur ++ [c]) l h1
      simp only [List.length_append, List.length_cons, List.length_nil] at this ⊢
      omega

/-- The lines of an input shorter than `npos`: the lines that `IgnoreLine`
does not skip are the lines with text. -/
theorem filter_not_ignore {input : List Char} (hlen : input.length < npos)
    {lines : List (List Char)} (hsub : ∀ l ∈ lines, l ∈ getlines [] input) :
    lines.filter (fun l => !IgnoreLine l) = lines.filter beginsText := by
  apply List.filter_congr
  intro l hl
  have h1 := getlines_length input [] l (hsub l hl)
  have h2 : l.length < npos := by
    simp only [List.length_nil] at h1
    omega
  rw [IgnoreLine_eq_not_beginsText h2, Bool.not_not]

end Lexer

end parse

/-! ## The claims -/

namespace parse

open Outcome Lexer

/-- C1: whenever construction of the lexer succeeds, the token sequence is
not empty, its last token is `Eof`, and no position before the last holds an
`Eof`. -/
theorem C1_tokens_end_with_single_eof (fuel : Nat) (input : List Char) (self : Lexer)
    (h : construct fuel input = Outcome.ok self) :
    self.token_flow_ ≠ [] ∧ self.token_flow_.getLast? = some Token.Eof ∧
      Token.Eof ∉ self.token_flow_.dropLast := by
  obtain ⟨last, hl, rfl⟩ := construct_eq_ok h
  obtain ⟨added, ha, he, _, _⟩ := readLines_ok fuel _ _ _ hl
  have hflow : (finish last).token_flow_
      = (added ++ List.replicate last.indentation_level_ Token.Dedent) ++ [Token.Eof] := by
    simp [finish, ha, initial]
  rw [hflow]
  refine ⟨by simp, by simp, ?_⟩
  rw [List.dropLast_concat]
  intro hm
  rcases List.mem_append.mp hm with hm | hm
  · exact he hm
  · exact absurd (List.eq_of_mem_replicate hm) (by decide)

/-- Witness of C1 on the text of three lines `x = 1`, `  y` and a comment. -/
theorem C1_tokens_end_with_single_eof_witness :
    construct 8 "x = 1\n  y\n# end".toList
        = Outcome.ok
            { token_flow_ := [Token.Id ['x'], Token.Char '=', Token.Number 1, Token.Newline,
                Token.Indent, Token.Id ['y'], Token.Newline, Token.Dedent, Token.Eof],
              indentation_level_ := 0, current_token := 0 } ∧
      ([Token.Id ['x'], Token.Char '=', Token.Number 1, Token.Newline,
          Token.Indent, Token.Id ['y'], Token.Newline, Token.Dedent, Token.Eof] ≠ [] ∧
        [Token.Id ['x'], Token.Char '=', Token.Number 1, Token.Newline,
          Token.Indent, Token.Id ['y'], Token.Newline, Token.Dedent, Token.Eof].getLast?
            = some Token.Eof ∧
        Token.Eof ∉ [Token.Id ['x'], Token.Char '=', Token.Number 1, Token.Newline,
          Token.Indent, Token.Id ['y'], Token.Newline, Token.Dedent, Token.Eof].dropLast) :=
  ⟨by decide, C1_tokens_end_with_single_eof 8 "x = 1\n  y\n# end".toList
    { token_flow_ := [Token.Id ['x'], Token.Char '=', Token.Number 1, Token.Newline,
        Token.Indent, Token.Id ['y'], Token.Newline, Token.Dedent, Token.Eof],
      indentation_level_ := 0, current_token := 0 } (by decide)⟩

/-- C2: whenever construction of the lexer succeeds, the token sequence holds
as many `Indent` as `Dedent` tokens; the tokens pushed after the last line
are one `Dedent` for each level still open, followed by `Eof`. -/
theorem C2_indent_count_eq_dedent_count (fuel : Nat) (input : List Char) (self : Lexer)
    (h : construct fuel input = Outcome.ok self) :
    self.token_flow_.count Token.Indent = self.token_flow_.count Token.Dedent ∧
      ∃ last, readLines fuel (getlines [] input) initial = Outcome.ok last ∧
        last.token_flow_.count Token.Indent
          = last.token_flow_.count Token.Dedent + last.indentation_level_ ∧
        self.token_flow_ = last.token_flow_
          ++ List.replicate last.indentation_level_ Token.Dedent ++ [Token.Eof] := by
  obtain ⟨last, hl, rfl⟩ := construct_eq_ok h
  obtain ⟨added, ha, _, hb, _⟩ := readLines_ok fuel _ _ _ hl
  have hflow : last.token_flow_ = added := by simpa [initial] using ha
  have hbal : balance last.token_flow_ = (last.indentation_level_ : Int) := by
    rw [hflow, hb]; simp [initial]
  have hcount : last.token_flow_.count Token.Indent
      = last.token_flow_.count Token.Dedent + last.indentation_level_ := by
    unfold balance at hbal
    omega
  refine ⟨?_, last, hl, hcount, rfl⟩
  simp only [finish, List.count_append, List.count_replicate]
  simp [hcount]

/-- Witness of C2 on a text that ends two levels deep. -/
theorem C2_indent_count_eq_dedent_count_witness :
    construct 8 "a\n    b".toList
        = Outcome.ok
            { token_flow_ := [Token.Id ['a'], Token.Newline, Token.Indent, Token.Indent,
                Token.Id ['b'], Token.Newline, Token.Dedent, Token.Dedent, Token.Eof],
              indentation_level_ := 0, current_token := 0 } ∧
      ([Token.Id ['a'], Token.Newline, Token.Indent, Token.Indent,
          Token.Id ['b'], Token.Newline, Token.Dedent, Token.Dedent, Token.Eof].count Token.Indent
        = [Token.Id ['a'], Token.Newline, Token.Indent, Token.Indent,
          Token.Id ['b'], Token.Newline, Token.Dedent, Token.Dedent, Token.Eof].count Token.Dedent ∧
        ∃ last, readLines 8 (getlines [] "a\n    b".toList) initial = Outcome.ok last ∧
          last.token_flow_.count Token.Indent
            = last.token_flow_.count Token.Dedent + last.indentation_level_ ∧
          [Token.Id ['a'], Token.Newline, Token.Indent, Token.Indent,
            Token.Id ['b'], Token.Newline, Token.Dedent, Token.Dedent, Token.Eof]
            = last.token_flow_
              ++ List.replicate last.indentation_level_ Token.Dedent ++ [Token.Eof]) :=
  ⟨by decide, C2_indent_count_eq_dedent_count 8 "a\n    b".toList
    { token_flow_ := [Token.Id ['a'], Token.Newline, Token.Indent, Token.Indent,
        Token.Id ['b'], Token.Newline, Token.Dedent, Token.Dedent, Token.Eof],
      indentation_level_ := 0, current_token := 0 } (by decide)⟩

/-- C3 as stated fails: in the text `a`, then a line of two spaces, the second
line is not ignorable by the definition of the specification (it is not empty
and has no `#`), it has two leading spaces and the line before it has level 0,
so the claim gives it one `Indent`; but the lexer skips it, and the token
sequence has no `Indent` at all. -/
theorem C3_line_of_spaces_gets_no_indent :
    getlines [] "a\n  ".toList = ["a".toList] ++ "  ".toList :: [] ∧
      blankOrComment "a".toList = false ∧ leadingSpaces "a".toList / 2 = 0 ∧
      blankOrComment "  ".toList = false ∧ leadingSpaces "  ".toList = 2 * 1 ∧
      (∀ k, construct (1 + k) "a\n  ".toList
        = Outcome.ok { token_flow_ := [Token.Id ['a'], Token.Newline, Token.Eof],
                       indentation_level_ := 0, current_token := 0 }) ∧
      ¬ ∃ before after,
        [Token.Id ['a'], Token.Newline, Token.Eof] = before ++ indentTokens 0 1 ++ after := by
  refine ⟨by decide, by decide, by decide, by decide, by decide,
    fun k => construct_mono (by decide) (by decide) k, ?_⟩
  rintro ⟨before, after, h⟩
  have hmem : Token.Indent ∈ [Token.Id ['a'], Token.Newline, Token.Eof] := by
    rw [h]
    simp [indentTokens]
  revert hmem
  decide

/-- C3, amended: in an accepted input (shorter than `npos`, as every text is)
let `L` be a line with text (a line that has a character other than a space,
the first of them not `#`), with `2k` leading spaces, and `p` the level of the
last line with text before it (0 without such a line).  The tokens of `L`
follow the tokens `before` of the earlier lines and are `k - p` times `Indent`
when `k > p`, `p - k` times `Dedent` when `k < p`, none of the two when
`k = p`, then at least one content token, none of them `Indent` or `Dedent`,
then `Newline`.  Before the first content token of `L` the count of `Indent`
minus the count of `Dedent` is `k`. -/
theorem C3_indentation_of_line (fuel : Nat) (input : List Char) (self : Lexer)
    (pre : List (List Char)) (L : List Char) (post : List (List Char))
    (hlen : input.length < npos)
    (h : construct fuel input = Outcome.ok self)
    (hsplit : getlines [] input = pre ++ L :: post)
    (hT : beginsText L = true) :
    leadingSpaces L = 2 * (leadingSpaces L / 2) ∧
    ∃ before content after,
      readLines fuel pre initial = Outcome.ok
        { token_flow_ := before, indentation_level_ := prevLevel pre, current_token := 0 } ∧
      self.token_flow_ = before ++ indentTokens (prevLevel pre) (leadingSpaces L / 2)
        ++ content ++ Token.Newline :: after ∧
      content ≠ [] ∧
      (∀ t ∈ content, t ≠ Token.Indent ∧ t ≠ Token.Dedent ∧ t ≠ Token.Newline ∧ t ≠ Token.Eof) ∧
      (prevLevel pre < leadingSpaces L / 2 → indentTokens (prevLevel pre) (leadingSpaces L / 2)
        = List.replicate (leadingSpaces L / 2 - prevLevel pre) Token.Indent) ∧
      (leadingSpaces L / 2 < prevLevel pre → indentTokens (prevLevel pre) (leadingSpaces L / 2)
        = List.replicate (prevLevel pre - leadingSpaces L / 2) Token.Dedent) ∧
      (leadingSpaces L / 2 = prevLevel pre
        → indentTokens (prevLevel pre) (leadingSpaces L / 2) = []) ∧
      balance (before ++ indentTokens (prevLevel pre) (leadingSpaces L / 2))
        = ((leadingSpaces L / 2 : Nat) : Int) := by
  have hLlen : L.length < npos := by
    have h1 := getlines_length input [] L (by rw [hsplit]; simp)
    simp only [List.length_nil] at h1
    omega
  have hL : IgnoreLine L = false := by
    rw [IgnoreLine_eq_not_beginsText hLlen, hT]
    rfl
  have hfilter : pre.filter (fun l => !IgnoreLine l) = pre.filter beginsText :=
    filter_not_ignore hlen (fun l hl => by rw [hsplit]; exact List.mem_append_left _ hl)
  obtain ⟨last, hl, rfl⟩ := construct_eq_ok h
  rw [hsplit, readLines_append] at hl
  obtain ⟨s0, hpre, hl⟩ := bind_eq_ok hl
  rw [readLines_cons fuel _ s0 hL] at hl
  obtain ⟨⟨l2, s2⟩, hline, hpost⟩ := bind_eq_ok hl
  obtain ⟨hev, content, hc, hscan, hs2⟩ := AddTokensFromString_ok hL hline
  obtain ⟨before, hb1, _, hb3, hb4⟩ := readLines_ok fuel _ _ _ hpre
  obtain ⟨added, ha1, _, _, _⟩ := readLines_ok fuel _ _ _ hpost
  have hlev : s0.indentation_level_ = prevLevel pre := by
    rw [readLines_level fuel _ _ _ hpre, hfilter]
    unfold prevLevel
    cases (List.filter beginsText pre).getLast? <;> rfl
  have hflow : s0.token_flow_ = before := by simpa [initial] using hb1
  have hcur : s0.current_token = 0 := by simpa [initial] using hb4
  have hs0 : s0 = Lexer.mk before (prevLevel pre) 0 := by
    cases s0
    simp only [Lexer.mk.injEq]
    exact ⟨hflow, hlev, hcur⟩
  have hbal : balance before = (prevLevel pre : Int) := by
    rw [hb3, hlev]; simp [initial]
  obtain ⟨c, l, hdrop, hc1, hc2⟩ := drop_leadingSpaces_of_not_ignore hL
  have hne : content ≠ [] := by
    rw [hdrop] at hscan
    exact scanLoop_pushes hc1 hc2 hscan
  refine ⟨by omega, before, content,
    added ++ List.replicate last.indentation_level_ Token.Dedent ++ [Token.Eof],
    hs0 ▸ hpre, ?_, hne, ?_, indentTokens_of_lt, indentTokens_of_gt, ?_, ?_⟩
  · simp only [finish, ha1, hs2, hflow, hlev]
    simp [List.append_assoc]
  · intro t ht
    have := hc t ht
    refine ⟨?_, ?_, ?_, ?_⟩ <;> (intro he; subst he; cases this)
  · intro he
    rw [he]
    exact indentTokens_self _
  · rw [balance_append, balance_indentTokens, hbal]
    ring

/-- Witness of C3, amended: the third line of the text `a`, `    b`, `  c`
closes one of the two open levels. -/
theorem C3_indentation_of_line_witness :
    construct 8 "a\n    b\n  c".toList
        = Outcome.ok
            { token_flow_ := [Token.Id ['a'], Token.Newline, Token.Indent, Token.Indent,
                Token.Id ['b'], Token.Newline, Token.Dedent, Token.Id ['c'], Token.Newline,
                Token.Dedent, Token.Eof],
              indentation_level_ := 0, current_token := 0 } ∧
      "a\n    b\n  c".toList.length < npos ∧
      getlines [] "a\n    b\n  c".toList = ["a".toList, "    b".toList] ++ "  c".toList :: [] ∧
      beginsText "  c".toList = true ∧
      (leadingSpaces "  c".toList = 2 * (leadingSpaces "  c".toList / 2) ∧
        ∃ before content after,
          readLines 8 ["a".toList, "    b".toList] initial = Outcome.ok
            { token_flow_ := before,
              indentation_level_ := prevLevel ["a".toList, "    b".toList],
              current_token := 0 } ∧
          [Token.Id ['a'], Token.Newline, Token.Indent, Token.Indent,
              Token.Id ['b'], Token.Newline, Token.Dedent, Token.Id ['c'], Token.Newline,
              Token.Dedent, Token.Eof]
            = before ++ indentTokens (prevLevel ["a".toList, "    b".toList])
                (leadingSpaces "  c".toList / 2)
              ++ content ++ Token.Newline :: after ∧
          content ≠ [] ∧
          (∀ t ∈ content,
            t ≠ Token.Indent ∧ t ≠ Token.Dedent ∧ t ≠ Token.Newline ∧ t ≠ Token.Eof) ∧
          (prevLevel ["a".toList, "    b".toList] < leadingSpaces "  c".toList / 2 →
            indentTokens (prevLevel ["a".toList, "    b".toList])
                (leadingSpaces "  c".toList / 2)
              = List.replicate (leadingSpaces "  c".toList / 2
                  - prevLevel ["a".toList, "    b".toList]) Token.Indent) ∧
          (leadingSpaces "  c".toList / 2 < prevLevel ["a".toList, "    b".toList] →
            indentTokens (prevLevel ["a".toList, "    b".toList])
                (leadingSpaces "  c".toList / 2)
              = List.replicate (prevLevel ["a".toList, "    b".toList]
                  - leadingSpaces "  c".toList / 2) Token.Dedent) ∧
          (leadingSpaces "  c".toList / 2 = prevLevel ["a".toList, "    b".toList] →
            indentTokens (prevLevel ["a".toList, "    b".toList])
                (leadingSpaces "  c".toList / 2) = []) ∧
          balance (before ++ indentTokens (prevLevel ["a".toList, "    b".toList])
              (leadingSpaces "  c".toList / 2))
            = ((leadingSpaces "  c".toList / 2 : Nat) : Int)) :=
  ⟨by decide, by decide, by decide, by decide,
    C3_indentation_of_line 8 "a\n    b\n  c".toList
      { token_flow_ := [Token.Id ['a'], Token.Newline, Token.Indent, Token.Indent,
          Token.Id ['b'], Token.Newline, Token.Dedent, Token.Id ['c'], Token.Newline,
          Token.Dedent, Token.Eof],
        indentation_level_ := 0, current_token := 0 }
      ["a".toList, "    b".toList] "  c".toList [] (by decide) (by decide) (by decide)
      (by decide)⟩

/-- C4: a line that is empty, or whose first character other than a space is
`#`, contributes nothing: two inputs whose lines differ only by such a line,
inserted at any position, give the same lexer, or the same failure. -/
theorem C4_ignorable_line_inserted (fuel : Nat) (input1 input2 : List Char)
    (pre post : List (List Char)) (l : List Char)
    (hl : blankOrComment l = true)
    (h1 : getlines [] input1 = pre ++ post)
    (h2 : getlines [] input2 = pre ++ l :: post) :
    construct fuel input2 = construct fuel input1 ∧ tokens fuel input2 = tokens fuel input1 := by
  have hc : construct fuel input2 = construct fuel input1 := by
    rw [construct_eq_bind, construct_eq_bind, h1, h2,
      readLines_insert_ignorable fuel pre post l initial (IgnoreLine_of_blankOrComment hl)]
  exact ⟨hc, by unfold tokens; rw [hc]⟩

/-- Witness of C4: a comment line inserted between the two lines of a text. -/
theorem C4_ignorable_line_inserted_witness :
    blankOrComment "  # c".toList = true ∧
      getlines [] "a\n  b".toList = ["a".toList] ++ ["  b".toList] ∧
      getlines [] "a\n  # c\n  b".toList = ["a".toList] ++ "  # c".toList :: ["  b".toList] ∧
      construct 8 "a\n  # c\n  b".toList = construct 8 "a\n  b".toList ∧
      tokens 8 "a\n  # c\n  b".toList = tokens 8 "a\n  b".toList :=
  ⟨by decide, by decide, by decide,
    C4_ignorable_line_inserted 8 "a\n  b".toList "a\n  # c\n  b".toList ["a".toList]
      ["  b".toList] "  # c".toList (by decide) (by decide) (by decide)⟩

/-- C6 (the code on a run of digits with leading zeros): on the line `007`
`AddNumber` pushes `Number 7` and drops one character only, the length of
`std::to_string(7)`, so the scan resumes inside the run and the lexer emits
three `Number 7` tokens for the one run, with every budget of three passes or
more. -/
theorem C6_leading_zeros_rescanned (k : Nat) :
    AddNumber "007".toList initial
        = Outcome.ok ("07".toList, initial.push_back (Token.Number 7)) ∧
      tokens (3 + k) "007".toList
        = Outcome.ok [Token.Number 7, Token.Number 7, Token.Number 7, Token.Newline,
            Token.Eof] :=
  ⟨by decide, tokens_mono (by decide) (by decide) k⟩

/-- C9 (the code on an unterminated literal): on the line `print 'abc` the
loop of `AddString` reads `line[pos_end_string]` past the end of the view, so
construction ends in undefined behaviour with every budget of three passes or
more, and with no budget at all does it throw a `LexerError`. -/
theorem C9_unterminated_string_not_reported :
    (∀ k, construct (3 + k) "print 'abc".toList = Outcome.undefined) ∧
      (∀ fuel w, construct fuel "print 'abc".toList ≠ Outcome.lexerError w) ∧
      AddString "'abc".toList (initial.push_back Token.Print) = Outcome.undefined := by
  refine ⟨fun k => construct_mono (by decide) (by decide) k, ?_, by decide⟩
  intro fuel
  rw [construct_eq_bind]
  exact noThrow_bind (noThrow_readLines fuel _ initial (by decide)) (fun _ => noThrow_pure _)

/-- C10 (the code on a tab): `isprint` does not hold of a tab, so a pass of
the scanning loop on a view that begins with a tab calls nothing and changes
nothing, and the loop never ends: on the line `x`, tab, `y` construction
produces no result with any budget.  `AddSymvol`, which would push
`Char '\t'` and drop the one character, is not reached. -/
theorem C10_tab_stops_the_scan :
    isprint '\t' = false ∧
      (∀ (rest : List Char) (self : Lexer),
        loopBody ('\t' :: rest) self = Outcome.ok ('\t' :: rest, self)) ∧
      (∀ (fuel : Nat) (rest : List Char) (self : Lexer),
        scanLoop fuel ('\t' :: rest) self = Outcome.outOfFuel) ∧
      (∀ fuel, construct fuel ['x', '\t', 'y'] = Outcome.outOfFuel) ∧
      AddSymvol ['\t', 'y'] initial
        = Outcome.ok (['y'], initial.push_back (Token.Char '\t')) := by
  refine ⟨by decide, fun _ _ => rfl, scanLoop_tab, ?_, by decide⟩
  intro fuel
  cases fuel with
  | zero => decide
  | succ k =>
    have hb : loopBody ['x', '\t', 'y'] initial
        = Outcome.ok (['\t', 'y'], initial.push_back (Token.Id ['x'])) := by decide
    have ha : AddIndent ['x', '\t', 'y'] initial = Outcome.ok (['x', '\t', 'y'], initial) := by
      decide
    rw [@construct_one_line (k + 1) ['x', '\t', 'y'] ['x', '\t', 'y'] (by decide) (by decide)]
    unfold AddTokensFromString
    rw [ha]
    simp only [ok_bind]
    rw [scanLoop_step k (by decide) hb, scanLoop_tab]
    rfl

end parse

/-! ## Lemmas on handles -/

namespace runtime

namespace Value

theorem TryAsNumber_number (x : Int) : (Value.number x).TryAsNumber = some x := rfl

theorem TryAsNumber_bool (x : Bool) : (Value.bool x).TryAsNumber = none := rfl

theorem TryAsNumber_cls (c : runtime.Class) : (Value.cls c).TryAsNumber = none := rfl

theorem TryAsBool_None : Value.None.TryAsBool = none := rfl

theorem TryAsBool_number (x : Int) : (Value.number x).TryAsBool = none := rfl

theorem TryAsBool_bool (x : Bool) : (Value.bool x).TryAsBool = some x := rfl

theorem TryAsBool_string (x : String) : (Value.string x).TryAsBool = none := rfl

theorem TryAsBool_cls (c : runtime.Class) : (Value.cls c).TryAsBool = none := rfl

theorem TryAsBool_inst (i : Nat) (c : runtime.Class) : (Value.inst i c).TryAsBool = none := rfl

theorem TryAsString_number (x : Int) : (Value.number x).TryAsString = none := rfl

theorem TryAsString_bool (x : Bool) : (Value.bool x).TryAsString = none := rfl

theorem TryAsString_string (x : String) : (Value.string x).TryAsString = some x := rfl

theorem TryAsString_cls (c : runtime.Class) : (Value.cls c).TryAsString = none := rfl

theorem TryAsClass_None : Value.None.TryAsClass = none := rfl

theorem TryAsClass_number (x : Int) : (Value.number x).TryAsClass = none := rfl

theorem TryAsClass_bool (x : Bool) : (Value.bool x).TryAsClass = none := rfl

theorem TryAsClass_string (x : String) : (Value.string x).TryAsClass = none := rfl

theorem TryAsClass_cls (c : runtime.Class) : (Value.cls c).TryAsClass = some c := rfl

theorem TryAsClass_inst (i : Nat) (c : runtime.Class) : (Value.inst i c).TryAsClass = none := rfl

theorem TryAsClassInstance_number (x : Int) : (Value.number x).TryAsClassInstance = none := rfl

theorem TryAsClassInstance_bool (x : Bool) : (Value.bool x).TryAsClassInstance = none := rfl

theorem TryAsClassInstance_string (x : String) : (Value.string x).TryAsClassInstance = none := rfl

theorem TryAsClassInstance_cls (c : runtime.Class) : (Value.cls c).TryAsClassInstance = none := rfl

theorem TryAsClassInstance_inst (i : Nat) (c : runtime.Class) : (Value.inst i c).TryAsClassInstance = some (i, c) := rfl

end Value

end runtime

/-! ## Lemmas on computations -/

namespace runtime

namespace M

theorem pure_apply {σ α : Type} (a : α) (s : σ) : (pure a : M σ α) s = Res.ok a s := rfl

theorem bind_apply {σ α β : Type} (m : M σ α) (f : α → M σ β) (s : σ) :
    (m >>= f) s = M.bind m f s := rfl

theorem bind_of_ok {σ α β : Type} {m : M σ α} {f : α → M σ β} {s s1 : σ} {a : α}
    (h : m s = Res.ok a s1) : (m >>= f) s = f a s1 := by
  show M.bind m f s = _
  unfold M.bind
  rw [h]

theorem bind_of_threw {σ α β : Type} {m : M σ α} {f : α → M σ β} {s s1 : σ} {e : Thrown}
    (h : m s = Res.threw e s1) : (m >>= f) s = Res.threw e s1 := by
  show M.bind m f s = _
  unfold M.bind
  rw [h]

theorem bind_of_undefined {σ α β : Type} {m : M σ α} {f : α → M σ β} {s : σ}
    (h : m s = Res.undefined) : (m >>= f) s = Res.undefined := by
  show M.bind m f s = _
  unfold M.bind
  rw [h]

theorem bind_of_outOfFuel {σ α β : Type} {m : M σ α} {f : α → M σ β} {s : σ}
    (h : m s = Res.outOfFuel) : (m >>= f) s = Res.outOfFuel := by
  show M.bind m f s = _
  unfold M.bind
  rw [h]

theorem inContext_of_ok {α : Type} {m : M World α} {s : Closure × World} {a : α} {w : World}
    (h : m s.2 = Res.ok a w) : inContext m s = Res.ok a (s.1, w) := by
  unfold inContext
  rw [h]

end M

/-- `IsTrue` follows the truth table and never throws. -/
theorem IsTrue_eq {σ : Type} (object : Value) (s : σ) :
    IsTrue object s = Res.ok (truthTable object) s := by
  cases object <;> rfl

end runtime

/-! ## Comparisons -/

namespace runtime

open M

theorem Equal_number (exec : Exec) (x y : Int) (w : World) :
    Equal exec (Value.number x) (Value.number y) w = Res.ok (decide (x = y)) w := rfl

theorem Equal_string (exec : Exec) (x y : String) (w : World) :
    Equal exec (Value.string x) (Value.string y) w = Res.ok (decide (x = y)) w := rfl

theorem Equal_bool (exec : Exec) (x y : Bool) (w : World) :
    Equal exec (Value.bool x) (Value.bool y) w = Res.ok (decide (x = y)) w := rfl

theorem Equal_none (exec : Exec) (w : World) :
    Equal exec Value.None Value.None w = Res.ok true w := rfl

/-- `Equal` on an instance at the left that has `__eq__` with one parameter:
the call of `__eq__`, then `IsTrue`. -/
theorem Equal_inst (exec : Exec) (i : Nat) (c : runtime.Class) (rhs : Value) (w : World)
    (h : ClassInstance.HasMethod c "__eq__" 1 = true) :
    Equal exec (Value.inst i c) rhs w
      = (ClassInstance.Call exec (i, c) "__eq__" [rhs] >>= fun r => IsTrue r) w := by
  cases rhs <;> simp [Equal, Value.toBool, Value.TryAsNumber, Value.TryAsString,
    Value.TryAsBool, Value.TryAsClassInstance, h]

theorem Equal_symm (exec : Exec) (a b : Value) (w : World)
    (ha : a.TryAsClassInstance = none) (hb : b.TryAsClassInstance = none) :
    Equal exec a b w = Equal exec b a w := by
  cases a <;> cases b <;>
    first
      | rfl
      | (simp only [Equal_number, Equal_string, Equal_bool]; congr 1; simp only [eq_comm])
      | (simp [Value.TryAsClassInstance] at ha; done)
      | (simp [Value.TryAsClassInstance] at hb)

theorem Equal_throws (exec : Exec) (lhs rhs : Value) (w : World)
    (h1 : samePlainKind lhs rhs = false) (h2 : hasEqMethod lhs = false) :
    Equal exec lhs rhs w
      = Res.threw (Thrown.runtime_error "Cannot compare objects for equality") w := by
  cases lhs <;> cases rhs <;>
    first
      | rfl
      | (simp [samePlainKind, Value.toBool, Value.TryAsNumber, Value.TryAsString,
          Value.TryAsBool] at h1; done)
      | (simp only [hasEqMethod, Value.TryAsClassInstance] at h2
         simp [Equal, Value.toBool, Value.TryAsNumber, Value.TryAsString, Value.TryAsBool,
           Value.TryAsClassInstance, h2]
         rfl)

end runtime

/-! ## The order of Numbers and Strings -/

namespace runtime

open M

theorem Less_number (exec : Exec) (x y : Int) (w : World) :
    Less exec (Value.number x) (Value.number y) w = Res.ok (decide (x < y)) w := rfl

theorem Less_string (exec : Exec) (x y : String) (w : World) :
    Less exec (Value.string x) (Value.string y) w
      = Res.ok (string_less x.toList y.toList) w := rfl

/-- `Greater` when `Less` and `Equal` return without a change of the world. -/
theorem Greater_of {exec : Exec} {a b : Value} {w : World} {l e : Bool}
    (h1 : Less exec a b w = Res.ok l w) (h2 : Equal exec a b w = Res.ok e w) :
    Greater exec a b w = Res.ok (!l && !e) w := by
  unfold Greater
  rw [bind_of_ok h1]
  cases l
  · simp only [Bool.not_false, if_true, Bool.true_and]
    unfold NotEqual
    rw [bind_of_ok h2]
    rfl
  · rfl

theorem char_eq_of_toNat {a b : Char} (h1 : ¬ a.toNat < b.toNat) (h2 : ¬ b.toNat < a.toNat) :
    a = b := by
  have h : a.toNat = b.toNat := by omega
  rw [← Char.ofNat_toNat a, ← Char.ofNat_toNat b, h]

/-- The order of strings: `b < a` exactly when neither `a < b` nor `a = b`. -/
theorem string_less_swap : ∀ a b : List Char,
    string_less b a = true ↔ (string_less a b = false ∧ a ≠ b) := by
  intro a
  induction a with
  | nil =>
    intro b
    cases b <;> simp [string_less]
  | cons x xs ih =>
    intro b
    cases b with
    | nil => simp [string_less]
    | cons y ys =>
      by_cases h1 : x.toNat < y.toNat
      · have h2 : ¬ y.toNat < x.toNat := by omega
        simp [string_less, h1, h2]
      · by_cases h2 : y.toNat < x.toNat
        · have hne : x ≠ y := by
            intro h
            subst h
            omega
          simp [string_less, h1, h2, hne]
        · have hxy := char_eq_of_toNat h1 h2
          subst hxy
          simp [string_less, h1, ih ys]

end runtime

/-! ## Method resolution -/

namespace runtime

namespace Class

theorem findOwn_eq_none_iff (ms : List Method) (name : String) :
    findOwn ms name = none ↔ ∀ m ∈ ms, m.name ≠ name := by
  unfold findOwn
  rw [List.find?_eq_none]
  simp only [List.mem_reverse, beq_iff_eq]

theorem findOwn_some {ms : List Method} {name : String} {m : Method}
    (h : findOwn ms name = some m) : m ∈ ms ∧ m.name = name := by
  unfold findOwn at h
  have h1 := List.find?_some h
  have h2 := List.mem_of_find?_eq_some h
  exact ⟨List.mem_reverse.mp h2, by simpa using h1⟩

theorem GetMethod_mk (name_ : String) (ms : List Method) (parent_ : Option Class)
    (name : String) :
    GetMethod (Class.mk name_ ms parent_) name =
      if (findOwn ms name).isNone then
        match parent_ with
        | none => none
        | some p => GetMethod p name
      else findOwn ms name := by
  cases parent_ <;> rfl

theorem chain_mk (name_ : String) (ms : List Method) (parent_ : Option Class) :
    chain (Class.mk name_ ms parent_)
      = Class.mk name_ ms parent_ ::
          match parent_ with
          | none => []
          | some p => chain p := by
  conv => lhs; unfold chain

theorem not_defines_iff (c : Class) (name : String) :
    ¬ c.defines name ↔ findOwn c.store_methods_ name = none := by
  rw [findOwn_eq_none_iff]
  unfold defines
  constructor
  · intro h m hm hn
    exact h ⟨m, hm, hn⟩
  · rintro h ⟨m, hm, hn⟩
    exact h m hm hn

/-- `GetMethod` finds nothing exactly when no class of the chain defines the
name. -/
theorem GetMethod_eq_none_iff : ∀ (c : Class) (name : String),
    c.GetMethod name = none ↔ ∀ k ∈ c.chain, ¬ k.defines name
  | Class.mk name_ ms none, name => by
    rw [GetMethod_mk, chain_mk]
    simp only [List.mem_singleton, forall_eq, not_defines_iff]
    show _ ↔ findOwn ms name = none
    cases findOwn ms name <;> simp
  | Class.mk name_ ms (some p), name => by
    have ih := GetMethod_eq_none_iff p name
    rw [GetMethod_mk, chain_mk]
    simp only [List.mem_cons, forall_eq_or_imp]
    rw [← ih, not_defines_iff]
    show _ ↔ findOwn ms name = none ∧ _
    cases findOwn ms name <;> simp

/-- `GetMethod` returns the method of the first class of the chain that
defines the name. -/
theorem GetMethod_nearest : ∀ (c : Class) (name : String) (pre : List Class) (k : Class)
    (post : List Class), c.chain = pre ++ k :: post → (∀ k1 ∈ pre, ¬ k1.defines name) →
    k.defines name → c.GetMethod name = findOwn k.store_methods_ name
  | Class.mk name_ ms parent_, name, [], k, post, hc, _, hk => by
    rw [chain_mk] at hc
    simp only [List.nil_append, List.cons.injEq] at hc
    rw [← hc.1] at hk ⊢
    have hk1 : ¬ findOwn ms name = none := fun h =>
      ((not_defines_iff (Class.mk name_ ms parent_) name).mpr h) hk
    rw [GetMethod_mk]
    show _ = findOwn ms name
    cases h : findOwn ms name with
    | none => exact absurd h hk1
    | some m => rfl
  | Class.mk name_ ms none, name, k0 :: pre, k, post, hc, _, _ => by
    rw [chain_mk] at hc
    simp at hc
  | Class.mk name_ ms (some p), name, k0 :: pre, k, post, hc, hpre, hk => by
    rw [chain_mk] at hc
    simp only [List.cons_append, List.cons.injEq] at hc
    have h0 : ¬ (Class.mk name_ ms (some p)).defines name := by
      rw [hc.1]
      exact hpre k0 (List.mem_cons_self _ _)
    have h1 : findOwn ms name = none :=
      (not_defines_iff (Class.mk name_ ms (some p)) name).mp h0
    rw [GetMethod_mk, h1]
    exact GetMethod_nearest p name pre k post hc.2
      (fun k1 hk1 => hpre k1 (List.mem_cons_of_mem _ hk1)) hk

end Class

theorem HasMethod_iff (c : Class) (name : String) (n : Nat) :
    ClassInstance.HasMethod c name n = true ↔
      ∃ m, c.GetMethod name = some m ∧ m.formal_params.length = n := by
  unfold ClassInstance.HasMethod
  cases h : c.GetMethod name with
  | none => simp
  | some m => simp

end runtime

/-! ## The call of a method -/

namespace runtime

open M

namespace Closure

theorem emplace_keeps {closure : Closure} {k : String} {v : Value}
    (h : List.lookup k closure = some v) (k1 : String) (v1 : Value) :
    List.lookup k (closure.emplace k1 v1) = some v := by
  unfold emplace
  cases List.lookup k1 closure with
  | some _ => exact h
  | none => simp [List.lookup_append, h]

theorem emplace_new {closure : Closure} {k : String} (h : List.lookup k closure = none)
    (v : Value) : List.lookup k (closure.emplace k v) = some v := by
  unfold emplace
  rw [h]
  simp [List.lookup_append, h]

theorem emplace_other {closure : Closure} {k k1 : String} (h : List.lookup k closure = none)
    (hne : k ≠ k1) (v1 : Value) : List.lookup k (closure.emplace k1 v1) = none := by
  unfold emplace
  cases List.lookup k1 closure with
  | some _ => exact h
  | none =>
    have : (k == k1) = false := by simpa using hne
    simp [List.lookup_append, h, List.lookup_cons, this]

theorem mem_emplace {closure : Closure} {k1 : String} {v1 : Value} {p : String × Value}
    (h : p ∈ closure.emplace k1 v1) : p ∈ closure ∨ p = (k1, v1) := by
  unfold emplace at h
  cases hl : List.lookup k1 closure with
  | some _ => rw [hl] at h; exact Or.inl h
  | none =>
    rw [hl] at h
    simpa using h

/-- The closure after a sequence of calls of `emplace`. -/
theorem fold_keeps (ps : List (String × Value)) : ∀ (closure : Closure) (k : String) (v : Value),
    List.lookup k closure = some v →
    List.lookup k (ps.foldl (fun args p => Closure.emplace args p.1 p.2) closure) = some v := by
  induction ps with
  | nil => intro closure k v h; exact h
  | cons p ps ih =>
    intro closure k v h
    exact ih _ k v (emplace_keeps h p.1 p.2)

theorem mem_fold (ps : List (String × Value)) : ∀ (closure : Closure) (q : String × Value),
    q ∈ ps.foldl (fun args p => Closure.emplace args p.1 p.2) closure → q ∈ closure ∨ q ∈ ps := by
  induction ps with
  | nil => intro closure q h; exact Or.inl h
  | cons p ps ih =>
    intro closure q h
    rcases ih _ q h with h1 | h1
    · rcases mem_emplace h1 with h2 | h2
      · exact Or.inl h2
      · exact Or.inr (by rw [h2]; exact List.mem_cons_self _ _)
    · exact Or.inr (List.mem_cons_of_mem _ h1)

theorem fold_new (ps : List (String × Value)) : ∀ (closure : Closure) (k : String) (v : Value),
    (ps.map Prod.fst).Nodup → (k, v) ∈ ps → List.lookup k closure = none →
    List.lookup k (ps.foldl (fun args p => Closure.emplace args p.1 p.2) closure) = some v := by
  induction ps with
  | nil => intro closure k v _ h _; cases h
  | cons p ps ih =>
    intro closure k v hnd hm hl
    simp only [List.map_cons, List.nodup_cons] at hnd
    rcases List.mem_cons.mp hm with h1 | h1
    · subst h1
      exact fold_keeps ps _ k v (emplace_new hl v)
    · have hne : k ≠ p.1 := by
        intro h
        apply hnd.1
        rw [← h]
        exact List.mem_map.mpr ⟨(k, v), h1, rfl⟩
      exact ih _ k v hnd.2 h1 (emplace_other hl hne p.2)

end Closure

namespace ClassInstance

theorem bindArgs_self (self : Value) (formal_params : List String) (actual_args : List Value) :
    Closure.at_ (bindArgs self formal_params actual_args) "self" = some self := by
  unfold bindArgs Closure.at_
  exact Closure.fold_keeps _ _ "self" self (by rfl)

theorem bindArgs_keys (self : Value) (formal_params : List String) (actual_args : List Value)
    (k : String) (v : Value) (h : (k, v) ∈ bindArgs self formal_params actual_args) :
    (k = "self" ∧ v = self) ∨ k ∈ formal_params := by
  unfold bindArgs at h
  rcases Closure.mem_fold _ _ _ h with h1 | h1
  · left
    have : (k, v) = ("self", self) := by simpa [Closure.emplace] using h1
    exact ⟨congrArg Prod.fst this, congrArg Prod.snd this⟩
  · exact Or.inr (List.of_mem_zip h1).1

theorem bindArgs_param (self : Value) (formal_params : List String) (actual_args : List Value)
    (hlen : formal_params.length = actual_args.length)
    (hnd : formal_params.Nodup) (hself : "self" ∉ formal_params)
    (j : Nat) (p : String) (a : Value) (hp : formal_params[j]? = some p)
    (ha : actual_args[j]? = some a) :
    Closure.at_ (bindArgs self formal_params actual_args) p = some a := by
  unfold bindArgs Closure.at_
  have hmem : (p, a) ∈ List.zip formal_params actual_args :=
    List.getElem?_mem (List.getElem?_zip_eq_some.mpr ⟨hp, ha⟩)
  have hnd1 : ((List.zip formal_params actual_args).map Prod.fst).Nodup := by
    rw [List.map_fst_zip _ _ (Nat.le_of_eq hlen)]
    exact hnd
  have hne : p ≠ "self" := fun h => hself (h ▸ List.getElem?_mem hp)
  apply Closure.fold_new _ _ p a hnd1 hmem
  have : (p == "self") = false := by simpa using hne
  simp [Closure.emplace, List.lookup_cons, this]

/-- The closure after a sequence of calls of `emplace`: an entry that is there
stays, and a new name gets the value of its first pair. -/
theorem lookup_fold_emplace (ps : List (String × Value)) :
    ∀ (closure : Closure) (k : String),
      List.lookup k (ps.foldl (fun args p => Closure.emplace args p.1 p.2) closure)
        = match List.lookup k closure with
          | some v => some v
          | none => List.lookup k ps := by
  induction ps with
  | nil =>
    intro closure k
    rw [List.foldl_nil]
    cases h : List.lookup k closure <;> rfl
  | cons p ps ih =>
    intro closure k
    obtain ⟨q, x⟩ := p
    rw [List.foldl_cons, ih]
    cases h : List.lookup k closure with
    | some v => simp only [Closure.emplace_keeps h q x]
    | none =>
      by_cases hk : k = q
      · subst hk
        simp [Closure.emplace_new h x, List.lookup_cons]
      · have hb : (k == q) = false := by simpa using hk
        simp [Closure.emplace_other h hk x, List.lookup_cons, hb]

/-- The pair found for a name in `zip formal_params actual_args` is that of
the first position of the name. -/
theorem lookup_zip_first : ∀ (formal_params : List String) (actual_args : List Value)
    (j : Nat) (p : String) (a : Value), formal_params[j]? = some p → actual_args[j]? = some a →
    (∀ i, i < j → formal_params[i]? ≠ some p) →
    List.lookup p (List.zip formal_params actual_args) = some a
  | [], _, j, p, a, hp, _, _ => by simp at hp
  | _ :: _, [], j, p, a, _, ha, _ => by simp at ha
  | q :: qs, b :: bs, 0, p, a, hp, ha, _ => by
    simp only [List.getElem?_cons_zero, Option.some.injEq] at hp ha
    subst hp
    subst ha
    simp [List.lookup_cons]
  | q :: qs, b :: bs, j + 1, p, a, hp, ha, hfirst => by
    have hq : q ≠ p := by
      intro e
      exact hfirst 0 (Nat.succ_pos j) (by simp [e])
    have hb : (p == q) = false := by simpa using fun e : p = q => hq e.symm
    simp only [List.getElem?_cons_succ] at hp ha
    simp only [List.zip_cons_cons, List.lookup_cons, hb]
    exact lookup_zip_first qs bs j p a hp ha
      (fun i hi => by simpa using hfirst (i + 1) (Nat.succ_lt_succ hi))

/-- The scope of a call binds a formal parameter that is not called `self`
to the argument at the first position of its name. -/
theorem bindArgs_first (self : Value) (formal_params : List String) (actual_args : List Value)
    (j : Nat) (p : String) (a : Value) (hp : formal_params[j]? = some p)
    (ha : actual_args[j]? = some a) (hself : p ≠ "self")
    (hfirst : ∀ i, i < j → formal_params[i]? ≠ some p) :
    Closure.at_ (bindArgs self formal_params actual_args) p = some a := by
  unfold bindArgs Closure.at_
  rw [lookup_fold_emplace]
  have hb : (p == "self") = false := by simpa using hself
  have h0 : List.lookup p (Closure.emplace [] "self" self) = none := by
    simp [Closure.emplace, List.lookup_cons, hb]
  rw [h0]
  exact lookup_zip_first formal_params actual_args j p a hp ha hfirst

theorem Call_of_not_has (exec : Exec) (self : Nat × runtime.Class) (name_method : String)
    (actual_args : List Value) (w : World)
    (h : HasMethod self.2 name_method actual_args.length = false) :
    Call exec self name_method actual_args w
      = Res.threw (Thrown.runtime_error "Not implemented") w := by
  unfold Call
  simp only [h, Bool.not_false, if_true]
  rfl

theorem Call_of_has (exec : Exec) (self : Nat × runtime.Class) (name_method : String)
    (actual_args : List Value) (w : World) (method : Method)
    (hm : self.2.GetMethod name_method = some method)
    (hn : method.formal_params.length = actual_args.length) :
    Call exec self name_method actual_args w
      = withClosure (bindArgs (Value.inst self.1 self.2) method.formal_params actual_args)
          (exec method.body) w := by
  have h : HasMethod self.2 name_method actual_args.length = true :=
    (HasMethod_iff _ _ _).mpr ⟨method, hm, hn⟩
  unfold Call
  simp only [h, Bool.not_true, Bool.false_eq_true, if_false, hm]

end ClassInstance

end runtime

/-! ## The claims on the runtime -/

namespace runtime

open M

/-- C11: `IsTrue` never fails on a handle, and its result is false for the
empty handle, `value != 0` for a `Number`, the value for a `Bool`, whether the
text is not empty for a `String`, and false for every `Class` and every
`ClassInstance`. -/
theorem C11_isTrue_total (σ : Type) (s : σ) :
    (∀ object : Value, IsTrue object s = Res.ok (truthTable object) s) ∧
      IsTrue Value.None s = Res.ok false s ∧
      (∀ v : Int, IsTrue (Value.number v) s = Res.ok (decide (v ≠ 0)) s) ∧
      (∀ b : Bool, IsTrue (Value.bool b) s = Res.ok b s) ∧
      (∀ t : String, IsTrue (Value.string t) s = Res.ok (decide (t ≠ "")) s) ∧
      (∀ c : runtime.Class, IsTrue (Value.cls c) s = Res.ok false s) ∧
      (∀ (i : Nat) (c : runtime.Class), IsTrue (Value.inst i c) s = Res.ok false s) :=
  ⟨fun object => IsTrue_eq object s, rfl, fun _ => rfl, fun _ => rfl, fun _ => rfl,
    fun _ => rfl, fun _ _ => rfl⟩

/-- C12 as stated fails: `Equal` of a `Class` handle with itself throws, and
with an instance whose `__eq__` returns `True` at the left and a `Number` at
the right it returns true, while with the two exchanged it throws. -/
theorem C12_equal_fails_beyond_plain_handles :
    Equal (ast.Execute 4) (Value.cls sampleClassA) (Value.cls sampleClassA) World.empty
        = Res.threw (Thrown.runtime_error "Cannot compare objects for equality") World.empty ∧
      Equal (ast.Execute 4) (Value.inst 1 sampleClassEq) (Value.number 1) World.empty
        = Res.ok true World.empty ∧
      Equal (ast.Execute 4) (Value.number 1) (Value.inst 1 sampleClassEq) World.empty
        = Res.threw (Thrown.runtime_error "Cannot compare objects for equality") World.empty :=
  ⟨rfl, rfl, rfl⟩

/-- C12, amended: `Equal(a, a)` returns true for every handle `a` that is
empty or holds a `Number`, a `String` or a `Bool`; `Equal(a, b)` and
`Equal(b, a)` have the same outcome for all handles of which none holds a
`ClassInstance`; and on three Numbers, three Strings or three Bools `Equal`
is transitive. -/
theorem C12_equal_on_plain_handles (exec : Exec) (w : World) :
    (∀ a : Value, a.isPlain = true → Equal exec a a w = Res.ok true w) ∧
      (∀ a b : Value, a.TryAsClassInstance = none → b.TryAsClassInstance = none →
        Equal exec a b w = Equal exec b a w) ∧
      (∀ x y z : Int, Equal exec (Value.number x) (Value.number y) w = Res.ok true w →
        Equal exec (Value.number y) (Value.number z) w = Res.ok true w →
        Equal exec (Value.number x) (Value.number z) w = Res.ok true w) ∧
      (∀ x y z : String, Equal exec (Value.string x) (Value.string y) w = Res.ok true w →
        Equal exec (Value.string y) (Value.string z) w = Res.ok true w →
        Equal exec (Value.string x) (Value.string z) w = Res.ok true w) ∧
      (∀ x y z : Bool, Equal exec (Value.bool x) (Value.bool y) w = Res.ok true w →
        Equal exec (Value.bool y) (Value.bool z) w = Res.ok true w →
        Equal exec (Value.bool x) (Value.bool z) w = Res.ok true w) := by
  refine ⟨?_, fun a b ha hb => Equal_symm exec a b w ha hb, ?_, ?_, ?_⟩
  · intro a ha
    cases a with
    | None => rfl
    | number v => simp [Equal_number]
    | bool v => simp [Equal_bool]
    | string v => simp [Equal_string]
    | cls c => cases ha
    | inst i c => cases ha
  · intro x y z h1 h2
    simp only [Equal_number, Res.ok.injEq, decide_eq_true_eq, and_true] at h1 h2 ⊢
    exact h1.trans h2
  · intro x y z h1 h2
    simp only [Equal_string, Res.ok.injEq, decide_eq_true_eq, and_true] at h1 h2 ⊢
    exact h1.trans h2
  · intro x y z h1 h2
    simp only [Equal_bool, Res.ok.injEq, decide_eq_true_eq, and_true] at h1 h2 ⊢
    exact h1.trans h2

/-- Witness of C12, amended, on the Numbers 3, 3, 3 and the handles `"a"`
and 3. -/
theorem C12_equal_on_plain_handles_witness :
    (Value.number 3).isPlain = true ∧
      Equal (ast.Execute 4) (Value.number 3) (Value.number 3) World.empty
        = Res.ok true World.empty ∧
      (Value.string "a").TryAsClassInstance = none ∧
      (Value.number 3).TryAsClassInstance = none ∧
      Equal (ast.Execute 4) (Value.string "a") (Value.number 3) World.empty
        = Equal (ast.Execute 4) (Value.number 3) (Value.string "a") World.empty :=
  ⟨rfl, (C12_equal_on_plain_handles (ast.Execute 4) World.empty).1 (Value.number 3) rfl,
    rfl, rfl,
    (C12_equal_on_plain_handles (ast.Execute 4) World.empty).2.1 (Value.string "a")
      (Value.number 3) rfl rfl⟩

/-- C13 as stated fails: with an instance at the left whose `__eq__` has one
parameter and divides by zero, the fifth case holds and `Equal` raises a
runtime error all the same. -/
theorem C13_equal_raises_inside_eq :
    hasEqMethod (Value.inst 1 sampleClassEqDiv) = true ∧
      Equal (ast.Execute 4) (Value.inst 1 sampleClassEqDiv) (Value.number 1) World.empty
        = Res.threw (Thrown.runtime_error "You can't divide by zero") World.empty :=
  ⟨rfl, rfl⟩

/-- C13, amended: when none of the five cases holds `Equal` raises a runtime
error; when both handles are empty, both Numbers, both Strings or both Bools
it returns a result and raises nothing; when `lhs` is a `ClassInstance` that
has `__eq__` with one parameter, `Equal` calls `__eq__` with `rhs`, returns
the truth of the result when the call returns, and raises what the call
raises.  With an empty handle and a `Number`, a `Number` and a `String`, a
`Number` and a `Bool` it raises. -/
theorem C13_equal_raises (exec : Exec) (lhs rhs : Value) (w : World) :
    (samePlainKind lhs rhs = false → hasEqMethod lhs = false →
        Equal exec lhs rhs w
          = Res.threw (Thrown.runtime_error "Cannot compare objects for equality") w) ∧
      (samePlainKind lhs rhs = true → ∃ b, Equal exec lhs rhs w = Res.ok b w) ∧
      (∀ (i : Nat) (c : runtime.Class), lhs = Value.inst i c →
        ClassInstance.HasMethod c "__eq__" 1 = true →
        (∀ r w1, ClassInstance.Call exec (i, c) "__eq__" [rhs] w = Res.ok r w1 →
          Equal exec lhs rhs w = Res.ok (truthTable r) w1) ∧
        (∀ e w1, ClassInstance.Call exec (i, c) "__eq__" [rhs] w = Res.threw e w1 →
          Equal exec lhs rhs w = Res.threw e w1)) ∧
      (∀ v : Int, Equal exec Value.None (Value.number v) w
        = Res.threw (Thrown.runtime_error "Cannot compare objects for equality") w) ∧
      (∀ (v : Int) (t : String), Equal exec (Value.number v) (Value.string t) w
        = Res.threw (Thrown.runtime_error "Cannot compare objects for equality") w) ∧
      (∀ (v : Int) (b : Bool), Equal exec (Value.number v) (Value.bool b) w
        = Res.threw (Thrown.runtime_error "Cannot compare objects for equality") w) := by
  refine ⟨Equal_throws exec lhs rhs w, ?_, ?_, fun _ => rfl, fun _ _ => rfl, fun _ _ => rfl⟩
  · intro h
    cases lhs <;> cases rhs <;>
      first
        | exact ⟨_, rfl⟩
        | (simp [samePlainKind, Value.toBool, Value.TryAsNumber, Value.TryAsString,
            Value.TryAsBool] at h)
  · intro i c hl hm
    subst hl
    rw [Equal_inst exec i c rhs w hm]
    constructor
    · intro r w1 hc
      rw [bind_of_ok hc, IsTrue_eq]
    · intro e w1 hc
      rw [bind_of_threw hc]

/-- Witness of C13, amended: an empty handle against a `Number`, two Numbers,
and an instance whose `__eq__` returns `True`. -/
theorem C13_equal_raises_witness :
    samePlainKind Value.None (Value.number 1) = false ∧
      hasEqMethod Value.None = false ∧
      Equal (ast.Execute 4) Value.None (Value.number 1) World.empty
        = Res.threw (Thrown.runtime_error "Cannot compare objects for equality") World.empty ∧
      samePlainKind (Value.number 1) (Value.number 2) = true ∧
      (∃ b, Equal (ast.Execute 4) (Value.number 1) (Value.number 2) World.empty
        = Res.ok b World.empty) ∧
      ClassInstance.HasMethod sampleClassEq "__eq__" 1 = true ∧
      ClassInstance.Call (ast.Execute 4) (1, sampleClassEq) "__eq__" [Value.number 1] World.empty
        = Res.ok (Value.bool true) World.empty ∧
      Equal (ast.Execute 4) (Value.inst 1 sampleClassEq) (Value.number 1) World.empty
        = Res.ok (truthTable (Value.bool true)) World.empty :=
  ⟨rfl, rfl,
    (C13_equal_raises (ast.Execute 4) Value.None (Value.number 1) World.empty).1 rfl rfl,
    rfl,
    (C13_equal_raises (ast.Execute 4) (Value.number 1) (Value.number 2) World.empty).2.1 rfl,
    rfl, rfl,
    ((C13_equal_raises (ast.Execute 4) (Value.inst 1 sampleClassEq) (Value.number 1)
      World.empty).2.2.1 1 sampleClassEq rfl rfl).1 (Value.bool true) World.empty rfl⟩

/-- C14: for two Numbers and for two Strings, `Greater(a, b)` returns true
exactly when `Less(b, a)` returns true; `Greater` is the conjunction of the
negations of `Less(a, b)` and `Equal(a, b)`. -/
theorem C14_greater_iff_less_swapped (exec : Exec) (w : World) (a b : Value)
    (h : (∃ x y : Int, a = Value.number x ∧ b = Value.number y) ∨
      (∃ x y : String, a = Value.string x ∧ b = Value.string y)) :
    (Greater exec a b w = Res.ok true w ↔ Less exec b a w = Res.ok true w) ∧
      ∃ l e, Less exec a b w = Res.ok l w ∧ Equal exec a b w = Res.ok e w ∧
        Greater exec a b w = Res.ok (!l && !e) w := by
  rcases h with ⟨x, y, rfl, rfl⟩ | ⟨x, y, rfl, rfl⟩
  · have hg := Greater_of (Less_number exec x y w) (Equal_number exec x y w)
    refine ⟨?_, _, _, Less_number exec x y w, Equal_number exec x y w, hg⟩
    rw [hg, Less_number]
    simp only [Res.ok.injEq, and_true, Bool.and_eq_true, Bool.not_eq_true',
      decide_eq_false_iff_not, decide_eq_true_eq]
    omega
  · have hg := Greater_of (Less_string exec x y w) (Equal_string exec x y w)
    refine ⟨?_, _, _, Less_string exec x y w, Equal_string exec x y w, hg⟩
    rw [hg, Less_string]
    simp only [Res.ok.injEq, and_true, Bool.and_eq_true, Bool.not_eq_true',
      decide_eq_false_iff_not]
    rw [string_less_swap x.toList y.toList]
    constructor
    · rintro ⟨h1, h2⟩
      exact ⟨h1, fun h => h2 (String.ext h)⟩
    · rintro ⟨h1, h2⟩
      exact ⟨h1, fun h => h2 (by rw [h])⟩

/-- Witness of C14 on the Strings `b` and `a`. -/
theorem C14_greater_iff_less_swapped_witness :
    ((∃ x y : Int, Value.string "b" = Value.number x ∧ Value.string "a" = Value.number y) ∨
      (∃ x y : String, Value.string "b" = Value.string x ∧ Value.string "a" = Value.string y)) ∧
      Greater (ast.Execute 4) (Value.string "b") (Value.string "a") World.empty
        = Res.ok true World.empty ∧
      Less (ast.Execute 4) (Value.string "a") (Value.string "b") World.empty
        = Res.ok true World.empty ∧
      ((Greater (ast.Execute 4) (Value.string "b") (Value.string "a") World.empty
          = Res.ok true World.empty ↔
          Less (ast.Execute 4) (Value.string "a") (Value.string "b") World.empty
            = Res.ok true World.empty) ∧
        ∃ l e, Less (ast.Execute 4) (Value.string "b") (Value.string "a") World.empty
            = Res.ok l World.empty ∧
          Equal (ast.Execute 4) (Value.string "b") (Value.string "a") World.empty
            = Res.ok e World.empty ∧
          Greater (ast.Execute 4) (Value.string "b") (Value.string "a") World.empty
            = Res.ok (!l && !e) World.empty) :=
  ⟨Or.inr ⟨"b", "a", rfl, rfl⟩, rfl, rfl,
    C14_greater_iff_less_swapped (ast.Execute 4) World.empty (Value.string "b")
      (Value.string "a") (Or.inr ⟨"b", "a", rfl, rfl⟩)⟩

/-- C15: `GetMethod(name)` returns the null pointer exactly when no class of
the parent chain (the class, its parent, its grandparent, ...) defines a
method called `name`; otherwise it returns a method called `name` of the
first class of the chain that defines one, whatever the later classes
define; and `HasMethod(name, n)` holds exactly when that method has `n`
formal parameters. -/
theorem C15_method_resolution (c : runtime.Class) (name : String) :
    (c.GetMethod name = none ↔ ∀ k ∈ c.chain, ¬ k.defines name) ∧
      (∀ (pre : List runtime.Class) (k : runtime.Class) (post : List runtime.Class),
        c.chain = pre ++ k :: post → (∀ k1 ∈ pre, ¬ k1.defines name) → k.defines name →
        c.GetMethod name = Class.findOwn k.store_methods_ name ∧
          ∃ m, c.GetMethod name = some m ∧ m ∈ k.store_methods_ ∧ m.name = name) ∧
      (∀ n : Nat, ClassInstance.HasMethod c name n = true ↔
        ∃ m, c.GetMethod name = some m ∧ m.formal_params.length = n) := by
  refine ⟨Class.GetMethod_eq_none_iff c name, ?_, HasMethod_iff c name⟩
  intro pre k post hc hpre hk
  have h := Class.GetMethod_nearest c name pre k post hc hpre hk
  refine ⟨h, ?_⟩
  cases hf : Class.findOwn k.store_methods_ name with
  | none => exact absurd hk ((Class.not_defines_iff k name).mpr hf)
  | some m =>
    rw [h, hf]
    exact ⟨m, rfl, (Class.findOwn_some hf).1, (Class.findOwn_some hf).2⟩

/-- Witness of C15: `sampleClassDerived` defines `f` with one parameter and
its parent `sampleClassBase` defines `f` without parameters; the method of
the derived class is found, and `HasMethod` goes by it. -/
theorem C15_method_resolution_witness :
    sampleClassDerived.chain = [] ++ sampleClassDerived :: [sampleClassBase] ∧
      sampleClassDerived.defines "f" ∧
      (sampleClassDerived.GetMethod "f"
          = Class.findOwn sampleClassDerived.store_methods_ "f" ∧
        ∃ m, sampleClassDerived.GetMethod "f" = some m ∧
          m ∈ sampleClassDerived.store_methods_ ∧ m.name = "f") ∧
      sampleClassDerived.GetMethod "f"
        = some (Method.mk "f" ["x"] (Statement.MethodBody (Statement.Return
            (Statement.VariableValue ["x"])))) ∧
      ClassInstance.HasMethod sampleClassDerived "f" 1 = true ∧
      ClassInstance.HasMethod sampleClassDerived "f" 0 = false ∧
      ClassInstance.HasMethod sampleClassBase "f" 0 = true :=
  ⟨rfl, ⟨_, List.Mem.head _, rfl⟩,
    (C15_method_resolution sampleClassDerived "f").2.1 [] sampleClassDerived [sampleClassBase]
      rfl (fun _ h => nomatch h) ⟨_, List.Mem.head _, rfl⟩,
    rfl, rfl, rfl, rfl⟩

/-- C16 as stated fails: the method `f` of `sampleClassRepeated` has two
formal parameters, both called `a`; called with the arguments 1 and 2, the
scope holds `self` and one binding of `a`, to the first argument, so
`formal_params[1]` is not bound to `args[1]`, and the body, which returns `a`,
returns 1. -/
theorem C16_repeated_parameter_keeps_first :
    ClassInstance.HasMethod sampleClassRepeated "f" 2 = true ∧
      ClassInstance.bindArgs (Value.inst 1 sampleClassRepeated) ["a", "a"]
          [Value.number 1, Value.number 2]
        = [("self", Value.inst 1 sampleClassRepeated), ("a", Value.number 1)] ∧
      Closure.at_ (ClassInstance.bindArgs (Value.inst 1 sampleClassRepeated) ["a", "a"]
          [Value.number 1, Value.number 2]) "a" ≠ some (Value.number 2) ∧
      ClassInstance.Call (ast.Execute 4) (1, sampleClassRepeated) "f"
          [Value.number 1, Value.number 2] World.empty
        = Res.ok (Value.number 1) World.empty := by
  refine ⟨rfl, rfl, ?_, rfl⟩
  intro h
  have h1 : some (Value.number 1) = some (Value.number 2) := h
  injection h1 with h2
  injection h2 with h3
  exact absurd h3 (by decide)

/-- C16, amended: `Call(name, args)` raises the runtime error
"Not implemented", whatever the method bodies do, exactly when the class chain
has no method called `name` or the nearest one has a number of formal
parameters other than the number of arguments.  Otherwise its outcome is that
of the body of that method, run in a new scope that binds `self` to the
instance, binds no name besides `self` and the formal parameters, and binds
`formal_params[j]` to `args[j]` for each `j` whose name is not `self` and
stands at no earlier position of `formal_params` (a name that is bound keeps
its first binding); so, when the formal parameters are pairwise distinct and
none is `self`, it binds `formal_params[j]` to `args[j]` for each `j`. -/
theorem C16_call (exec : Exec) (i : Nat) (c : runtime.Class) (name : String)
    (args : List Value) (w : World) :
    (ClassInstance.HasMethod c name args.length = false ↔
        c.GetMethod name = none ∨
          ∃ m, c.GetMethod name = some m ∧ m.formal_params.length ≠ args.length) ∧
      (ClassInstance.HasMethod c name args.length = false ↔
        ∀ exec1 : Exec, ClassInstance.Call exec1 (i, c) name args w
          = Res.threw (Thrown.runtime_error "Not implemented") w) ∧
      (∀ m : Method, c.GetMethod name = some m → m.formal_params.length = args.length →
        ClassInstance.Call exec (i, c) name args w
            = withClosure (ClassInstance.bindArgs (Value.inst i c) m.formal_params args)
                (exec m.body) w ∧
          (∀ v closure w1,
            exec m.body (ClassInstance.bindArgs (Value.inst i c) m.formal_params args, w)
              = Res.ok v (closure, w1) →
            ClassInstance.Call exec (i, c) name args w = Res.ok v w1) ∧
          Closure.at_ (ClassInstance.bindArgs (Value.inst i c) m.formal_params args) "self"
            = some (Value.inst i c) ∧
          (∀ k v, (k, v) ∈ ClassInstance.bindArgs (Value.inst i c) m.formal_params args →
            (k = "self" ∧ v = Value.inst i c) ∨ k ∈ m.formal_params) ∧
          (m.formal_params.Nodup → "self" ∉ m.formal_params →
            ∀ (j : Nat) (p : String) (a : Value), m.formal_params[j]? = some p →
              args[j]? = some a →
              Closure.at_ (ClassInstance.bindArgs (Value.inst i c) m.formal_params args) p
                = some a) ∧
          (∀ (j : Nat) (p : String) (a : Value), m.formal_params[j]? = some p →
            args[j]? = some a → p ≠ "self" →
            (∀ k, k < j → m.formal_params[k]? ≠ some p) →
            Closure.at_ (ClassInstance.bindArgs (Value.inst i c) m.formal_params args) p
              = some a)) := by
  refine ⟨?_, ?_, ?_⟩
  · cases hg : c.GetMethod name with
    | none => simp [ClassInstance.HasMethod, hg]
    | some m => simp [ClassInstance.HasMethod, hg]
  · constructor
    · intro h exec1
      exact ClassInstance.Call_of_not_has exec1 (i, c) name args w h
    · intro h
      cases hh : ClassInstance.HasMethod c name args.length with
      | false => rfl
      | true =>
        exfalso
        obtain ⟨m, hm, hn⟩ := (HasMethod_iff c name args.length).mp hh
        have h1 := h execNothing
        rw [ClassInstance.Call_of_has execNothing (i, c) name args w m hm hn] at h1
        cases h1
  · intro m hm hn
    have hcall := ClassInstance.Call_of_has exec (i, c) name args w m hm hn
    refine ⟨hcall, ?_, ClassInstance.bindArgs_self _ _ _, ClassInstance.bindArgs_keys _ _ _,
      fun hnd hself => ClassInstance.bindArgs_param _ _ _ hn hnd hself,
      fun j p a hp ha hs hf => ClassInstance.bindArgs_first _ _ _ j p a hp ha hs hf⟩
    intro v closure w1 hb
    rw [hcall]
    unfold withClosure
    rw [hb]

/-- Witness of C16, amended: the method `f` of `sampleClassDerived`, with the
one parameter `x`, called with the argument 7; the method `f` of
`sampleClassRepeated`, whose parameter `a` gets the first of its two
arguments; and the method `f` of `sampleClassSelfParam`, whose parameter
`self` stays the instance. -/
theorem C16_call_witness :
    sampleClassDerived.GetMethod "f"
        = some (Method.mk "f" ["x"] (Statement.MethodBody (Statement.Return
            (Statement.VariableValue ["x"])))) ∧
      ClassInstance.Call (ast.Execute 4) (1, sampleClassDerived) "f" [Value.number 7]
          World.empty
        = Res.ok (Value.number 7) World.empty ∧
      Closure.at_ (ClassInstance.bindArgs (Value.inst 1 sampleClassDerived) ["x"]
          [Value.number 7]) "x" = some (Value.number 7) ∧
      ClassInstance.HasMethod sampleClassDerived "f" 0 = false ∧
      ClassInstance.Call (ast.Execute 4) (1, sampleClassDerived) "f" [] World.empty
        = Res.threw (Thrown.runtime_error "Not implemented") World.empty ∧
      Closure.at_ (ClassInstance.bindArgs (Value.inst 1 sampleClassRepeated) ["a", "a"]
          [Value.number 1, Value.number 2]) "a" = some (Value.number 1) ∧
      ClassInstance.Call (ast.Execute 4) (1, sampleClassSelfParam) "f" [Value.number 5]
          World.empty
        = Res.ok (Value.inst 1 sampleClassSelfParam) World.empty :=
  ⟨rfl,
    ((C16_call (ast.Execute 4) 1 sampleClassDerived "f" [Value.number 7] World.empty).2.2
      (Method.mk "f" ["x"] (Statement.MethodBody (Statement.Return
        (Statement.VariableValue ["x"])))) rfl rfl).2.1 (Value.number 7)
      [("self", Value.inst 1 sampleClassDerived), ("x", Value.number 7)] World.empty rfl,
    ((C16_call (ast.Execute 4) 1 sampleClassDerived "f" [Value.number 7] World.empty).2.2
      (Method.mk "f" ["x"] (Statement.MethodBody (Statement.Return
        (Statement.VariableValue ["x"])))) rfl rfl).2.2.2.2.1
      (List.nodup_singleton _) (by decide) 0 "x" (Value.number 7) rfl rfl,
    rfl,
    (C16_call (ast.Execute 4) 1 sampleClassDerived "f" [] World.empty).2.1.mp rfl
      (ast.Execute 4),
    ((C16_call (ast.Execute 4) 1 sampleClassRepeated "f" [Value.number 1, Value.number 2]
      World.empty).2.2
      (Method.mk "f" ["a", "a"] (Statement.MethodBody (Statement.Return
        (Statement.VariableValue ["a"])))) rfl rfl).2.2.2.2.2
      0 "a" (Value.number 1) rfl rfl (by decide) (fun k hk => absurd hk (Nat.not_lt_zero k)),
    rfl⟩

end runtime

/-! ## Arithmetic -/

namespace ast

open runtime runtime.M

theorem bothAre_of_first_not {exec : Exec} {is : Value → Bool} {lhs_ rhs_ : Statement}
    {s t : St} {a : Value} (hl : exec lhs_ s = Res.ok a t) (ha : is a = false) :
    bothAre exec is lhs_ rhs_ s = Res.ok false t := by
  unfold bothAre
  rw [bind_of_ok hl]
  simp only [ha, Bool.false_eq_true, if_false]
  rfl

theorem bothAre_of_first {exec : Exec} {is : Value → Bool} {lhs_ rhs_ : Statement}
    {s t u : St} {a b : Value} (hl : exec lhs_ s = Res.ok a t) (ha : is a = true)
    (hr : exec rhs_ t = Res.ok b u) :
    bothAre exec is lhs_ rhs_ s = Res.ok (is b) u := by
  unfold bothAre
  rw [bind_of_ok hl]
  simp only [ha, if_true]
  rw [bind_of_ok hr]
  rfl

theorem bothAre_evaluatesTo {exec : Exec} (is : Value → Bool) {lhs_ rhs_ : Statement}
    {a b : Value} {P : St → Prop} (hl : EvaluatesTo exec lhs_ a P)
    (hr : EvaluatesTo exec rhs_ b P) (ha : is a = true) (s : St) (hs : P s) :
    ∃ t, P t ∧ bothAre exec is lhs_ rhs_ s = Res.ok (is b) t := by
  obtain ⟨t1, ht1, e1⟩ := hl s hs
  obtain ⟨t2, ht2, e2⟩ := hr t1 ht1
  exact ⟨t2, ht2, bothAre_of_first e1 ha e2⟩

theorem ownNumber_of_representable {σ : Type} {v : Int} (h : representable v) (s : σ) :
    ownNumber v s = Res.ok (Value.number v) s := by
  unfold ownNumber
  rw [if_pos h]
  rfl

namespace Div

/-- `Div` on operands that evaluate to the Numbers `x` and `y`, `y` being 0. -/
theorem Execute_zero {exec : Exec} {lhs_ rhs_ : Statement} {x : Int} {P : St → Prop}
    (hl : EvaluatesTo exec lhs_ (Value.number x) P)
    (hr : EvaluatesTo exec rhs_ (Value.number 0) P) (s : St) (hs : P s) :
    ∃ t, P t ∧ Execute exec lhs_ rhs_ s
      = Res.threw (Thrown.runtime_error "You can't divide by zero") t := by
  obtain ⟨t2, ht2, e2⟩ := bothAre_evaluatesTo (fun v => v.TryAsNumber.isSome) hl hr rfl s hs
  obtain ⟨t3, ht3, e3⟩ := hr t2 ht2
  refine ⟨t3, ht3, ?_⟩
  unfold Execute
  rw [bind_of_ok e2]
  simp only [Value.TryAsNumber, Option.isSome_some, if_true]
  rw [bind_of_ok e3]
  rfl

/-- `Div` on operands that evaluate to the Numbers `x` and `y`, `y` not
being 0. -/
theorem Execute_quotient {exec : Exec} {lhs_ rhs_ : Statement} {x y : Int} {P : St → Prop}
    (hl : EvaluatesTo exec lhs_ (Value.number x) P)
    (hr : EvaluatesTo exec rhs_ (Value.number y) P) (hy : y ≠ 0)
    (hq : representable (Int.tdiv x y)) (s : St) (hs : P s) :
    ∃ t, P t ∧ Execute exec lhs_ rhs_ s = Res.ok (Value.number (Int.tdiv x y)) t := by
  obtain ⟨t2, ht2, e2⟩ := bothAre_evaluatesTo (fun v => v.TryAsNumber.isSome) hl hr rfl s hs
  obtain ⟨t3, ht3, e3⟩ := hr t2 ht2
  obtain ⟨t4, ht4, e4⟩ := hl t3 ht3
  obtain ⟨t5, ht5, e5⟩ := hr t4 ht4
  refine ⟨t5, ht5, ?_⟩
  unfold Execute
  rw [bind_of_ok e2]
  simp only [Value.TryAsNumber, Option.isSome_some, if_true]
  rw [bind_of_ok e3]
  simp only [hy, if_false]
  rw [bind_of_ok e4, bind_of_ok e5]
  simp only [Value.TryAsNumber, hy, if_false]
  exact ownNumber_of_representable hq t5

theorem Execute_not_numbers {exec : Exec} {lhs_ rhs_ : Statement} {s t : St}
    (h : bothAre exec (fun v => v.TryAsNumber.isSome) lhs_ rhs_ s = Res.ok false t) :
    Execute exec lhs_ rhs_ s
      = Res.threw (Thrown.runtime_error "Arguments is not a number") t := by
  unfold Execute
  rw [bind_of_ok h]
  rfl

end Div

end ast

/-! ## Addition -/

namespace ast

open runtime runtime.M

namespace Add

end Add

end ast

/-! ## Control flow and the operators `or` and `and` -/

namespace ast

open runtime runtime.M

namespace Compound

theorem loop_append (exec : Exec) (pre rest : List Statement) : ∀ (s t : St),
    loop exec pre s = Res.ok () t → loop exec (pre ++ rest) s = loop exec rest t := by
  induction pre with
  | nil =>
    intro s t h
    have : s = t := by
      have h1 : (Res.ok () s : Res St Unit) = Res.ok () t := h
      injection h1
    rw [this]
    rfl
  | cons p pre ih =>
    intro s t h
    unfold loop at h
    rw [List.cons_append]
    conv => lhs; unfold loop
    cases hp : exec p s with
    | ok v s1 =>
      rw [bind_of_ok hp] at h ⊢
      exact ih s1 t h
    | threw e s1 => rw [bind_of_threw hp] at h; cases h
    | undefined => rw [bind_of_undefined hp] at h; cases h
    | outOfFuel => rw [bind_of_outOfFuel hp] at h; cases h

theorem loop_threw (exec : Exec) (stmt : Statement) (post : List Statement) {t u : St}
    {e : Thrown} (h : exec stmt t = Res.threw e u) :
    loop exec (stmt :: post) t = Res.threw e u := by
  unfold loop
  rw [bind_of_threw h]

/-- A statement of a `Compound` that throws ends the `Compound` with what it
throws, whatever the statements after it are. -/
theorem Execute_threw (exec : Exec) (pre : List Statement) (stmt : Statement)
    (post : List Statement) {s t u : St} {e : Thrown}
    (hpre : loop exec pre s = Res.ok () t) (h : exec stmt t = Res.threw e u) :
    Execute exec (pre ++ stmt :: post) s = Res.threw e u := by
  unfold Execute
  have h1 : loop exec (pre ++ stmt :: post) s = Res.threw e u := by
    rw [loop_append exec pre _ s t hpre]
    exact loop_threw exec stmt post h
  rw [bind_of_threw h1]

end Compound

namespace IfElse

theorem Execute_of_condition (exec : Exec) (condition_ if_body_ : Statement)
    (else_body_ : Option Statement) {s t : St} {c : Value}
    (hc : exec condition_ s = Res.ok c t) :
    Execute exec condition_ if_body_ else_body_ s =
      if truthTable c then exec if_body_ t
      else
        match else_body_ with
        | some e => exec e t
        | none => Res.ok Value.None t := by
  unfold Execute
  rw [bind_of_ok hc, bind_of_ok (IsTrue_eq c t)]
  cases truthTable c
  · cases else_body_ <;> rfl
  · rfl

end IfElse

namespace Or

theorem Execute_or_of_true (exec : Exec) (lhs_ rhs_ : Statement) {s t : St} {l : Value}
    (hl : exec lhs_ s = Res.ok l t) (ht : truthTable l = true) :
    Execute exec lhs_ rhs_ s = Res.ok (Value.bool true) t := by
  unfold Execute
  rw [bind_of_ok hl, bind_of_ok (IsTrue_eq l t), ht]
  rfl

theorem Execute_or_of_false (exec : Exec) (lhs_ rhs_ : Statement) {s t u : St} {l r : Value}
    (hl : exec lhs_ s = Res.ok l t) (ht : truthTable l = false)
    (hr : exec rhs_ t = Res.ok r u) :
    Execute exec lhs_ rhs_ s = Res.ok (Value.bool (truthTable r)) u := by
  unfold Execute
  rw [bind_of_ok hl, bind_of_ok (IsTrue_eq l t), ht]
  simp only [Bool.false_eq_true, if_false]
  rw [bind_of_ok hr, bind_of_ok (IsTrue_eq r u)]
  cases truthTable r <;> rfl

end Or

namespace And

theorem Execute_and_of_false (exec : Exec) (lhs_ rhs_ : Statement) {s t : St} {l : Value}
    (hl : exec lhs_ s = Res.ok l t) (ht : truthTable l = false) :
    Execute exec lhs_ rhs_ s = Res.ok (Value.bool false) t := by
  unfold Execute
  rw [bind_of_ok hl, bind_of_ok (IsTrue_eq l t), ht]
  rfl

theorem Execute_and_of_true (exec : Exec) (lhs_ rhs_ : Statement) {s t u : St} {l r : Value}
    (hl : exec lhs_ s = Res.ok l t) (ht : truthTable l = true)
    (hr : exec rhs_ t = Res.ok r u) :
    Execute exec lhs_ rhs_ s = Res.ok (Value.bool (truthTable r)) u := by
  unfold Execute
  rw [bind_of_ok hl, bind_of_ok (IsTrue_eq l t), ht]
  simp only [Bool.not_true, Bool.false_eq_true, if_false]
  rw [bind_of_ok hr, bind_of_ok (IsTrue_eq r u)]
  cases truthTable r <;> rfl

end And

end ast

/-! ## The claims on the evaluator -/

namespace ast

open runtime runtime.M

/-- C17: when the operands evaluate to the Numbers `x` and `y`, `Div` raises
the runtime error "You can't divide by zero" if `y` is 0, whatever `x` is, and
if `y` is not 0 and the quotient is representable it returns the Number
`x / y` rounded toward zero (`-7 / 2` and `7 / -2` are `-3`); when the left
operand, or the right one after a Number at the left, evaluates to something
that is not a Number, `Div` raises the runtime error "Arguments is not a
number". -/
theorem C17_div (exec : Exec) (lhs_ rhs_ : Statement) (s : St) :
    (∀ (x : Int) (P : St → Prop), P s → EvaluatesTo exec lhs_ (Value.number x) P →
        EvaluatesTo exec rhs_ (Value.number 0) P →
        ∃ t, P t ∧ Div.Execute exec lhs_ rhs_ s
          = Res.threw (Thrown.runtime_error "You can't divide by zero") t) ∧
      (∀ (x y : Int) (P : St → Prop), P s → EvaluatesTo exec lhs_ (Value.number x) P →
        EvaluatesTo exec rhs_ (Value.number y) P → y ≠ 0 → representable (Int.tdiv x y) →
        ∃ t, P t ∧ Div.Execute exec lhs_ rhs_ s = Res.ok (Value.number (Int.tdiv x y)) t) ∧
      (∀ (a : Value) (t : St), exec lhs_ s = Res.ok a t → a.TryAsNumber = none →
        Div.Execute exec lhs_ rhs_ s
          = Res.threw (Thrown.runtime_error "Arguments is not a number") t) ∧
      (∀ (x : Int) (t : St) (b : Value) (u : St), exec lhs_ s = Res.ok (Value.number x) t →
        exec rhs_ t = Res.ok b u → b.TryAsNumber = none →
        Div.Execute exec lhs_ rhs_ s
          = Res.threw (Thrown.runtime_error "Arguments is not a number") u) ∧
      Int.tdiv (-7) 2 = -3 ∧ Int.tdiv 7 (-2) = -3 ∧
      dispatch exec (Statement.Div lhs_ rhs_) = Div.Execute exec lhs_ rhs_ := by
  refine ⟨?_, ?_, ?_, ?_, by decide, by decide, rfl⟩
  · intro x P hs hl hr
    exact Div.Execute_zero hl hr s hs
  · intro x y P hs hl hr hy hq
    exact Div.Execute_quotient hl hr hy hq s hs
  · intro a t hl ha
    exact Div.Execute_not_numbers (bothAre_of_first_not hl (by simp [ha]))
  · intro x t b u hl hr hb
    have h := @bothAre_of_first exec (fun v => v.TryAsNumber.isSome) lhs_ rhs_ s t u _ b hl rfl hr
    simp only [hb, Option.isSome_none] at h
    exact Div.Execute_not_numbers h

/-- Witness of C17 on the constants `-7` and `2`, and on `0` and `0`. -/
theorem C17_div_witness :
    Execute 2 (Statement.Div (Statement.NumericConst (-7)) (Statement.NumericConst 2)) St.initial
        = Res.ok (Value.number (-3)) St.initial ∧
      Execute 2 (Statement.Div (Statement.NumericConst 0) (Statement.NumericConst 0)) St.initial
        = Res.threw (Thrown.runtime_error "You can't divide by zero") St.initial ∧
      EvaluatesTo (Execute 1) (Statement.NumericConst (-7)) (Value.number (-7))
        (fun t => t = St.initial) ∧
      EvaluatesTo (Execute 1) (Statement.NumericConst 2) (Value.number 2)
        (fun t => t = St.initial) ∧
      (2 : Int) ≠ 0 ∧ representable (Int.tdiv (-7) 2) ∧
      (∃ t, t = St.initial ∧
        Div.Execute (Execute 1) (Statement.NumericConst (-7)) (Statement.NumericConst 2)
            St.initial
          = Res.ok (Value.number (Int.tdiv (-7) 2)) t) :=
  ⟨rfl, rfl, fun t ht => ⟨t, ht, rfl⟩, fun t ht => ⟨t, ht, rfl⟩, by decide, by decide,
    (C17_div (Execute 1) (Statement.NumericConst (-7)) (Statement.NumericConst 2)
      St.initial).2.1 (-7) 2 (fun t => t = St.initial) rfl (fun t ht => ⟨t, ht, rfl⟩)
      (fun t ht => ⟨t, ht, rfl⟩) (by decide) (by decide)⟩

/-- C19: when `lhs_` evaluates to `l`: `Or` returns `Bool true` without
executing `rhs_` if `l` is true, and otherwise the `Bool` of the truth of
what `rhs_` evaluates to; `And` returns `Bool false` without executing `rhs_`
if `l` is false, and otherwise the `Bool` of the truth of what `rhs_`
evaluates to.  The result is the `Bool` of `IsTrue(l) or IsTrue(r)`, of
`IsTrue(l) and IsTrue(r)`, never an operand. -/
theorem C19_or_and (exec : Exec) (lhs_ rhs_ : Statement) (s t : St) (l : Value)
    (hl : exec lhs_ s = Res.ok l t) :
    (truthTable l = true → Or.Execute exec lhs_ rhs_ s = Res.ok (Value.bool true) t) ∧
      (truthTable l = true → ∀ (other : Statement) (exec1 : Exec), exec1 lhs_ = exec lhs_ →
        Or.Execute exec1 lhs_ other s = Res.ok (Value.bool true) t) ∧
      (truthTable l = false → ∀ (r : Value) (u : St), exec rhs_ t = Res.ok r u →
        Or.Execute exec lhs_ rhs_ s = Res.ok (Value.bool (truthTable l || truthTable r)) u) ∧
      (truthTable l = false → And.Execute exec lhs_ rhs_ s = Res.ok (Value.bool false) t) ∧
      (truthTable l = false → ∀ (other : Statement) (exec1 : Exec), exec1 lhs_ = exec lhs_ →
        And.Execute exec1 lhs_ other s = Res.ok (Value.bool false) t) ∧
      (truthTable l = true → ∀ (r : Value) (u : St), exec rhs_ t = Res.ok r u →
        And.Execute exec lhs_ rhs_ s = Res.ok (Value.bool (truthTable l && truthTable r)) u) ∧
      dispatch exec (Statement.Or lhs_ rhs_) = Or.Execute exec lhs_ rhs_ ∧
      dispatch exec (Statement.And lhs_ rhs_) = And.Execute exec lhs_ rhs_ := by
  refine ⟨fun ht => Or.Execute_or_of_true exec lhs_ rhs_ hl ht, ?_, ?_,
    fun ht => And.Execute_and_of_false exec lhs_ rhs_ hl ht, ?_, ?_, rfl, rfl⟩
  · intro ht other exec1 he
    exact Or.Execute_or_of_true exec1 lhs_ other (by rw [he]; exact hl) ht
  · intro ht r u hr
    rw [ht, Bool.false_or]
    exact Or.Execute_or_of_false exec lhs_ rhs_ hl ht hr
  · intro ht other exec1 he
    exact And.Execute_and_of_false exec1 lhs_ other (by rw [he]; exact hl) ht
  · intro ht r u hr
    rw [ht, Bool.true_and]
    exact And.Execute_and_of_true exec lhs_ rhs_ hl ht hr

/-- Witness of C19: `Or` of the Number 5 and a division by zero is
`Bool true`, `And` of the Number 0 and a division by zero is `Bool false`. -/
theorem C19_or_and_witness :
    Execute 2 (Statement.NumericConst 5) St.initial = Res.ok (Value.number 5) St.initial ∧
      truthTable (Value.number 5) = true ∧
      Or.Execute (Execute 2) (Statement.NumericConst 5)
          (Statement.Div (Statement.NumericConst 1) (Statement.NumericConst 0)) St.initial
        = Res.ok (Value.bool true) St.initial ∧
      Execute 3 (Statement.Or (Statement.NumericConst 5)
          (Statement.Div (Statement.NumericConst 1) (Statement.NumericConst 0))) St.initial
        = Res.ok (Value.bool true) St.initial ∧
      Execute 3 (Statement.And (Statement.NumericConst 0)
          (Statement.Div (Statement.NumericConst 1) (Statement.NumericConst 0))) St.initial
        = Res.ok (Value.bool false) St.initial ∧
      Execute 3 (Statement.Or (Statement.NumericConst 0) (Statement.StringConst "a"))
          St.initial
        = Res.ok (Value.bool true) St.initial :=
  ⟨rfl, rfl,
    (C19_or_and (Execute 2) (Statement.NumericConst 5)
      (Statement.Div (Statement.NumericConst 1) (Statement.NumericConst 0)) St.initial
      St.initial (Value.number 5) rfl).1 rfl,
    rfl, rfl, rfl⟩

/-- A `Return` reached through `Compound` and `IfElse` nodes makes the
statement throw the handle returned. -/
theorem Execute_of_returnsFrom {n : Nat} {stmt : Statement} {s t : St} {v : Value}
    (h : ReturnsFrom n stmt s v t) : Execute n stmt s = Res.threw (Thrown.holder v) t := by
  induction h with
  | ret n statement_ s t v he =>
    show Return.Execute (Execute n) statement_ s = _
    unfold Return.Execute
    rw [bind_of_ok he]
  | compound n pre stmt post s t u v hpre _ ih =>
    exact Compound.Execute_threw (Execute n) pre stmt post hpre ih
  | ifBody n condition_ if_body_ else_body_ s t u c v hc ht _ ih =>
    show IfElse.Execute (Execute n) condition_ if_body_ else_body_ s = _
    rw [IfElse.Execute_of_condition (Execute n) condition_ if_body_ else_body_ hc, ht]
    exact ih
  | elseBody n condition_ if_body_ else_body s t u c v hc ht _ ih =>
    show IfElse.Execute (Execute n) condition_ if_body_ (some else_body) s = _
    rw [IfElse.Execute_of_condition (Execute n) condition_ if_body_ (some else_body) hc, ht]
    exact ih

/-- C20: `MethodBody` returns the handle thrown by a `Return` inside its body
and the empty handle when the body ends without a `Return`, whatever the body
produced; `Return` throws the handle its statement evaluates to; the handle
thrown passes through a `Compound`, whose later statements are not executed,
and through both branches of an `IfElse`; so `MethodBody` returns the handle
of a `Return` reached through any nesting of `Compound` and `IfElse` nodes. -/
theorem C20_method_body (exec : Exec) (s : St) :
    (∀ (body_ : Statement) (v : Value) (t : St),
        exec body_ s = Res.threw (Thrown.holder v) t →
        MethodBody.Execute exec body_ s = Res.ok v t) ∧
      (∀ (body_ : Statement) (v : Value) (t : St), exec body_ s = Res.ok v t →
        MethodBody.Execute exec body_ s = Res.ok Value.None t) ∧
      (∀ (statement_ : Statement) (v : Value) (t : St), exec statement_ s = Res.ok v t →
        Return.Execute exec statement_ s = Res.threw (Thrown.holder v) t) ∧
      (∀ (pre : List Statement) (stmt : Statement) (post : List Statement) (v : Value)
        (t u : St), Compound.loop exec pre s = Res.ok () t →
        exec stmt t = Res.threw (Thrown.holder v) u →
        Compound.Execute exec (pre ++ stmt :: post) s = Res.threw (Thrown.holder v) u) ∧
      (∀ (condition_ if_body_ : Statement) (else_body_ : Option Statement) (c v : Value)
        (t u : St), exec condition_ s = Res.ok c t → truthTable c = true →
        exec if_body_ t = Res.threw (Thrown.holder v) u →
        IfElse.Execute exec condition_ if_body_ else_body_ s
          = Res.threw (Thrown.holder v) u) ∧
      (∀ (condition_ if_body_ else_body : Statement) (c v : Value) (t u : St),
        exec condition_ s = Res.ok c t → truthTable c = false →
        exec else_body t = Res.threw (Thrown.holder v) u →
        IfElse.Execute exec condition_ if_body_ (some else_body) s
          = Res.threw (Thrown.holder v) u) ∧
      (∀ (n : Nat) (body_ : Statement) (v : Value) (t : St), ReturnsFrom n body_ s v t →
        Execute (n + 1) (Statement.MethodBody body_) s = Res.ok v t) ∧
      (∀ body_ : Statement,
        dispatch exec (Statement.MethodBody body_) = MethodBody.Execute exec body_) ∧
      (∀ statement_ : Statement,
        dispatch exec (Statement.Return statement_) = Return.Execute exec statement_) ∧
      (∀ manuals_ : List Statement,
        dispatch exec (Statement.Compound manuals_) = Compound.Execute exec manuals_) ∧
      (∀ (condition_ if_body_ : Statement) (else_body_ : Option Statement),
        dispatch exec (Statement.IfElse condition_ if_body_ else_body_)
          = IfElse.Execute exec condition_ if_body_ else_body_) := by
  refine ⟨?_, ?_, ?_, ?_, ?_, ?_, ?_, fun _ => rfl, fun _ => rfl, fun _ => rfl,
    fun _ _ _ => rfl⟩
  rotate_right 1
  · intro n body_ v t h
    show MethodBody.Execute (Execute n) body_ s = _
    unfold MethodBody.Execute
    rw [Execute_of_returnsFrom h]
  · intro body_ v t h
    unfold MethodBody.Execute
    rw [h]
  · intro body_ v t h
    unfold MethodBody.Execute
    rw [h]
  · intro statement_ v t h
    unfold Return.Execute
    rw [bind_of_ok h]
  · intro pre stmt post v t u hpre h
    exact Compound.Execute_threw exec pre stmt post hpre h
  · intro condition_ if_body_ else_body_ c v t u hc ht h
    rw [IfElse.Execute_of_condition exec condition_ if_body_ else_body_ hc, ht]
    exact h
  · intro condition_ if_body_ else_body c v t u hc ht h
    rw [IfElse.Execute_of_condition exec condition_ if_body_ (some else_body) hc, ht]
    exact h

/-- Witness of C20 on `sampleBody`: the `Return` of 7 lies in a `Compound` in
an `IfElse` in a `Compound`; `x` is assigned before it, `y` and `z` are not
assigned. -/
theorem C20_method_body_witness :
    ReturnsFrom 5 sampleBody St.initial (Value.number 7)
        ([("x", Value.number 1)], { output := "", fields := [] }) ∧
      Execute 5 sampleBody St.initial
        = Res.threw (Thrown.holder (Value.number 7))
            ([("x", Value.number 1)], { output := "", fields := [] }) ∧
      MethodBody.Execute (Execute 5) sampleBody St.initial
        = Res.ok (Value.number 7) ([("x", Value.number 1)], { output := "", fields := [] }) ∧
      Execute 6 (Statement.MethodBody sampleBody) St.initial
        = Res.ok (Value.number 7) ([("x", Value.number 1)], { output := "", fields := [] }) ∧
      Execute 3 (Statement.MethodBody (Statement.NumericConst 4)) St.initial
        = Res.ok Value.None St.initial :=
  ⟨ReturnsFrom.compound 4 [Statement.Assignment "x" (Statement.NumericConst 1)] _
      [Statement.Assignment "z" (Statement.NumericConst 3)] _ _ _ _ rfl
      (ReturnsFrom.ifBody 3 _ _ _ _ _ _ (Value.bool true) _ rfl rfl
        (ReturnsFrom.compound 2 [] _ [Statement.Assignment "y" (Statement.NumericConst 2)]
          _ _ _ _ rfl (ReturnsFrom.ret 1 _ _ _ _ rfl))),
    rfl,
    (C20_method_body (Execute 5) St.initial).1 sampleBody (Value.number 7)
      ([("x", Value.number 1)], { output := "", fields := [] }) rfl,
    rfl, rfl⟩

end ast

/-! ## Stringify and Print -/

namespace ast

open runtime runtime.M

theorem toString_eq_decimal (n : Int) : toString n = decimal n := by
  unfold decimal
  cases n with
  | ofNat m =>
    have h : ¬ (Int.ofNat m < 0) := by simp
    rw [if_neg h]
    rfl
  | negSucc m =>
    have h : Int.negSucc m < 0 := Int.negSucc_lt_zero m
    rw [if_pos h]
    rfl

namespace Stringify

/-- `Stringify::Execute` on an argument without side effects that is not an
instance of a class. -/
theorem Execute_stringify_pure {exec : Exec} {argument_ : Statement} {s : St} {x : Value}
    (hx : exec argument_ s = Res.ok x s) (hi : x.TryAsClassInstance = none) :
    Execute exec argument_ s =
      match x with
      | Value.cls _ => Res.threw (Thrown.runtime_error "There is no string representation") s
      | v => Res.ok (Value.string (rendering v)) s := by
  cases x with
  | inst i c => simp [Value.TryAsClassInstance] at hi
  | None => unfold Execute; rw [bind_of_ok hx]; rfl
  | number n =>
    unfold Execute number
    simp only [bind_of_ok hx, Value.toBool, Value.TryAsClassInstance_number,
      Value.TryAsString_number, Value.TryAsBool_number, Value.TryAsNumber_number,
      Option.isSome_some, Option.isSome_none, Bool.not_true, Bool.false_eq_true, if_false,
      if_true, rendering, ← toString_eq_decimal]
    rfl
  | bool b =>
    unfold Execute number
    cases b <;>
    simp only [bind_of_ok hx, Value.toBool, Value.TryAsClassInstance_bool,
      Value.TryAsString_bool, Value.TryAsBool_bool, Value.TryAsNumber_bool,
      Option.isSome_some, Option.isSome_none, Bool.not_true, Bool.false_eq_true, if_false,
      if_true, rendering] <;> rfl
  | string t =>
    unfold Execute
    simp only [bind_of_ok hx, Value.toBool, Value.TryAsClassInstance_string,
      Value.TryAsString_string, Option.isSome_some, Bool.not_true, Bool.false_eq_true, if_false,
      if_true, rendering]
    rfl
  | cls c =>
    unfold Execute number
    simp only [bind_of_ok hx, Value.toBool, Value.TryAsClassInstance_cls,
      Value.TryAsString_cls, Value.TryAsBool_cls, Value.TryAsNumber_cls,
      Option.isSome_some, Option.isSome_none, Bool.not_true, Bool.false_eq_true, if_false,
      if_true]
    rfl

end Stringify

end ast

namespace ast

open runtime runtime.M

/-- C21: for an argument that returns `x` and leaves the state unchanged,
`Stringify` returns the String `None` when `x` is the empty handle, the
decimal rendering of `n` (a `-` before the digits of a negative number) when
`x` is the Number `n`, `True` or `False` when `x` is a Bool, and a String
equal to `t` when `x` is the String `t`; it raises the runtime error "There is
no string representation" when `x` is a Class.  When `x` is none of a Class
and an instance, `Stringify` of the node `Stringify(x)` returns the same
String as `Stringify(x)`. -/
theorem C21_stringify (exec : Exec) (argument_ : Statement) (s : St) (x : Value)
    (hx : exec argument_ s = Res.ok x s) :
    (x = Value.None → Stringify.Execute exec argument_ s = Res.ok (Value.string "None") s) ∧
      (∀ n : Int, x = Value.number n →
        Stringify.Execute exec argument_ s = Res.ok (Value.string (decimal n)) s) ∧
      (∀ b : Bool, x = Value.bool b →
        Stringify.Execute exec argument_ s
          = Res.ok (Value.string (if b then "True" else "False")) s) ∧
      (∀ t : String, x = Value.string t →
        Stringify.Execute exec argument_ s = Res.ok (Value.string t) s) ∧
      (∀ c : runtime.Class, x = Value.cls c →
        Stringify.Execute exec argument_ s
          = Res.threw (Thrown.runtime_error "There is no string representation") s) ∧
      (x.isPlain = true →
        ∃ r : String, Stringify.Execute exec argument_ s = Res.ok (Value.string r) s ∧
          Stringify.Execute (dispatch exec) (Statement.Stringify argument_) s
            = Res.ok (Value.string r) s) := by
  refine ⟨?_, ?_, ?_, ?_, ?_, ?_⟩
  · intro h
    subst h
    exact Stringify.Execute_stringify_pure hx rfl
  · intro n h
    subst h
    exact Stringify.Execute_stringify_pure hx rfl
  · intro b h
    subst h
    exact Stringify.Execute_stringify_pure hx rfl
  · intro t h
    subst h
    exact Stringify.Execute_stringify_pure hx rfl
  · intro c h
    subst h
    exact Stringify.Execute_stringify_pure hx rfl
  · intro hp
    have hi : x.TryAsClassInstance = none := by
      cases x <;> first | rfl | simp [Value.isPlain] at hp
    have h1 : Stringify.Execute exec argument_ s = Res.ok (Value.string (rendering x)) s := by
      rw [Stringify.Execute_stringify_pure hx hi]
      cases x <;> first | rfl | simp [Value.isPlain] at hp
    have h2 : dispatch exec (Statement.Stringify argument_) s
        = Res.ok (Value.string (rendering x)) s := h1
    exact ⟨rendering x, h1, Stringify.Execute_stringify_pure h2 rfl⟩

/-- Witness of C21: `Stringify` of the constants `-42`, `0`, `True`, `None`
and `"ab"`, and of `Stringify` of `-42`. -/
theorem C21_stringify_witness :
    Execute 1 (Statement.NumericConst (-42)) St.initial
        = Res.ok (Value.number (-42)) St.initial ∧
      Stringify.Execute (Execute 1) (Statement.NumericConst (-42)) St.initial
        = Res.ok (Value.string "-42") St.initial ∧
      Execute 2 (Statement.Stringify (Statement.NumericConst 0)) St.initial
        = Res.ok (Value.string "0") St.initial ∧
      Execute 2 (Statement.Stringify (Statement.BoolConst true)) St.initial
        = Res.ok (Value.string "True") St.initial ∧
      Execute 2 (Statement.Stringify Statement.NoneConst) St.initial
        = Res.ok (Value.string "None") St.initial ∧
      Execute 2 (Statement.Stringify (Statement.StringConst "ab")) St.initial
        = Res.ok (Value.string "ab") St.initial ∧
      Execute 3 (Statement.Stringify (Statement.Stringify (Statement.NumericConst (-42))))
          St.initial
        = Res.ok (Value.string "-42") St.initial :=
  ⟨rfl,
    (C21_stringify (Execute 1) (Statement.NumericConst (-42)) St.initial (Value.number (-42))
      rfl).2.1 (-42) rfl,
    rfl, rfl, rfl, rfl, rfl⟩

end ast

namespace ast

open runtime runtime.M

namespace Print

/-- One pass of the loop of `Print::Execute` on an argument without side
effects that is empty or holds a `Number`, a `Bool` or a `String` that is no
name of the closure. -/
theorem argument_plain {exec : Exec} {arg : Statement} (last : Bool) {t : St} {v : Value}
    (hx : exec arg t = Res.ok v t) (hp : v.isPlain = true)
    (hfree : ∀ k : String, v = Value.string k → t.1.count k = 0) :
    argument exec arg last t
      = Res.ok () (t.withOutput
          (if last then t.2.output ++ rendering v else t.2.output ++ rendering v ++ " ")) := by
  have hc : getClosure t = Res.ok t.1 t := rfl
  cases v with
  | inst i c => simp [Value.isPlain] at hp
  | cls c => simp [Value.isPlain] at hp
  | None =>
    unfold argument
    rw [bind_of_ok hx]
    cases last <;> rfl
  | number n =>
    unfold argument
    rw [bind_of_ok hx]
    simp only [rendering, ← toString_eq_decimal]
    cases last <;> rfl
  | bool b =>
    unfold argument
    rw [bind_of_ok hx]
    cases last <;> cases b <;> rfl
  | string k =>
    unfold argument
    rw [bind_of_ok hx]
    simp only [Value.TryAsString_string, Option.isSome_some, if_true]
    rw [bind_of_ok hx]
    simp only [Value.TryAsString_string]
    rw [bind_of_ok hc]
    simp only [hfree k rfl, bne_self_eq_false, Bool.false_eq_true, if_false]
    rw [bind_of_ok hx]
    cases last <;> rfl

end Print

end ast

namespace ast

open runtime runtime.M

namespace Print

/-- The loop of `Print::Execute` on arguments without side effects that are
empty or hold a `Number`, a `Bool` or a `String` that is no name of the
closure. -/
theorem loop_plain {exec : Exec} {s : St} :
    ∀ (args_ : List Statement) (vals : List Value),
      List.Forall₂ (fun a v => SideEffectFree exec a v s) args_ vals →
      (∀ v ∈ vals, v.isPlain = true) →
      (∀ k : String, Value.string k ∈ vals → s.1.count k = 0) →
      ∀ out : String, loop exec args_ (s.withOutput out)
        = Res.ok () (s.withOutput (out ++ spaced (vals.map rendering)))
  | [], vals, h, _, _, out => by
    cases h
    show Res.ok () (s.withOutput out) = _
    simp only [List.map_nil, spaced, String.append_empty]
  | a :: rest, vals, h, hp, hf, out => by
    cases h with
    | cons hav hrest =>
      rename_i v vs
      have harg := fun last => @argument_plain exec a last (s.withOutput out) v (hav out)
        (hp v (List.mem_cons_self v vs))
        (fun k hk => hf k (hk ▸ List.mem_cons_self v vs))
      have ih := loop_plain rest vs hrest
        (fun x hx => hp x (List.mem_cons_of_mem v hx))
        (fun k hk => hf k (List.mem_cons_of_mem v hk))
      unfold loop
      rw [bind_of_ok (harg rest.isEmpty)]
      cases rest with
      | nil =>
        cases hrest
        simp only [List.isEmpty_nil, if_true, List.map_cons, List.map_nil, spaced]
        rfl
      | cons b rest1 =>
        cases hrest with
        | cons hbw hrest1 =>
          rename_i w ws
          simp only [List.isEmpty_cons, Bool.false_eq_true, if_false, List.map_cons, spaced]
          have e : (s.withOutput out).withOutput
              ((s.withOutput out).2.output ++ rendering v ++ " ")
              = s.withOutput (out ++ rendering v ++ " ") := rfl
          rw [e, ih (out ++ rendering v ++ " ")]
          simp only [List.map_cons, String.append_assoc]

end Print

/-- C22: for arguments that have no side effect and evaluate to handles that
are empty or hold a `Number`, a `Bool` or a `String`, no `String` being a
name of the closure, `Print` appends to the output stream the renderings of
the arguments in order (`None` for an empty handle), joined by single spaces
with no space before the first or after the last, and then one `\n` (the
`\n` alone when there is no argument); it returns the empty handle and leaves
the closure and the fields as they are. -/
theorem C22_print (exec : Exec) (args_ : List Statement) (vals : List Value) (s : St)
    (hargs : List.Forall₂ (fun a v => SideEffectFree exec a v s) args_ vals)
    (hplain : ∀ v ∈ vals, v.isPlain = true)
    (hfree : ∀ k : String, Value.string k ∈ vals → s.1.count k = 0) :
    Print.Execute exec args_ s
      = Res.ok Value.None
          (s.1, { output := s.2.output ++ spaced (vals.map rendering) ++ "\n",
                  fields := s.2.fields }) := by
  have h := Print.loop_plain args_ vals hargs hplain hfree s.2.output
  have e : s.withOutput s.2.output = s := rfl
  rw [e] at h
  unfold Print.Execute
  rw [bind_of_ok h]
  rfl

end ast

namespace ast

open runtime runtime.M

/-- Witness of C22: `print 1, "a", None, False` in a closure that binds `x`,
and `print` without arguments. -/
theorem C22_print_witness :
    Print.Execute (Execute 1)
        [Statement.NumericConst 1, Statement.StringConst "a", Statement.NoneConst,
          Statement.BoolConst false]
        ([("x", Value.number 5)], World.empty)
      = Res.ok Value.None
          ([("x", Value.number 5)], { output := "1 a None False\n", fields := [] }) ∧
      Execute 1 (Statement.Print []) St.initial
        = Res.ok Value.None ([], { output := "\n", fields := [] }) :=
  ⟨C22_print (Execute 1)
      [Statement.NumericConst 1, Statement.StringConst "a", Statement.NoneConst,
        Statement.BoolConst false]
      [Value.number 1, Value.string "a", Value.None, Value.bool false]
      ([("x", Value.number 5)], World.empty)
      (List.Forall₂.cons (fun _ => rfl) (List.Forall₂.cons (fun _ => rfl)
        (List.Forall₂.cons (fun _ => rfl) (List.Forall₂.cons (fun _ => rfl) List.Forall₂.nil))))
      (by
        intro v hv
        simp only [List.mem_cons, List.mem_singleton, List.not_mem_nil, or_false] at hv
        rcases hv with h | h | h | h <;> subst h <;> rfl)
      (by
        intro k hk
        simp only [List.mem_cons, List.mem_singleton, List.not_mem_nil, or_false] at hk
        rcases hk with h | h | h | h
        · cases h
        · cases h
          rfl
        · cases h
        · cases h),
    rfl⟩

end ast

/-! ## Variables and fields -/

namespace ast

open runtime runtime.M

namespace VariableValue

theorem fields_nil (v : Value) (s : St) : fields [] v s = Res.ok v s := rfl

/-- The step of the loop of `VariableValue::Execute` on a handle that holds
no instance. -/
theorem fields_of_not_instance (id : String) (rest : List String) {v : Value} (s : St)
    (hv : v.TryAsClassInstance = none) : fields (id :: rest) v s = Res.undefined := by
  unfold fields
  rw [hv]
  rfl

/-- The step of the loop of `VariableValue::Execute` on an instance, by its
field `id`. -/
theorem fields_of_instance (id : String) (rest : List String) (i : Nat) (c : runtime.Class)
    (s : St) :
    fields (id :: rest) (Value.inst i c) s
      = match (s.2.Fields i).at_ id with
        | none => Res.threw (Thrown.runtime_error "Not found") s
        | some v => fields rest v s := by
  conv => lhs; unfold fields
  simp only [Value.TryAsClassInstance_inst]
  have hw : inContext getWorld s = Res.ok s.2 s := rfl
  rw [bind_of_ok hw]
  cases (s.2.Fields i).at_ id <;> rfl

/-- The loop of `VariableValue::Execute` leaves the state as it is, and what
it throws is the runtime error "Not found". -/
theorem fields_state : ∀ (ids : List String) (v : Value) (s : St),
    (∃ r, fields ids v s = Res.ok r s)
      ∨ fields ids v s = Res.threw (Thrown.runtime_error "Not found") s
      ∨ fields ids v s = Res.undefined
  | [], v, s => Or.inl ⟨v, rfl⟩
  | id :: rest, v, s => by
    cases v with
    | inst i c =>
      rw [fields_of_instance]
      cases (s.2.Fields i).at_ id with
      | none => exact Or.inr (Or.inl rfl)
      | some v1 => exact fields_state rest v1 s
    | None => exact Or.inr (Or.inr (fields_of_not_instance id rest s rfl))
    | number n => exact Or.inr (Or.inr (fields_of_not_instance id rest s rfl))
    | bool b => exact Or.inr (Or.inr (fields_of_not_instance id rest s rfl))
    | string t => exact Or.inr (Or.inr (fields_of_not_instance id rest s rfl))
    | cls c => exact Or.inr (Or.inr (fields_of_not_instance id rest s rfl))

theorem Execute_of_unbound (id0 : String) (rest : List String) (s : St)
    (h : s.1.at_ id0 = none) :
    Execute (id0 :: rest) s = Res.threw (Thrown.runtime_error "Not found") s := by
  unfold Execute
  have hc : getClosure s = Res.ok s.1 s := rfl
  simp only [bind_of_ok hc, h]
  rfl

theorem Execute_of_bound (id0 : String) (rest : List String) (s : St) {v : Value}
    (h : s.1.at_ id0 = some v) : Execute (id0 :: rest) s = fields rest v s := by
  unfold Execute
  have hc : getClosure s = Res.ok s.1 s := rfl
  simp only [bind_of_ok hc, h]

end VariableValue

end ast

namespace ast

open runtime runtime.M

/-- C23: `VariableValue::Execute` on the chain `id0, id1, ...` raises the
runtime error "Not found" when `id0` is not a name of the closure and when the
handle reached is an instance without a field of the next name, and a result
it returns leaves the closure and the fields as they are; but when the handle
reached before a further name holds no instance (it is empty or holds a
`Number`, a `String`, a `Bool` or a `Class`) the null pointer of
`TryAs<ClassInstance>()` is dereferenced, which is undefined behaviour and no
runtime error. -/
theorem C23_field_of_non_instance_undefined :
    (∀ (id0 : String) (rest : List String) (s : St), s.1.at_ id0 = none →
        VariableValue.Execute (id0 :: rest) s
          = Res.threw (Thrown.runtime_error "Not found") s) ∧
      (∀ (id0 id1 : String) (rest : List String) (s : St) (v : Value),
        s.1.at_ id0 = some v → v.TryAsClassInstance = none →
        VariableValue.Execute (id0 :: id1 :: rest) s = Res.undefined) ∧
      (∀ (id : String) (rest : List String) (s : St) (v : Value),
        v.TryAsClassInstance = none → VariableValue.fields (id :: rest) v s = Res.undefined) ∧
      (∀ (id : String) (rest : List String) (s : St) (i : Nat) (c : runtime.Class),
        (s.2.Fields i).at_ id = none →
        VariableValue.fields (id :: rest) (Value.inst i c) s
          = Res.threw (Thrown.runtime_error "Not found") s) ∧
      (∀ (id : String) (rest : List String) (s : St) (i : Nat) (c : runtime.Class) (v : Value),
        (s.2.Fields i).at_ id = some v →
        VariableValue.fields (id :: rest) (Value.inst i c) s = VariableValue.fields rest v s) ∧
      (∀ (id0 : String) (rest : List String) (s : St),
        (∃ r, VariableValue.Execute (id0 :: rest) s = Res.ok r s)
          ∨ VariableValue.Execute (id0 :: rest) s
              = Res.threw (Thrown.runtime_error "Not found") s
          ∨ VariableValue.Execute (id0 :: rest) s = Res.undefined) := by
  refine ⟨VariableValue.Execute_of_unbound, ?_, ?_, ?_, ?_, ?_⟩
  · intro id0 id1 rest s v h0 hv
    rw [VariableValue.Execute_of_bound id0 _ s h0]
    exact VariableValue.fields_of_not_instance id1 rest s hv
  · intro id rest s v hv
    exact VariableValue.fields_of_not_instance id rest s hv
  · intro id rest s i c h
    rw [VariableValue.fields_of_instance, h]
  · intro id rest s i c v h
    rw [VariableValue.fields_of_instance, h]
  · intro id0 rest s
    cases h : s.1.at_ id0 with
    | none => exact Or.inr (Or.inl (VariableValue.Execute_of_unbound id0 rest s h))
    | some v =>
      rw [VariableValue.Execute_of_bound id0 rest s h]
      exact VariableValue.fields_state rest v s

/-- Witness of C23: `x.f` where `x` is the Number 1, `y` where nothing is
bound, and `p.f` where `p` is an instance without fields. -/
theorem C23_field_of_non_instance_undefined_witness :
    Execute 1 (Statement.VariableValue ["x", "f"]) ([("x", Value.number 1)], World.empty)
        = Res.undefined ∧
      Execute 1 (Statement.VariableValue ["y"]) St.initial
        = Res.threw (Thrown.runtime_error "Not found") St.initial ∧
      Execute 1 (Statement.VariableValue ["p", "f"])
          ([("p", Value.inst 1 sampleClassA)], World.empty)
        = Res.threw (Thrown.runtime_error "Not found")
            ([("p", Value.inst 1 sampleClassA)], World.empty) :=
  ⟨C23_field_of_non_instance_undefined.2.1 "x" "f" []
      ([("x", Value.number 1)], World.empty) (Value.number 1) rfl rfl,
    rfl, rfl⟩

end ast

/-! ## How often an operand is executed -/

namespace ast

open runtime runtime.M

/-- C24: the nodes `Add`, `Sub`, `Mult`, `Div`, `Stringify` and `Print`
execute an operand once for each test of its type and once more for each read
of its value, so that a side effect of an operand takes place several times:
from `x = 0`, the operand `x = x + 1` is executed four times as the left
operand of `Add`, twice as the left operand of `Sub`, `Mult` and `Div`, and six
times as the argument of `Stringify`, and the result is computed from the last
execution; from `x = ""`, the argument `x = x + "a"` of `Print` is executed
three times; a method that prints, called as the left operand of `Add`,
prints four times. -/
theorem C24_operands_executed_repeatedly :
    Execute 4 (Statement.Add sampleIncrement (Statement.NumericConst 0))
        ([("x", Value.number 0)], World.empty)
      = Res.ok (Value.number 4) ([("x", Value.number 4)], World.empty) ∧
    Execute 4 (Statement.Sub sampleIncrement (Statement.NumericConst 0))
        ([("x", Value.number 0)], World.empty)
      = Res.ok (Value.number 2) ([("x", Value.number 2)], World.empty) ∧
    Execute 4 (Statement.Mult sampleIncrement (Statement.NumericConst 1))
        ([("x", Value.number 0)], World.empty)
      = Res.ok (Value.number 2) ([("x", Value.number 2)], World.empty) ∧
    Execute 4 (Statement.Div sampleIncrement (Statement.NumericConst 1))
        ([("x", Value.number 0)], World.empty)
      = Res.ok (Value.number 2) ([("x", Value.number 2)], World.empty) ∧
    Execute 4 (Statement.Stringify sampleIncrement) ([("x", Value.number 0)], World.empty)
      = Res.ok (Value.string "6") ([("x", Value.number 6)], World.empty) ∧
    Execute 4 (Statement.Print [sampleAppend]) ([("x", Value.string "")], World.empty)
      = Res.ok Value.None
          ([("x", Value.string "aaa")], { output := "aaa\n", fields := [] }) ∧
    Execute 7 (Statement.Add (Statement.MethodCall (some (Statement.VariableValue ["p"])) "f" [])
          (Statement.NumericConst 1))
        ([("p", Value.inst 1 sampleClassNoisy)], World.empty)
      = Res.ok (Value.number 2)
          ([("p", Value.inst 1 sampleClassNoisy)],
            { output := "x\nx\nx\nx\n", fields := [] }) :=
  ⟨rfl, rfl, rfl, rfl, rfl, rfl, rfl⟩

end ast

/-! ## Instances and their fields -/

namespace runtime

theorem lookup_map_update {α β : Type} [BEq α] [LawfulBEq α] [DecidableEq α] (k : α) (v : β) :
    ∀ (l : List (α × β)) (b : β), List.lookup k l = some b →
      List.lookup k (l.map (fun p => if p.1 = k then (k, v) else p)) = some v
  | [], _, h => by simp at h
  | (a, c) :: l, b, h => by
    by_cases hk : a = k
    · subst hk
      simp [List.lookup_cons]
    · have hb : (k == a) = false := by
        simpa using fun e : k = a => hk e.symm
      simp only [List.lookup_cons, hb] at h
      simp only [List.map_cons, hk, if_false, List.lookup_cons, hb]
      exact lookup_map_update k v l b h

theorem lookup_append_new {α β : Type} [BEq α] [LawfulBEq α] (k : α) (v : β)
    (l : List (α × β)) (h : List.lookup k l = none) :
    List.lookup k (l ++ [(k, v)]) = some v := by
  simp [List.lookup_append, h]

/-- After `closure[key] = value`, `closure.at(key)` is `value`. -/
theorem Closure.at_assign (closure : Closure) (key : String) (value : Value) :
    (closure.assign key value).at_ key = some value := by
  unfold Closure.assign Closure.at_
  cases h : List.lookup key closure with
  | none => exact lookup_append_new key value closure h
  | some b => exact lookup_map_update key value closure b h

/-- The map `Fields()` of an instance after it became `c`. -/
theorem World.Fields_setFields (w : World) (instance_ : Nat) (c : Closure) :
    (w.setFields instance_ c).Fields instance_ = c := by
  unfold World.setFields World.Fields
  cases h : List.lookup instance_ w.fields with
  | none => simp only [lookup_append_new instance_ c w.fields h]
  | some b => simp only [lookup_map_update instance_ c w.fields b h]

end runtime

namespace ast

open runtime runtime.M

theorem ExecuteAll_length {exec : Exec} :
    ∀ (args : List Statement) (s : St) (vals : List Value) (t : St),
      ExecuteAll exec args s = Res.ok vals t → vals.length = args.length
  | [], s, vals, t, h => by
    have h1 : Res.ok [] s = Res.ok vals t := h
    cases h1
    rfl
  | a :: rest, s, vals, t, h => by
    unfold ExecuteAll at h
    cases h1 : exec a s with
    | ok v s1 =>
      rw [bind_of_ok h1] at h
      cases h2 : ExecuteAll exec rest s1 with
      | ok vs s2 =>
        rw [bind_of_ok h2] at h
        have h3 : Res.ok (v :: vs) s2 = Res.ok vals t := h
        cases h3
        simp [ExecuteAll_length rest s1 vs _ h2]
      | threw e s2 => rw [bind_of_threw h2] at h; cases h
      | undefined => rw [bind_of_undefined h2] at h; cases h
      | outOfFuel => rw [bind_of_outOfFuel h2] at h; cases h
    | threw e s1 => rw [bind_of_threw h1] at h; cases h
    | undefined => rw [bind_of_undefined h1] at h; cases h
    | outOfFuel => rw [bind_of_outOfFuel h1] at h; cases h

namespace NewInstance

/-- `NewInstance::Execute` when `__init__` is not called. -/
theorem Execute_without_init (exec : Exec) (instance_ : Nat) (class_ : runtime.Class)
    (args_ : Option (List Statement)) (s : St)
    (h : ∀ args, args_ = some args →
      ClassInstance.HasMethod class_ "__init__" args.length = false) :
    Execute exec instance_ class_ args_ s = Res.ok (Value.inst instance_ class_) s := by
  unfold Execute
  cases args_ with
  | none => rfl
  | some args =>
    simp only [h args rfl, Bool.false_eq_true, if_false]
    rfl

/-- What `NewInstance::Execute` returns is the handle of the instance stored
in the node. -/
theorem Execute_result (exec : Exec) (instance_ : Nat) (class_ : runtime.Class)
    (args_ : Option (List Statement)) (s : St) (v : Value) (t : St)
    (h : Execute exec instance_ class_ args_ s = Res.ok v t) :
    v = Value.inst instance_ class_ := by
  by_cases hi : ∀ args, args_ = some args →
      ClassInstance.HasMethod class_ "__init__" args.length = false
  · rw [Execute_without_init exec instance_ class_ args_ s hi] at h
    cases h
    rfl
  · cases args_ with
    | none => exact absurd (fun _ e => by cases e) hi
    | some args =>
      have hm : ClassInstance.HasMethod class_ "__init__" args.length = true := by
        cases hb : ClassInstance.HasMethod class_ "__init__" args.length with
        | true => rfl
        | false => exact absurd (fun a e => by cases e; exact hb) hi
      unfold Execute at h
      simp only [hm, if_true] at h
      cases h1 : ExecuteAll exec args s with
      | ok vals s1 =>
        rw [bind_of_ok h1] at h
        cases h2 : inContext (ClassInstance.Call exec (instance_, class_) "__init__" vals) s1 with
        | ok r s2 =>
          rw [bind_of_ok h2] at h
          cases h
          rfl
        | threw e s2 => rw [bind_of_threw h2] at h; cases h
        | undefined => rw [bind_of_undefined h2] at h; cases h
        | outOfFuel => rw [bind_of_outOfFuel h2] at h; cases h
      | threw e s1 => rw [bind_of_threw h1] at h; cases h
      | undefined => rw [bind_of_undefined h1] at h; cases h
      | outOfFuel => rw [bind_of_outOfFuel h1] at h; cases h

/-- `NewInstance::Execute` when `__init__` is called: its body runs with
`self` bound to the instance stored in the node, on the world that the
arguments left. -/
theorem Execute_with_init (exec : Exec) (instance_ : Nat) (class_ : runtime.Class)
    (args : List Statement) (s s1 : St) (vals : List Value) (method : Method)
    (hm : class_.GetMethod "__init__" = some method)
    (hn : method.formal_params.length = args.length)
    (hv : ExecuteAll exec args s = Res.ok vals s1) :
    Execute exec instance_ class_ (some args) s
      = (inContext (withClosure
            (ClassInstance.bindArgs (Value.inst instance_ class_) method.formal_params vals)
            (exec method.body)) >>= fun _ => pure (Value.inst instance_ class_)) s1 := by
  have hl := ExecuteAll_length args s vals s1 hv
  have hh : ClassInstance.HasMethod class_ "__init__" args.length = true :=
    (HasMethod_iff _ _ _).mpr ⟨method, hm, hn⟩
  have hc : ClassInstance.Call exec (instance_, class_) "__init__" vals
      = withClosure
          (ClassInstance.bindArgs (Value.inst instance_ class_) method.formal_params vals)
          (exec method.body) := by
    funext w
    exact ClassInstance.Call_of_has exec (instance_, class_) "__init__" vals w method hm
      (by rw [hn, hl])
  unfold Execute
  simp only [hh, if_true]
  rw [bind_of_ok hv, hc]

end NewInstance

end ast

namespace ast

open runtime runtime.M

namespace FieldAssignment

/-- `FieldAssignment::Execute` on the variable `var` that holds the instance
stored at `instance_`. -/
theorem Execute_of_instance (exec : Exec) (var name_ : String) (rv_ : Statement) (s t : St)
    (x : Value) (instance_ : Nat) (class_ : runtime.Class)
    (hrv : exec rv_ s = Res.ok x t)
    (hvar : t.1.at_ var = some (Value.inst instance_ class_)) :
    Execute exec [var] name_ rv_ s
      = Res.ok x (t.1, t.2.setFields instance_ ((t.2.Fields instance_).assign name_ x)) := by
  unfold Execute
  rw [bind_of_ok hrv]
  have ho : VariableValue.Execute [var] t = Res.ok (Value.inst instance_ class_) t := by
    rw [VariableValue.Execute_of_bound var [] t hvar]
    rfl
  rw [bind_of_ok ho]
  rfl

end FieldAssignment

/-- C25 as stated fails: the class `sampleClassInit` has an `__init__` that
sets the field `n` of `self` to 0.  After `p = I()` and `p.n = 5` the instance
of the node has the field `n` with the value 5; a later execution of the same
node calls `__init__` again, and the instance it returns has the field `n`
with the value 0, not with the value written. -/
theorem C25_init_assigns_field_anew :
    Compound.Execute (Execute 5)
        [Statement.Assignment "p" (Statement.NewInstance 1 sampleClassInit (some [])),
          Statement.FieldAssignment ["p"] "n" (Statement.NumericConst 5)] St.initial
      = Res.ok Value.None
          ([("p", Value.inst 1 sampleClassInit)],
            { output := "", fields := [(1, [("n", Value.number 5)])] }) ∧
    Execute 4 (Statement.NewInstance 1 sampleClassInit (some []))
        ([("p", Value.inst 1 sampleClassInit)],
          { output := "", fields := [(1, [("n", Value.number 5)])] })
      = Res.ok (Value.inst 1 sampleClassInit)
          ([("p", Value.inst 1 sampleClassInit)],
            { output := "", fields := [(1, [("n", Value.number 0)])] }) ∧
    VariableValue.fields ["n"] (Value.inst 1 sampleClassInit)
        ([("p", Value.inst 1 sampleClassInit)],
          { output := "", fields := [(1, [("n", Value.number 0)])] })
      = Res.ok (Value.number 0)
          ([("p", Value.inst 1 sampleClassInit)],
            { output := "", fields := [(1, [("n", Value.number 0)])] }) ∧
    VariableValue.fields ["n"] (Value.inst 1 sampleClassInit)
        ([("p", Value.inst 1 sampleClassInit)],
          { output := "", fields := [(1, [("n", Value.number 0)])] })
      ≠ Res.ok (Value.number 5)
          ([("p", Value.inst 1 sampleClassInit)],
            { output := "", fields := [(1, [("n", Value.number 0)])] }) := by
  refine ⟨rfl, rfl, rfl, ?_⟩
  intro h
  have h1 : Res.ok (Value.number 0)
      ([("p", Value.inst 1 sampleClassInit)],
        ({ output := "", fields := [(1, [("n", Value.number 0)])] } : World))
      = Res.ok (Value.number 5)
          ([("p", Value.inst 1 sampleClassInit)],
            ({ output := "", fields := [(1, [("n", Value.number 0)])] } : World)) := h
  injection h1 with h2 _
  injection h2 with h3
  exact absurd h3 (by decide)

/-- C25, amended: what `NewInstance::Execute` returns is always the handle of
the instance stored in the node, so every execution of the node yields the
same instance: after a field was assigned through a variable that holds that
handle, a later execution of the node that calls no `__init__` returns the
handle of an instance that has the field with the value assigned; and when
`__init__` is called, its body runs with `self` bound to that same handle, on
the world left by the arguments, hence on the same map of fields, which holds
the field with the value assigned when the body starts (the body may assign
it anew). -/
theorem C25_new_instance (exec : Exec) (instance_ : Nat) (class_ : runtime.Class)
    (args_ : Option (List Statement)) :
    (∀ (s : St) (v : Value) (t : St),
        NewInstance.Execute exec instance_ class_ args_ s = Res.ok v t →
        v = Value.inst instance_ class_) ∧
      ((∀ args, args_ = some args →
          ClassInstance.HasMethod class_ "__init__" args.length = false) →
        ∀ (var name_ : String) (rv_ : Statement) (s t : St) (x : Value),
          exec rv_ s = Res.ok x t → t.1.at_ var = some (Value.inst instance_ class_) →
          ∃ s1 : St, FieldAssignment.Execute exec [var] name_ rv_ s = Res.ok x s1 ∧
            NewInstance.Execute exec instance_ class_ args_ s1
              = Res.ok (Value.inst instance_ class_) s1 ∧
            VariableValue.fields [name_] (Value.inst instance_ class_) s1 = Res.ok x s1) ∧
      (∀ (args : List Statement) (s s1 : St) (vals : List Value) (method : Method),
        args_ = some args → class_.GetMethod "__init__" = some method →
        method.formal_params.length = args.length →
        ExecuteAll exec args s = Res.ok vals s1 →
        NewInstance.Execute exec instance_ class_ args_ s
            = (inContext (withClosure
                (ClassInstance.bindArgs (Value.inst instance_ class_) method.formal_params vals)
                (exec method.body)) >>= fun _ => pure (Value.inst instance_ class_)) s1 ∧
          Closure.at_
              (ClassInstance.bindArgs (Value.inst instance_ class_) method.formal_params vals)
              "self"
            = some (Value.inst instance_ class_)) ∧
      (∀ (args : List Statement) (method : Method) (var name_ : String) (rv_ : Statement)
          (s t : St) (x : Value) (vals : List Value),
        args_ = some args → class_.GetMethod "__init__" = some method →
        method.formal_params.length = args.length →
        exec rv_ s = Res.ok x t → t.1.at_ var = some (Value.inst instance_ class_) →
        ∃ s1 : St, FieldAssignment.Execute exec [var] name_ rv_ s = Res.ok x s1 ∧
          (s1.2.Fields instance_).at_ name_ = some x ∧
          (ExecuteAll exec args s1 = Res.ok vals s1 →
            NewInstance.Execute exec instance_ class_ args_ s1
              = (inContext (withClosure
                  (ClassInstance.bindArgs (Value.inst instance_ class_) method.formal_params
                    vals)
                  (exec method.body)) >>= fun _ => pure (Value.inst instance_ class_)) s1)) := by
  refine ⟨NewInstance.Execute_result exec instance_ class_ args_, ?_, ?_, ?_⟩
  · intro hno var name_ rv_ s t x hrv hvar
    refine ⟨(t.1, t.2.setFields instance_ ((t.2.Fields instance_).assign name_ x)),
      FieldAssignment.Execute_of_instance exec var name_ rv_ s t x instance_ class_ hrv hvar,
      NewInstance.Execute_without_init exec instance_ class_ args_ _ hno, ?_⟩
    rw [VariableValue.fields_of_instance]
    simp only [World.Fields_setFields, Closure.at_assign]
    rfl
  · intro args s s1 vals method ha hm hn hv
    subst ha
    exact ⟨NewInstance.Execute_with_init exec instance_ class_ args s s1 vals method hm hn hv,
      ClassInstance.bindArgs_self _ _ _⟩
  · intro args method var name_ rv_ s t x vals ha hm hn hrv hvar
    subst ha
    refine ⟨(t.1, t.2.setFields instance_ ((t.2.Fields instance_).assign name_ x)),
      FieldAssignment.Execute_of_instance exec var name_ rv_ s t x instance_ class_ hrv hvar,
      ?_, ?_⟩
    · simp only [World.Fields_setFields, Closure.at_assign]
    · intro hv
      exact NewInstance.Execute_with_init exec instance_ class_ args _ _ vals method hm hn hv

/-- Witness of C25, amended: after `p = A()`, `p.f = 5`, `q = A()` with the
same node
`A()`, `p` and `q` hold the same instance and it has the field `f`; when the
class has an `__init__` that sets `n` to 0, the second execution of the node
sets the field `n` of that instance to 0 again; and an `__init__` that copies
the field `n` to `m` finds the `n` that was there before. -/
theorem C25_new_instance_witness :
    (∃ s1 : St,
        FieldAssignment.Execute (Execute 1) ["p"] "f" (Statement.NumericConst 5)
            ([("p", Value.inst 1 sampleClassA)], World.empty) = Res.ok (Value.number 5) s1 ∧
          NewInstance.Execute (Execute 1) 1 sampleClassA Option.none s1
            = Res.ok (Value.inst 1 sampleClassA) s1 ∧
          VariableValue.fields ["f"] (Value.inst 1 sampleClassA) s1
            = Res.ok (Value.number 5) s1) ∧
      Execute 3 (sampleTwice sampleClassA Option.none "f") St.initial
        = Res.ok Value.None
            ([("p", Value.inst 1 sampleClassA), ("q", Value.inst 1 sampleClassA)],
              { output := "", fields := [(1, [("f", Value.number 5)])] }) ∧
      Execute 6 (sampleTwice sampleClassInit (some []) "n") St.initial
        = Res.ok Value.None
            ([("p", Value.inst 1 sampleClassInit), ("q", Value.inst 1 sampleClassInit)],
              { output := "", fields := [(1, [("n", Value.number 0)])] }) ∧
      Execute 4 (Statement.NewInstance 1 sampleClassCopy (some []))
          ([], { output := "", fields := [(1, [("n", Value.number 5)])] })
        = Res.ok (Value.inst 1 sampleClassCopy)
            ([], { output := "",
                   fields := [(1, [("n", Value.number 5), ("m", Value.number 5)])] }) :=
  ⟨(C25_new_instance (Execute 1) 1 sampleClassA Option.none).2.1
      (fun _ h => Option.noConfusion h) "p" "f" (Statement.NumericConst 5)
      ([("p", Value.inst 1 sampleClassA)], World.empty)
      ([("p", Value.inst 1 sampleClassA)], World.empty) (Value.number 5) rfl rfl,
    rfl, rfl, rfl⟩

end ast

/-! ## Passes of the scanning loop that remove nothing -/

namespace parse

open Outcome

namespace Lexer

/-- A line on which every pass of the scanning loop leaves the view as it is
(whatever it pushes) is scanned for ever: no budget of passes is enough. -/
theorem scanLoop_no_progress {line : List Char} (hi : IgnoreLine line = false)
    (hb : ∀ self, ∃ self1, loopBody line self = Outcome.ok (line, self1)) :
    ∀ (fuel : Nat) (self : Lexer), scanLoop fuel line self = Outcome.outOfFuel := by
  intro fuel
  induction fuel with
  | zero => intro self; simp [scanLoop, hi]
  | succ fuel ih =>
    intro self
    obtain ⟨self1, h1⟩ := hb self
    rw [scanLoop_step fuel hi h1]
    exact ih self1

/-- The pass on `!` before a character that is not `=`: nothing is pushed and
nothing is removed. -/
theorem loopBody_bang {c : Char} (rest : List Char) (self : Lexer) (hc : c ≠ '=') :
    loopBody ('!' :: c :: rest) self = Outcome.ok ('!' :: c :: rest, self) := by
  simp [loopBody, front, subscript, isdigit, isprint, AddSymvol, AddComparisonOperator, hc]

/-- The pass on a control character: none of the three tests holds. -/
theorem loopBody_control {c : Char} (rest : List Char) (self : Lexer)
    (hc : isControl c = true) :
    loopBody (c :: rest) self = Outcome.ok (c :: rest, self) := by
  have h : c.toNat < 32 ∨ c.toNat = 127 := by simpa [isControl] using hc
  have h1 : c ≠ ' ' := by
    intro e
    subst e
    revert h
    decide
  have h2 : isdigit c = false := by
    simp only [isdigit, decide_eq_false_iff_not]
    omega
  have h3 : isprint c = false := by
    simp only [isprint, decide_eq_false_iff_not]
    omega
  simp [loopBody, front, subscript, h1, h2, h3]

end Lexer

end parse

namespace parse

open Outcome

namespace Lexer

/-- The pass on a printable character that begins no token: `AddId` pushes
the `Id` of the empty word and removes nothing. -/
theorem loopBody_stray {c : Char} (rest : List Char) (self : Lexer) (hc : isStray c = true) :
    loopBody (c :: rest) self = Outcome.ok (c :: rest, self.push_back (Token.Id [])) := by
  simp only [isStray, Bool.and_eq_true, Bool.not_eq_true', List.contains_eq_any_beq] at hc
  obtain ⟨⟨⟨h1, h2⟩, h3⟩, h4⟩ := hc
  have h5 : ∀ d ∈ " #=!<>*/+-(),.:;'\"".toList, c ≠ d := by
    intro d hd e
    have : (" #=!<>*/+-(),.:;'\"".toList.any fun x => c == x) = true :=
      List.any_eq_true.mpr ⟨d, hd, by simp [e]⟩
    rw [h4] at this
    exact Bool.noConfusion this
  have hsp : c ≠ ' ' := h5 ' ' (by decide)
  have htab : c ≠ '\t' := by
    intro e
    subst e
    exact Bool.noConfusion h1
  have hnl : c ≠ '\n' := by
    intro e
    subst e
    exact Bool.noConfusion h1
  have hk : List.takeWhile isIdChar (c :: rest) = [] := by simp [h3]
  have hid : idToken [] = Token.Id [] := by decide
  simp [loopBody, front, subscript, hsp, h1, h2, AddSymvol, AddId, hk, hid, removePrefix,
    htab, hnl, h5 '=' (by decide), h5 '!' (by decide), h5 '<' (by decide), h5 '>' (by decide),
    h5 '*' (by decide), h5 '/' (by decide), h5 '+' (by decide), h5 '-' (by decide),
    h5 '(' (by decide), h5 ')' (by decide), h5 ',' (by decide), h5 '.' (by decide),
    h5 ':' (by decide), h5 ';' (by decide), h5 '\'' (by decide), h5 '"' (by decide)]

end Lexer

end parse

namespace parse

open Outcome

namespace Lexer

/-- When the pass on a line that is not ignorable leads to a view that is
scanned for ever, the line is scanned for ever. -/
theorem scanLoop_never_of_step {line line1 : List Char} {self self1 : Lexer}
    (hi : IgnoreLine line = false) (hb : loopBody line self = Outcome.ok (line1, self1))
    (h : ∀ fuel, scanLoop fuel line1 self1 = Outcome.outOfFuel) :
    ∀ fuel, scanLoop fuel line self = Outcome.outOfFuel := by
  intro fuel
  cases fuel with
  | zero => simp [scanLoop, hi]
  | succ k => rw [scanLoop_step k hi hb, h k]

/-- The first line that `std::getline` delivers begins with the text read so
far. -/
theorem getlines_first : ∀ (input cur : List Char), cur ≠ [] →
    ∃ l ls, getlines cur input = (cur ++ l) :: ls
  | [], cur, h => ⟨[], [], by simp [getlines, h]⟩
  | c :: cs, cur, h => by
    by_cases hc : c = '\n'
    · exact ⟨[], getlines [] cs, by simp [getlines, hc]⟩
    · obtain ⟨l, ls, e⟩ := getlines_first cs (cur ++ [c]) (by simp)
      exact ⟨c :: l, ls, by simp [getlines, hc, e]⟩

/-- `AddTokensFromString` on a line whose first character is neither a space
nor `#` and whose scan never ends. -/
theorem AddTokensFromString_never {c : Char} {l : List Char} (self : Lexer)
    (hsp : c ≠ ' ') (hh : c ≠ '#')
    (h : ∀ fuel self1, scanLoop fuel (c :: l) self1 = Outcome.outOfFuel) (fuel : Nat) :
    AddTokensFromString fuel (c :: l) self = Outcome.outOfFuel := by
  have hi : IgnoreLine (c :: l) = false := IgnoreLine_cons_eq_false l hsp hh
  have h0 : leadingSpaces (c :: l) = 0 := by simp [leadingSpaces, hsp]
  unfold AddTokensFromString
  rw [AddIndent_eq self hi]
  simp only [h0, Nat.zero_mod, ne_eq, not_true_eq_false, if_false, List.drop_zero, ok_bind, h]
  rfl

/-- The constructor on an input whose first line is scanned for ever. -/
theorem construct_never {c : Char} {l : List Char} {ls : List (List Char)} {input : List Char}
    (hg : getlines [] input = (c :: l) :: ls) (hsp : c ≠ ' ') (hh : c ≠ '#')
    (h : ∀ fuel self1, scanLoop fuel (c :: l) self1 = Outcome.outOfFuel) (fuel : Nat) :
    construct fuel input = Outcome.outOfFuel := by
  rw [construct_eq_bind, hg, readLines_cons _ _ _ (IgnoreLine_cons_eq_false l hsp hh),
    AddTokensFromString_never initial hsp hh h fuel]
  rfl

end Lexer

end parse

/-! ## The claim on the termination of the lexer -/

namespace parse

open Outcome Lexer

/-- C26 (the code on characters that begin no token): a pass of the scanning
loop removes nothing from a view that begins with `!` before a character
other than `=` (nothing is pushed), with a printable character that begins no
token, as `@`, `$` and `[` (`AddId` pushes the `Id` of the empty word), or
with a control character (none of the three tests holds).  The loop then
repeats the pass for ever: on an input that begins with one of these,
construction produces neither a token sequence nor a `LexerError` with any
budget, and so on the line `x = !y`. -/
theorem C26_scanning_loop_without_progress :
    (∀ (c : Char) (rest : List Char) (self : Lexer), c ≠ '=' →
        loopBody ('!' :: c :: rest) self = Outcome.ok ('!' :: c :: rest, self)) ∧
      (∀ (c : Char) (rest : List Char) (self : Lexer), isStray c = true →
        loopBody (c :: rest) self
          = Outcome.ok (c :: rest, self.push_back (Token.Id []))) ∧
      (∀ (c : Char) (rest : List Char) (self : Lexer), isControl c = true →
        loopBody (c :: rest) self = Outcome.ok (c :: rest, self)) ∧
      (∀ (c : Char) (rest : List Char) (fuel : Nat), c ≠ '=' → c ≠ '\n' →
        construct fuel ('!' :: c :: rest) = Outcome.outOfFuel) ∧
      (∀ (c : Char) (rest : List Char) (fuel : Nat), isStray c = true →
        construct fuel (c :: rest) = Outcome.outOfFuel) ∧
      (∀ (c : Char) (rest : List Char) (fuel : Nat), isControl c = true → c ≠ '\n' →
        construct fuel (c :: rest) = Outcome.outOfFuel) ∧
      (isStray '@' = true ∧ isStray '$' = true ∧ isStray '[' = true) ∧
      (∀ fuel, construct fuel "x = !y".toList = Outcome.outOfFuel) := by
  refine ⟨fun c rest self hc => loopBody_bang rest self hc,
    fun c rest self hc => loopBody_stray rest self hc,
    fun c rest self hc => loopBody_control rest self hc, ?_, ?_, ?_,
    ⟨by decide, by decide, by decide⟩, ?_⟩
  · intro c rest fuel hc hnl
    obtain ⟨l, ls, e⟩ := getlines_first rest ['!', c] (by simp)
    have hg : getlines [] ('!' :: c :: rest) = ('!' :: c :: l) :: ls := by
      simp [getlines, hnl, e]
    exact construct_never hg (by decide) (by decide)
      (fun k self1 => scanLoop_stuck (IgnoreLine_cons_eq_false _ (by decide) (by decide))
        (loopBody_bang l self1 hc) k) fuel
  · intro c rest fuel hc
    have h1 : isprint c = true := by
      simp only [isStray, Bool.and_eq_true] at hc
      exact hc.1.1.1
    have hne : ∀ d : Char, isStray d = false → c ≠ d := by
      intro d hd e
      rw [e, hd] at hc
      exact Bool.noConfusion hc
    have hnl : c ≠ '\n' := hne '\n' (by decide)
    have hsp : c ≠ ' ' := hne ' ' (by decide)
    have hh : c ≠ '#' := hne '#' (by decide)
    obtain ⟨l, ls, e⟩ := getlines_first rest [c] (by simp)
    have hg : getlines [] (c :: rest) = (c :: l) :: ls := by
      simp [getlines, hnl, e]
    exact construct_never hg hsp hh
      (scanLoop_no_progress (IgnoreLine_cons_eq_false l hsp hh)
        (fun self => ⟨_, loopBody_stray l self hc⟩)) fuel
  · intro c rest fuel hc hnl
    have hne : ∀ d : Char, isControl d = false → c ≠ d := by
      intro d hd e
      rw [e, hd] at hc
      exact Bool.noConfusion hc
    have hsp : c ≠ ' ' := hne ' ' (by decide)
    have hh : c ≠ '#' := hne '#' (by decide)
    obtain ⟨l, ls, e⟩ := getlines_first rest [c] (by simp)
    have hg : getlines [] (c :: rest) = (c :: l) :: ls := by
      simp [getlines, hnl, e]
    exact construct_never hg hsp hh
      (fun k self1 => scanLoop_stuck (IgnoreLine_cons_eq_false l hsp hh)
        (loopBody_control l self1 hc) k) fuel
  · have hg : getlines [] "x = !y".toList = ['x', ' ', '=', ' ', '!', 'y'] :: [] := by decide
    refine construct_never hg (by decide) (by decide) ?_
    intro fuel self1
    have h5 : ∀ (self : Lexer) (k : Nat), scanLoop k ['!', 'y'] self = Outcome.outOfFuel :=
      fun self k => scanLoop_stuck (IgnoreLine_cons_eq_false _ (by decide) (by decide))
        (loopBody_bang [] self (by decide)) k
    have h4 : ∀ (self : Lexer) (k : Nat), scanLoop k [' ', '!', 'y'] self = Outcome.outOfFuel :=
      fun self => scanLoop_never_of_step (by decide)
        (show loopBody [' ', '!', 'y'] self = Outcome.ok (['!', 'y'], self) from rfl)
        (h5 self)
    have h3 : ∀ (self : Lexer) (k : Nat),
        scanLoop k ['=', ' ', '!', 'y'] self = Outcome.outOfFuel :=
      fun self => scanLoop_never_of_step (by decide)
        (show loopBody ['=', ' ', '!', 'y'] self
          = Outcome.ok ([' ', '!', 'y'], self.push_back (Token.Char '=')) from rfl)
        (h4 _)
    have h2 : ∀ (self : Lexer) (k : Nat),
        scanLoop k [' ', '=', ' ', '!', 'y'] self = Outcome.outOfFuel :=
      fun self => scanLoop_never_of_step (by decide)
        (show loopBody [' ', '=', ' ', '!', 'y'] self
          = Outcome.ok (['=', ' ', '!', 'y'], self) from rfl)
        (h3 self)
    exact scanLoop_never_of_step (by decide)
      (show loopBody ['x', ' ', '=', ' ', '!', 'y'] self1
        = Outcome.ok ([' ', '=', ' ', '!', 'y'], self1.push_back (Token.Id ['x'])) from rfl)
      (h2 _) fuel

/-- Witness of C26: the inputs `!a`, `@`, `$x`, `[1]` and the carriage
return, with a budget of 1000 passes. -/
theorem C26_scanning_loop_without_progress_witness :
    construct 1000 "!a".toList = Outcome.outOfFuel ∧
      construct 1000 "@".toList = Outcome.outOfFuel ∧
      construct 1000 "$x".toList = Outcome.outOfFuel ∧
      construct 1000 "[1]".toList = Outcome.outOfFuel ∧
      construct 1000 "\r".toList = Outcome.outOfFuel :=
  ⟨C26_scanning_loop_without_progress.2.2.2.1 'a' [] 1000 (by decide) (by decide),
    C26_scanning_loop_without_progress.2.2.2.2.1 '@' [] 1000 (by decide),
    C26_scanning_loop_without_progress.2.2.2.2.1 '$' ['x'] 1000 (by decide),
    C26_scanning_loop_without_progress.2.2.2.2.1 '[' ['1', ']'] 1000 (by decide),
    C26_scanning_loop_without_progress.2.2.2.2.2.1 '\r' [] 1000 (by decide) (by decide)⟩

end parse
